import Mathlib

/-!
# ABI serializer of go-uuoskit: a shallow embedding

The definitions below follow `src/abiserializer.go`.  Conventions of the embedding:

* a Go `string` that carries data (a JSON scalar text, a decoded name, a memo) is the list of
  its bytes (`Bytes`); names of structs, fields, types, actions and contracts are decoded JSON
  strings and are kept as `String`;
* a Go `map[string]T` is an association list in which the first binding of a key is the live
  one;
* the encoder buffer is append only, so a packing function returns the bytes it appended
  together with its error (if any); a run-time panic is a result of its own;
* recursion depth is bounded by an explicit `fuel` argument; running out of it is a result of
  its own (`Fault.fuel`), distinct from every error the code can return.
-/

namespace Uuoskit

/-! ## Bytes and texts -/

/-- A byte string: every element is meant to be below 256. -/
abbrev Bytes := List Nat

/-- The bytes of an ASCII literal. -/
def txt (s : String) : Bytes := s.toList.map Char.toNat

/-- Little-endian encoding of `n` modulo `2 ^ (8 * w)` on `w` bytes. -/
def leBytes : Nat → Nat → Bytes
  | 0, _ => []
  | w + 1, n => (n % 256) :: leBytes w (n / 256)

/-- Value of a little-endian byte string. -/
def leValue : Bytes → Nat
  | [] => 0
  | b :: bs => b + 256 * leValue bs

/-- Two's complement reading of an unsigned `bits`-bit pattern. -/
def toSigned (bits : Nat) (n : Nat) : Int :=
  if n < 2 ^ (bits - 1) then (n : Int) else (n : Int) - (2 : Int) ^ bits

/-- Unsigned `bits`-bit pattern of an integer (conversion to a fixed-width Go integer). -/
def toUnsigned (bits : Nat) (n : Int) : Nat := (n % (2 : Int) ^ bits).toNat

/-- The Go expression `make([]byte, n)` followed by `copy(buf, bs)`. -/
def copyInto (n : Nat) (bs : Bytes) : Bytes :=
  (bs ++ List.replicate (n - bs.length) 0).take n

/-! ## Go maps and the ordered map of the result -/

/-- A Go `map[string]T`: association list, the first binding of a key is the live one. -/
abbrev GoMap (α : Type) := List (String × α)

/-- The Go lookup `v, ok := m[k]`. -/
def GoMap.get {α : Type} (m : GoMap α) (k : String) : Option α := List.lookup k m

/-- The Go assignment `m[k] = v`. -/
def GoMap.set {α : Type} (m : GoMap α) (k : String) (v : α) : GoMap α := (k, v) :: m

/-- The method `Set` of `orderedmap.OrderedMap`: an existing key keeps its position and gets
the new value, a new key is appended. -/
def omSet {α : Type} : List (String × α) → String → α → List (String × α)
  | [], k, v => [(k, v)]
  | (k0, v0) :: rest, k, v => if k0 = k then (k0, v) :: rest else (k0, v0) :: omSet rest k v

/-- The error values the serializer builds with `fmt.Errorf`, and the errors of its libraries. -/
inductive Error where
  /-- The error `missing field %s`. -/
  | missingField (name : String)
  /-- The error `unknown type %s`. -/
  | unknownType (typ : String)
  /-- The error `Unknown ABI type %s` of `ParseAbiValue`. -/
  | unknownAbiType (typ : String)
  /-- The errors `invalid <typ> value: %s`. -/
  | invalidValue (typ : String) (v : Bytes)
  /-- The errors `<typ> overflow: %d`. -/
  | overflow (typ : String) (n : Int)
  /-- The error `abi struct not found for %s::%s`. -/
  | structNotFound (contractName : String) (name : String)
  /-- The error `unknown action %s::%s`. -/
  | unknownAction (contractName : String) (name : String)
  /-- An error returned by a library call (strconv, hex, json, time, key codec). -/
  | lib (what : String)
  /-- An error returned by the byte decoder. -/
  | decoder (what : String)
  deriving DecidableEq, Repr

/-- What ends a call other than a normal return with a nil error. -/
inductive Fault where
  /-- The call returned this non-nil error. -/
  | error (e : Error)
  /-- The call panicked. -/
  | panic (what : String)
  /-- The recursion went deeper than the fuel of the embedding. -/
  | fuel
  deriving DecidableEq, Repr

/-! ## The ABI model -/

/-- The Go struct `ABIAction`. -/
structure ABIAction where
  Name : String
  Typ : String
  RicardianContract : String
  deriving DecidableEq, Repr

/-- The Go struct `ABIStructField` (its field `Type` is `Typ` here). -/
structure ABIStructField where
  Name : String
  Typ : String
  deriving DecidableEq, Repr

/-- The Go struct `ABIStruct`. -/
structure ABIStruct where
  Name : String
  Base : String
  Fields : List ABIStructField
  deriving DecidableEq, Repr

/-- The Go struct `ABI`; the pass-through members (tables, clauses, variants, extensions, error
messages) are not read by the serializer and are left out. -/
structure ABI where
  Version : String
  Structs : List ABIStruct
  Types : List String
  Actions : List ABIAction
  deriving DecidableEq, Repr

/-- The Go type `AbiValue` after `UnmarshalJSON`: the raw text of a JSON scalar, a slice of
values, or a map of values. -/
inductive AbiValue where
  | str (raw : Bytes)
  | arr (elems : List AbiValue)
  | map (m : List (String × AbiValue))

/-- A JSON text as `encoding/json` scans it: the raw text of a literal (string with its quotes,
number, `true`, `false`, `null`), an array, or an object with its decoded keys in document
order. -/
inductive Json where
  | lit (raw : Bytes)
  | arr (elems : List Json)
  | obj (members : List (String × Json))

/-- The values `unpackAbiStructField` and `unpackAbiStruct` produce (a Go `interface{}`): the
dynamic integer types are merged into `int` and `uint`, floats are kept as bit patterns. -/
inductive Value where
  | bool (b : Bool)
  | int (n : Int)
  | uint (n : Nat)
  | float32 (bits : Nat)
  | float64 (bits : Nat)
  | str (s : Bytes)
  | obj (m : List (String × Value))
  | arr (elems : List Value)

/-- An `orderedmap.OrderedMap` of unpacked values. -/
abbrev OrderedMap := List (String × Value)

/-! ## Collaborators outside the serializer

The identifier codec (`S2N`, `N2S`) and the zig-zag/LEB128 details of `varint32` live in files of
the repository that the serializer only calls; floating point parsing, time parsing and
formatting, the base-58 key codec and `encoding/json` are libraries.  They are parameters of
the embedding.  A JSON text that the serializer receives is given by its document tree
(`Json`, or the decoded `ABI`), `none` standing for a text that is not JSON. -/

/-- The unread rest of the buffer of a `Decoder`. -/
abbrev Decoder := Bytes

/-- The functions the serializer calls and does not define. -/
structure Deps where
  /-- The identifier codec `S2N`, a `uint64`. -/
  S2N : Bytes → Nat
  /-- The result type of `S2N` is `uint64`. -/
  S2N_lt : ∀ s, S2N s < 2 ^ 64
  /-- The identifier codec `N2S`. -/
  N2S : Nat → Bytes
  /-- The call `strconv.ParseFloat(s, bitSize)`: `none` for an error, else the bit pattern that
  `PackFloat32(float32(n))` (bitSize 32) or `PackFloat64(n)` (bitSize 64) writes. -/
  ParseFloat : Bytes → Nat → Option Nat
  /-- The bytes `Encoder.PackVarInt32` writes. -/
  PackVarInt32 : Int → Bytes
  /-- The method `Decoder.UnpackVarInt32`. -/
  UnpackVarInt32 : Decoder → Option (Int × Decoder)
  /-- The call `time.Parse(time.RFC3339, s)`: `none` for an error, else the results of `Unix()`
  and `UnixNano()` of the parsed time. -/
  timeParse : Bytes → Option (Int × Int)
  /-- The text `time.Unix(sec, nsec).Format("2006-01-02T15:04:05")`. -/
  timeFormat : Int → Int → Bytes
  /-- The call `secp256k1.PublicKeyFromBase58`: the 33 bytes of `pub.Data`. -/
  PublicKeyFromBase58 : Bytes → Option Bytes
  /-- The method `String` of a public key with the given data. -/
  PublicKeyString : Bytes → Bytes
  /-- The call `secp256k1.NewSignatureFromBase58`: the 65 bytes of `sig.Data`. -/
  NewSignatureFromBase58 : Bytes → Option Bytes
  /-- The method `String` of a signature with the given data. -/
  SignatureString : Bytes → Bytes
  /-- The call `json.Unmarshal(v, &a)` for an `AbiExtendedAsset`: quantity and contract. -/
  unmarshalExtendedAsset : Bytes → Option (Bytes × Bytes)
  /-- The call `json.Marshal(result)` for an unpacked record. -/
  jsonMarshal : OrderedMap → Option Bytes
  /-- The value of `int64(math.Pow10(p))` for `p > 18`, which the Go specification leaves to
  the implementation. -/
  pow10Overflow : Nat → Int

/-! ## The byte codec boundary -/

/-- Modelled from the spec: `Encoder.PackBool` of the byte codec boundary (encoder.go is not
among the sources), one byte 0 or 1. -/
def PackBool (b : Bool) : Bytes := [if b then 1 else 0]

/-- Modelled from the spec: the fixed-width little-endian writers of the byte codec boundary
(`PackInt8` .. `PackUint64`, encoder.go is not among the sources): `bits / 8` bytes holding the
two's complement pattern of the value. -/
def PackInt (bits : Nat) (n : Int) : Bytes := leBytes (bits / 8) (toUnsigned bits n)

/-- Loop of `PackVarUint32`: seven bits per byte, low group first, the high bit marks
continuation. -/
def varuintLoop : Nat → Nat → Bytes
  | 0, _ => []
  | k + 1, n => if n < 128 then [n] else (n % 128 + 128) :: varuintLoop k (n / 128)

/-- Modelled from the spec: `Encoder.PackVarUint32` of the byte codec boundary (encoder.go is
not among the sources), the LEB128-style encoding of a `uint32`. -/
def PackVarUint32 (n : Nat) : Bytes := varuintLoop 5 (n % 2 ^ 32)

/-- Modelled from the spec: `Encoder.PackBytes` and `Encoder.PackString` of the byte codec
boundary (encoder.go is not among the sources), the length as a varuint and the raw bytes. -/
def PackBytes (bs : Bytes) : Bytes := PackVarUint32 bs.length ++ bs

/-- Modelled from the spec: `Decoder.Read` of the byte codec boundary (decoder.go is not among
the sources): the next `n` bytes, or an error that leaves the cursor where it was. -/
def Decoder.read (dec : Decoder) (n : Nat) : Except Fault Bytes × Decoder :=
  if n ≤ dec.length then (.ok (dec.take n), dec.drop n)
  else (.error (.error (.decoder "read past the end")), dec)

/-- Modelled from the spec: the fixed-width little-endian unsigned readers of the byte codec
boundary (`UnpackUint8` .. `UnpackUint64`, `ReadUint32`, `ReadUint64`). -/
def Decoder.readUint (dec : Decoder) (bits : Nat) : Except Fault Nat × Decoder :=
  match dec.read (bits / 8) with
  | (.ok bs, rest) => (.ok (leValue bs), rest)
  | (.error e, rest) => (.error e, rest)

/-- Modelled from the spec: the fixed-width little-endian signed readers of the byte codec
boundary (`UnpackInt8` .. `UnpackInt64`). -/
def Decoder.readInt (dec : Decoder) (bits : Nat) : Except Fault Int × Decoder :=
  match dec.read (bits / 8) with
  | (.ok bs, rest) => (.ok (toSigned bits (leValue bs)), rest)
  | (.error e, rest) => (.error e, rest)

/-- Loop of `UnpackVarUint32`: accumulates seven bits per byte until a byte without the
continuation bit. -/
def varuintRead : Nat → Nat → Bytes → Option (Nat × Bytes)
  | _, _, [] => none
  | shift, acc, b :: rest =>
    if b < 128 then some ((acc + b * 2 ^ shift) % 2 ^ 32, rest)
    else varuintRead (shift + 7) (acc + (b % 128) * 2 ^ shift) rest

/-- Modelled from the spec: `Decoder.UnpackVarUint32` and `Decoder.UnpackLength` of the byte
codec boundary (decoder.go is not among the sources). -/
def Decoder.UnpackVarUint32 (dec : Decoder) : Except Fault Nat × Decoder :=
  match varuintRead 0 0 dec with
  | some (n, rest) => (.ok n, rest)
  | none => (.error (.error (.decoder "varuint past the end")), dec)

/-- Modelled from the spec: `Decoder.UnpackBytes` and `Decoder.UnpackString` of the byte codec
boundary (decoder.go is not among the sources): a varuint length and that many bytes. -/
def Decoder.UnpackBytes (dec : Decoder) : Except Fault Bytes × Decoder :=
  match dec.UnpackVarUint32 with
  | (.ok n, rest) =>
    (match rest.read n with
     | (.ok bs, rest2) => (.ok bs, rest2)
     | (.error e, rest2) => (.error e, rest2))
  | (.error e, rest) => (.error e, rest)

/-! ## Library functions with a direct model -/

/-- Whether a byte is an ASCII decimal digit. -/
def isDigit (c : Nat) : Bool := decide (48 ≤ c) && decide (c ≤ 57)

/-- Value of a string of decimal digits read from the left, starting from `acc`. -/
def digitsValue : Nat → Bytes → Nat
  | acc, [] => acc
  | acc, c :: cs => digitsValue (acc * 10 + (c - 48)) cs

/-- The call `strconv.ParseUint(s, 10, 64)`: digits only, at least one, value below `2 ^ 64`. -/
def ParseUint (s : Bytes) : Option Nat :=
  if s ≠ [] ∧ s.all isDigit = true ∧ digitsValue 0 s < 2 ^ 64 then some (digitsValue 0 s) else none

/-- The calls `strconv.Atoi(s)` and `strconv.ParseInt(s, 10, 64)` on a 64-bit platform: one
optional sign, then digits only, at least one, value within the `int64` range. -/
def Atoi (s : Bytes) : Option Int :=
  match s with
  | [] => none
  | c :: cs =>
    let neg := decide (c = 45)
    let ds := if c = 45 ∨ c = 43 then cs else c :: cs
    if ds ≠ [] ∧ ds.all isDigit = true then
      let n : Int := digitsValue 0 ds
      let v : Int := if neg then -n else n
      if -(2 : Int) ^ 63 ≤ v ∧ v < (2 : Int) ^ 63 then some v else none
    else none

/-- The function `StringToInt`. -/
def StringToInt (s : Bytes) : Option Int := Atoi s

/-- Value of a hexadecimal digit, upper or lower case. -/
def hexVal (c : Nat) : Option Nat :=
  if 48 ≤ c ∧ c ≤ 57 then some (c - 48)
  else if 97 ≤ c ∧ c ≤ 102 then some (c - 87)
  else if 65 ≤ c ∧ c ≤ 70 then some (c - 55)
  else none

/-- The call `hex.DecodeString`: an even number of hexadecimal digits, two per byte. -/
def hexDecode : Bytes → Option Bytes
  | [] => some []
  | [_] => none
  | a :: b :: rest =>
    match hexVal a, hexVal b, hexDecode rest with
    | some x, some y, some bs => some ((16 * x + y) :: bs)
    | _, _, _ => none

/-- A lower case hexadecimal digit. -/
def hexDigit (n : Nat) : Nat := if n < 10 then n + 48 else n + 87

/-- The call `hex.EncodeToString`. -/
def hexEncode : Bytes → Bytes
  | [] => []
  | b :: bs => hexDigit (b / 16 % 16) :: hexDigit (b % 16) :: hexEncode bs

/-- Decimal digits of a positive number, most significant first, appended to `acc`; `fuel`
bounds the number of digits. -/
def decDigits : Nat → Nat → Bytes → Bytes
  | 0, _, acc => acc
  | fuel + 1, n, acc =>
    if n < 10 then (n + 48) :: acc else decDigits fuel (n / 10) ((n % 10 + 48) :: acc)

/-- The decimal text of a natural number (the verb `%d` of `fmt`). -/
def fmtNat (n : Nat) : Bytes := decDigits (n + 1) n []

/-- The verb `%d` of `fmt` for a signed integer. -/
def fmtInt (n : Int) : Bytes :=
  if n < 0 then 45 :: fmtNat n.natAbs else fmtNat n.natAbs

/-- The verb `%0<w>d` of `fmt` with the zero flag and width `w`: zeros are inserted after the
sign until the text is `w` bytes long; with `w = 0` the verb reads `%00d`, which is the zero
flag twice and no width. -/
def fmtIntZero (w : Nat) (n : Int) : Bytes :=
  let ds := fmtNat n.natAbs
  if n < 0 then 45 :: (List.replicate (w - 1 - ds.length) 48 ++ ds)
  else List.replicate (w - ds.length) 48 ++ ds

/-- The call `strings.TrimRight(s, "\x00")`. -/
def trimRightNul (s : Bytes) : Bytes := (s.reverse.dropWhile (fun c => c = 0)).reverse

/-- The function `StripString`. -/
def StripString (v : Bytes) : Option Bytes :=
  if v.length < 2 then none
  else if v.head? ≠ some 34 ∨ v.getLast? ≠ some 34 then none
  else some ((v.drop 1).take (v.length - 2))

/-- The loop of `IsSymbolValid` once a NUL byte was seen: the rest must be NUL. -/
def allNul (s : Bytes) : Bool := s.all (fun c => c = 0)

/-- The loop of `IsSymbolValid`. -/
def symbolLoop : Bytes → Bool
  | [] => true
  | c :: rest =>
    if 65 ≤ c ∧ c ≤ 90 then symbolLoop rest
    else if c = 0 then allNul rest
    else false

/-- The function `IsSymbolValid`. -/
def IsSymbolValid (sym : Bytes) : Bool :=
  if sym.length > 7 ∨ sym.length ≤ 0 then false else symbolLoop sym

/-! ## The serializer and its registry -/

/-- The Go struct `ABISerializer`: the system structs by name (`abiMap`), the primitive type
names (`baseTypeMap`), the registry (`contractAbiMap`) and the contract of the running pack
call (`contractName`).  The encoder and the decoder are threaded through the functions. -/
structure ABISerializer where
  abiMap : GoMap ABIStruct
  baseTypeMap : List String
  contractAbiMap : GoMap ABI
  contractName : String

/-- The first struct of the list with the given name (the loops over `abi.Structs`). -/
def findStruct (structs : List ABIStruct) (name : String) : Option ABIStruct :=
  structs.find? (fun s => decide (s.Name = name))

/-- The method `AddContractABI`: the new registry, and the error of `json.Unmarshal` if any.
The argument `abi` is the result of `json.Unmarshal(abi, abiObj)`, `none` for an error. -/
def AddContractABI (t : ABISerializer) (contractName : String) (abi : Option ABI) :
    ABISerializer × Option Error :=
  match abi with
  | none => (t, some (.lib "json.Unmarshal"))
  | some abiObj => ({ t with contractAbiMap := t.contractAbiMap.set contractName abiObj }, none)

/-- The method `GetAbiStruct`.  For an unregistered contract `abi` is a nil pointer, and
`abi.Structs` dereferences it. -/
def GetAbiStruct (t : ABISerializer) (contractName structName : String) :
    Except Fault (Option ABIStruct) :=
  match t.contractAbiMap.get contractName with
  | none => .error (.panic "nil pointer dereference")
  | some abi =>
    match findStruct abi.Structs structName with
    | some s => .ok (some s)
    | none => .ok (t.abiMap.get structName)

/-- The loop over `abi.Actions` in `GetActionStruct`. -/
def actionLoop (structs : List ABIStruct) (actionName : String) :
    List ABIAction → Option ABIStruct
  | [] => none
  | action :: rest =>
    if action.Name = actionName then
      match findStruct structs action.Typ with
      | some s => some s
      | none => actionLoop structs actionName rest
    else actionLoop structs actionName rest

/-- The method `GetActionStruct`. -/
def GetActionStruct (t : ABISerializer) (contractName actionName : String) : Option ABIStruct :=
  match t.contractAbiMap.get contractName with
  | none => none
  | some abi => actionLoop abi.Structs actionName abi.Actions

/-- The method `GetActionStructName`; it dereferences `abi` like `GetAbiStruct`. -/
def GetActionStructName (t : ABISerializer) (contractName actionName : String) :
    Except Fault String :=
  match t.contractAbiMap.get contractName with
  | none => .error (.panic "nil pointer dereference")
  | some abi =>
    match abi.Actions.find? (fun a => decide (a.Name = actionName)) with
    | some action => .ok action.Typ
    | none => .ok ""

/-! ## Packing -/

/-- What a packing function did: the bytes it appended to the encoder and how it ended
(`none` is a nil error). -/
structure PackRes where
  out : Bytes
  fault : Option Fault
  deriving DecidableEq, Repr

/-- A packing step that appended `bs` and returned nil. -/
def PackRes.wrote (bs : Bytes) : PackRes := ⟨bs, none⟩

/-- A packing step that appended nothing and returned the error `e`. -/
def PackRes.fail (e : Error) : PackRes := ⟨[], some (.error e)⟩

/-- The function `ParseAsset`. -/
def ParseAsset (d : Deps) (v : Bytes) : Option Bytes :=
  match List.splitOn 32 v with
  | [amount, symbol_code] =>
    if IsSymbolValid symbol_code = false then none
    else if (d.ParseFloat amount 64).isNone then none
    else
      match List.splitOn 46 amount with
      | [a0, a1] =>
        (match Atoi a1 with
         | none => none
         | some n =>
           if n ≠ 0 then none
           else
             let precision := a1.length
             match Atoi a0 with
             | none => none
             | some amt =>
               if amt < 0 then none
               else
                 match Atoi (List.erase amount 46) with
                 | none => none
                 | some nAmount =>
                   some (PackInt 64 nAmount ++ [precision % 256] ++ copyInto 7 symbol_code))
      | _ => none
  | _ => none

/-- A fixed-width integer case of `ParseAbiStringValue`: `StringToInt`, the range check, the
writer of the given width. -/
def packRanged (typ : String) (bits : Nat) (lo hi : Int) (v : Bytes) : PackRes :=
  match StringToInt v with
  | none => .fail (.lib "strconv.Atoi")
  | some n =>
    if n > hi ∨ n < lo then .fail (.overflow typ n) else .wrote (PackInt bits n)

/-- The checksum cases of `ParseAbiStringValue`. -/
def packChecksum (typ : String) (size : Nat) (v : Bytes) : PackRes :=
  match StripString v with
  | none => .fail (.invalidValue typ [])
  | some v =>
    match hexDecode v with
    | none => .fail (.lib "hex.DecodeString")
    | some bs =>
      if bs.length > size then .fail (.invalidValue typ v) else .wrote (copyInto size bs)

/-- The method `ParseAbiStringValue`. -/
def ParseAbiStringValue (d : Deps) (typ : String) (v : Bytes) : PackRes :=
  match typ with
  | "bool" =>
    if v = txt "true" then .wrote (PackBool true)
    else if v = txt "false" then .wrote (PackBool false)
    else .fail (.invalidValue "bool" v)
  | "int8" => packRanged "int8" 8 (-128) 127 v
  | "uint8" => packRanged "uint8" 8 0 255 v
  | "int16" => packRanged "int16" 16 (-32768) 32767 v
  | "uint16" => packRanged "uint16" 16 0 65535 v
  | "int32" => packRanged "int32" 32 (-2147483648) 2147483647 v
  | "uint32" => packRanged "uint32" 32 0 4294967295 v
  | "int64" =>
    match StringToInt v with
    | none => .fail (.lib "strconv.Atoi")
    | some n =>
      if n > 9223372036854775807 ∨ n < -9223372036854775808 then .fail (.overflow "int64" n)
      else .wrote []
  | "uint64" =>
    match ParseUint v with
    | none => .fail (.lib "strconv.ParseUint")
    | some n => .wrote (PackInt 64 n)
  | "int128" | "uint128" | "float128" =>
    match StripString v with
    | none => .fail (.invalidValue "int128" [])
    | some v =>
      if v.length < 2 then ⟨[], some (.panic "slice bounds out of range")⟩
      else if v.take 2 ≠ txt "0x" then .fail (.invalidValue "int128" v)
      else
        match hexDecode (v.drop 2) with
        | none => .fail (.lib "hex.DecodeString")
        | some bs =>
          if bs.length > 16 then .fail (.invalidValue "int128" (v.drop 2))
          else .wrote (copyInto 16 bs)
  | "varint32" =>
    match StringToInt v with
    | none => .fail (.lib "strconv.Atoi")
    | some n =>
      if n > 2147483647 ∨ n < -2147483648 then .fail (.overflow "varint32" n)
      else .wrote (d.PackVarInt32 n)
  | "varuint32" =>
    match StringToInt v with
    | none => .fail (.lib "strconv.Atoi")
    | some n =>
      if n > 4294967295 ∨ n < 0 then .fail (.overflow "varuint32" n)
      else .wrote (PackVarUint32 n.toNat)
  | "float32" =>
    match StripString v with
    | none => .fail (.invalidValue "float32" [])
    | some v =>
      match d.ParseFloat v 32 with
      | none => .fail (.lib "strconv.ParseFloat")
      | some bits => .wrote (leBytes 4 bits)
  | "float64" =>
    match StripString v with
    | none => .fail (.invalidValue "float64" [])
    | some v =>
      match d.ParseFloat v 64 with
      | none => .fail (.lib "strconv.ParseFloat")
      | some bits => .wrote (leBytes 8 bits)
  | "time_point" =>
    match StripString v with
    | none => .fail (.invalidValue "time_point" [])
    | some v =>
      match d.timeParse (v ++ txt "Z") with
      | none => .fail (.lib "time.Parse")
      | some (_, nano) => .wrote (PackInt 64 nano)
  | "time_point_sec" | "block_timestamp_type" =>
    match StripString v with
    | none => .fail (.invalidValue "time_point_sec" [])
    | some v =>
      match d.timeParse (v ++ txt "Z") with
      | none => .fail (.lib "time.Parse")
      | some (sec, _) => .wrote (PackInt 32 sec)
  | "name" =>
    match StripString v with
    | none => .fail (.invalidValue "name" [])
    | some v =>
      let n := d.S2N v
      if d.N2S n ≠ v then .fail (.invalidValue "name" v) else .wrote (PackInt 64 n)
  | "bytes" =>
    match StripString v with
    | none => .fail (.invalidValue "bytes" [])
    | some v =>
      match hexDecode v with
      | none => .fail (.lib "hex.DecodeString")
      | some bs => .wrote (PackBytes bs)
  | "string" =>
    match StripString v with
    | none => .fail (.invalidValue "string" [])
    | some v => .wrote (PackBytes v)
  | "checksum160" => packChecksum "checksum160" 20 v
  | "checksum256" => packChecksum "checksum256" 32 v
  | "checksum512" => packChecksum "checksum512" 64 v
  | "public_key" =>
    match StripString v with
    | none => .fail (.invalidValue "public_key" [])
    | some v =>
      match d.PublicKeyFromBase58 v with
      | none => .fail (.lib "secp256k1.PublicKeyFromBase58")
      | some pub => .wrote ([0] ++ copyInto 33 pub)
  | "signature" =>
    match StripString v with
    | none => .fail (.invalidValue "signature" [])
    | some v =>
      match d.NewSignatureFromBase58 v with
      | none => .fail (.lib "secp256k1.NewSignatureFromBase58")
      | some sig => .wrote ([0] ++ copyInto 65 sig)
  | "symbol" =>
    match StripString v with
    | none => .fail (.invalidValue "symbol" [])
    | some v =>
      match List.splitOn 44 v with
      | [v0, v1] =>
        (match ParseUint v0 with
         | none => .fail (.lib "strconv.ParseUint")
         | some n =>
           if n > 16 then .fail (.invalidValue "symbol" v)
           else if v1.length > 7 ∨ v1.length ≤ 0 then .fail (.invalidValue "symbol" v)
           else if IsSymbolValid v1 = false then .fail (.invalidValue "symbol" v)
           else .wrote (copyInto 7 v1))
      | _ => .fail (.invalidValue "symbol" v)
  | "symbol_code" =>
    match StripString v with
    | none => .fail (.invalidValue "symbol_code" [])
    | some v =>
      if IsSymbolValid v = false then .fail (.invalidValue "symbol_code" v)
      else .wrote (copyInto 8 v)
  | "asset" =>
    match StripString v with
    | none => .fail (.invalidValue "asset" [])
    | some v =>
      match ParseAsset d v with
      | none => .fail (.invalidValue "asset" v)
      | some r => .wrote r
  | "extended_asset" =>
    match d.unmarshalExtendedAsset v with
    | none => .fail (.lib "json.Unmarshal")
    | some (quantity, contract) =>
      match ParseAsset d quantity with
      | none => .fail (.invalidValue "asset" v)
      | some r =>
        let n := d.S2N contract
        if d.N2S n ≠ v then ⟨r, some (.error (.invalidValue "name" v))⟩
        else .wrote (r ++ PackInt 64 n)
  | _ => .fail (.unknownType typ)

/-- The method `PackArrayAbiValue`, a stub in the source (`//TODO:`) that returns nil. -/
def PackArrayAbiValue (_typ : String) (_value : List AbiValue) : PackRes := .wrote []

/-- The loop of `PackAbiStruct` over the declared fields, with the call of `ParseAbiValue`
passed as `parse`. -/
def packFields (parse : String → AbiValue → PackRes) (m : GoMap AbiValue) :
    List ABIStructField → PackRes
  | [] => .wrote []
  | v :: rest =>
    match m.get v.Name with
    | none => .fail (.missingField v.Name)
    | some abiValue =>
      let r := parse v.Typ abiValue
      match r.fault with
      | some e => ⟨r.out, some e⟩
      | none =>
        let r2 := packFields parse m rest
        ⟨r.out ++ r2.out, r2.fault⟩

/-- The method `ParseAbiValue`; the nested struct is resolved with `t.contractName`.  Its map
case is `PackAbiStruct` on the nested struct, one level of fuel down. -/
def ParseAbiValue (d : Deps) (t : ABISerializer) : Nat → String → AbiValue → PackRes
  | _, typ, .str v => ParseAbiStringValue d typ v
  | _, typ, .arr v => PackArrayAbiValue typ v
  | 0, _, .map _ => ⟨[], some .fuel⟩
  | fuel + 1, typ, .map v =>
    match GetAbiStruct t t.contractName typ with
    | .error e => ⟨[], some e⟩
    | .ok none => .fail (.unknownAbiType typ)
    | .ok (some s) => packFields (ParseAbiValue d t fuel) v s.Fields

/-- The method `PackAbiStruct`; `none` stands for a nil `abiStruct`, whose `Fields` cannot be
read.  The parameter `contractName` is not used by the source either. -/
def PackAbiStruct (d : Deps) (t : ABISerializer) (fuel : Nat) (_contractName : String)
    (abiStruct : Option ABIStruct) (m : GoMap AbiValue) : PackRes :=
  match abiStruct with
  | none => ⟨[], some (.panic "nil pointer dereference")⟩
  | some s => packFields (ParseAbiValue d t fuel) m s.Fields

/-! ## JSON arguments -/

mutual
/-- The method `AbiValue.UnmarshalJSON`: an object becomes a map, an array a slice, and any
other text is kept raw. -/
def UnmarshalJSON : Json → AbiValue
  | .lit raw => .str raw
  | .arr elems => .arr (unmarshalElems elems)
  | .obj members => .map (unmarshalMembers members [])
/-- The call `json.Unmarshal(data, &m)` for a slice of `AbiValue`. -/
def unmarshalElems : List Json → List AbiValue
  | [] => []
  | e :: rest => UnmarshalJSON e :: unmarshalElems rest
/-- The call `json.Unmarshal(data, &m)` for a map of `AbiValue`: the members are assigned in
document order, so a later member with the same key overrides an earlier one. -/
def unmarshalMembers : List (String × Json) → GoMap AbiValue → GoMap AbiValue
  | [], m => m
  | (k, v) :: rest, m => unmarshalMembers rest (m.set k (UnmarshalJSON v))
end

/-- The call `json.Unmarshal(args, &m)` of the pack entry points, `m` a fresh
`map[string]AbiValue`: an object fills the map, `null` leaves it empty, any other JSON value
is a type error and any other text a syntax error. -/
def unmarshalArgs (args : Option Json) : Option (GoMap AbiValue) :=
  match args with
  | some (.obj members) => some (unmarshalMembers members [])
  | some (.lit raw) => if raw = txt "null" then some [] else none
  | some (.arr _) => none
  | none => none

/-! ## Pack entry points -/

/-- The method `PackActionArgs`.  The error of `PackAbiStruct` is not looked at: whatever the
encoder holds afterwards is returned with a nil error. -/
def PackActionArgs (d : Deps) (t : ABISerializer) (fuel : Nat) (contractName actionName : String)
    (args : Option Json) : Except Fault Bytes :=
  let t := { t with contractName := contractName }
  match unmarshalArgs args with
  | none => .error (.error (.lib "json.Unmarshal"))
  | some m =>
    match GetActionStruct t contractName actionName with
    | none => .error (.error (.structNotFound contractName actionName))
    | some abiStruct =>
      let r := PackAbiStruct d t fuel contractName (some abiStruct) m
      match r.fault with
      | some (.panic p) => .error (.panic p)
      | some .fuel => .error .fuel
      | _ => .ok r.out

/-- The method `PackAbiStructByName`. -/
def PackAbiStructByName (d : Deps) (t : ABISerializer) (fuel : Nat)
    (contractName structName : String) (args : Option Json) : Except Fault Bytes :=
  let t := { t with contractName := contractName }
  match unmarshalArgs args with
  | none => .error (.error (.lib "json.Unmarshal"))
  | some m =>
    match GetAbiStruct t contractName structName with
    | .error e => .error e
    | .ok s =>
      let r := PackAbiStruct d t fuel contractName s m
      match r.fault with
      | some e => .error e
      | none => .ok r.out

/-- The method `PackAbiType`.  Like `PackActionArgs` it drops the error of `PackAbiStruct`. -/
def PackAbiType (d : Deps) (t : ABISerializer) (fuel : Nat) (contractName abiType : String)
    (args : Option Json) : Except Fault Bytes :=
  let t := { t with contractName := contractName }
  match unmarshalArgs args with
  | none => .error (.error (.lib "json.Unmarshal"))
  | some m =>
    match GetAbiStruct t contractName abiType with
    | .error e => .error e
    | .ok none => .error (.error (.structNotFound contractName abiType))
    | .ok (some abiStruct) =>
      let r := PackAbiStruct d t fuel contractName (some abiStruct) m
      match r.fault with
      | some (.panic p) => .error (.panic p)
      | some .fuel => .error .fuel
      | _ => .ok r.out

/-! ## Unpacking -/

/-- The result of a decoding step: the value or the fault, and the decoder afterwards. -/
abbrev Unpacked (α : Type) := Except Fault α × Decoder

/-- Modelled from the spec: `Decoder.UnpackBool` of the byte codec boundary (decoder.go is not
among the sources): one byte, zero is false. -/
def Decoder.UnpackBool (dec : Decoder) : Unpacked Bool :=
  match dec.read 1 with
  | (.ok bs, rest) => (.ok (decide (bs ≠ [0])), rest)
  | (.error e, rest) => (.error e, rest)

/-- The signed fixed-width cases of `unpackAbiStructField`. -/
def unpackSigned (bits : Nat) (dec : Decoder) : Unpacked Value :=
  match dec.readInt bits with
  | (.ok v, rest) => (.ok (.int v), rest)
  | (.error e, rest) => (.error e, rest)

/-- The unsigned fixed-width cases of `unpackAbiStructField`. -/
def unpackUnsigned (bits : Nat) (dec : Decoder) : Unpacked Value :=
  match dec.readUint bits with
  | (.ok v, rest) => (.ok (.uint v), rest)
  | (.error e, rest) => (.error e, rest)

/-- A fixed-size hexadecimal case of `unpackAbiStructField`, `pre` in front of the digits. -/
def unpackHex (pre : Bytes) (size : Nat) (dec : Decoder) : Unpacked Value :=
  match dec.read size with
  | (.ok bs, rest) => (.ok (.str (pre ++ hexEncode bs)), rest)
  | (.error e, rest) => (.error e, rest)

/-- The value of `int64(math.Pow10(p))`. -/
def pow10Int64 (d : Deps) (p : Nat) : Int := if p ≤ 18 then (10 : Int) ^ p else d.pow10Overflow p

/-- The case `name` of `unpackAbiStructField`. -/
def unpackName (d : Deps) (dec : Decoder) : Unpacked Value :=
  match dec.readUint 64 with
  | (.ok v, rest) => (.ok (.str (d.N2S v)), rest)
  | (.error e, rest) => (.error e, rest)

/-- The case `asset` of `unpackAbiStructField`. -/
def unpackAsset (d : Deps) (dec : Decoder) : Unpacked Value :=
  match dec.readInt 64 with
  | (.error e, rest) => (.error e, rest)
  | (.ok amount, rest) =>
    match rest.read 8 with
    | (.error e, rest2) => (.error e, rest2)
    | (.ok sym, rest2) =>
      let p := sym.headD 0
      let _sym := trimRightNul (sym.drop 1)
      let precision := pow10Int64 d p
      if precision = 0 then (.error (.panic "integer divide by zero"), rest2)
      else
        let q := toSigned 64 (toUnsigned 64 (Int.tdiv amount precision))
        let r := Int.tmod amount precision
        (.ok (.str (fmtInt q ++ txt "." ++ fmtIntZero p r ++ txt " " ++ _sym)), rest2)

/-- The method `unpackAbiStructField`. -/
def unpackAbiStructField (d : Deps) (typ : String) (dec : Decoder) : Unpacked Value :=
  match typ with
  | "bool" =>
    (match dec.UnpackBool with
     | (.ok v, rest) => (.ok (.bool v), rest)
     | (.error e, rest) => (.error e, rest))
  | "int8" => unpackSigned 8 dec
  | "uint8" => unpackUnsigned 8 dec
  | "int16" => unpackSigned 16 dec
  | "uint16" => unpackUnsigned 16 dec
  | "int32" => unpackSigned 32 dec
  | "uint32" => unpackUnsigned 32 dec
  | "int64" => unpackSigned 64 dec
  | "uint64" => unpackUnsigned 64 dec
  | "int128" | "uint128" | "float128" => unpackHex (txt "0x") 16 dec
  | "varint32" =>
    (match d.UnpackVarInt32 dec with
     | some (v, rest) => (.ok (.int v), rest)
     | none => (.error (.error (.decoder "varint past the end")), dec))
  | "varuint32" =>
    (match dec.UnpackVarUint32 with
     | (.ok v, rest) => (.ok (.uint v), rest)
     | (.error e, rest) => (.error e, rest))
  | "float32" =>
    (match dec.readUint 32 with
     | (.ok v, rest) => (.ok (.float32 v), rest)
     | (.error e, rest) => (.error e, rest))
  | "float64" =>
    (match dec.readUint 64 with
     | (.ok v, rest) => (.ok (.float64 v), rest)
     | (.error e, rest) => (.error e, rest))
  | "time_point" =>
    (match dec.readUint 64 with
     | (.ok v, rest) => (.ok (.str (d.timeFormat 0 (toSigned 64 v))), rest)
     | (.error e, rest) => (.error e, rest))
  | "time_point_sec" | "block_timestamp_type" =>
    (match dec.readUint 32 with
     | (.ok v, rest) => (.ok (.str (d.timeFormat v 0)), rest)
     | (.error e, rest) => (.error e, rest))
  | "name" => unpackName d dec
  | "bytes" =>
    (match dec.UnpackBytes with
     | (.ok v, rest) => (.ok (.str (hexEncode v)), rest)
     | (.error e, rest) => (.error e, rest))
  | "string" =>
    (match dec.UnpackBytes with
     | (.ok v, rest) => (.ok (.str v), rest)
     | (.error e, rest) => (.error e, rest))
  | "checksum160" => unpackHex [] 20 dec
  | "checksum256" => unpackHex [] 32 dec
  | "checksum512" => unpackHex [] 64 dec
  | "public_key" =>
    (match dec.read 34 with
     | (.ok v, rest) => (.ok (.str (d.PublicKeyString (v.drop 1))), rest)
     | (.error e, rest) => (.error e, rest))
  | "signature" =>
    (match dec.read 66 with
     | (.ok v, rest) => (.ok (.str (d.SignatureString (v.drop 1))), rest)
     | (.error e, rest) => (.error e, rest))
  | "symbol" =>
    (match dec.read 8 with
     | (.ok buf, rest) =>
       (.ok (.str (trimRightNul (buf.drop 1) ++ txt "," ++ fmtNat (buf.headD 0))), rest)
     | (.error e, rest) => (.error e, rest))
  | "symbol_code" =>
    (match dec.read 8 with
     | (.ok buf, rest) => (.ok (.str (trimRightNul buf)), rest)
     | (.error e, rest) => (.error e, rest))
  | "asset" => unpackAsset d dec
  | "extended_asset" =>
    (match unpackAsset d dec with
     | (.error e, rest) => (.error e, rest)
     | (.ok quantity, rest) =>
       match unpackName d rest with
       | (.error e, rest2) => (.error e, rest2)
       | (.ok contract, rest2) =>
         (.ok (.obj (omSet (omSet [] "quantity" quantity) "contract" contract)), rest2))
  | _ => (.error (.error (.unknownType typ)), dec)

/-- The call `strings.HasSuffix(typ, "[]")`. -/
def hasArraySuffix (typ : String) : Bool := List.isSuffixOf "[]".toList typ.toList

/-- The call `strings.TrimSuffix(typ, "[]")` for a name with that suffix. -/
def trimArraySuffix (typ : String) : String := String.mk (typ.toList.dropLast.dropLast)

/-- The two array loops of `unpackAbiStruct`: `count` times decode one element with `elem`
and append it to `arr`. -/
def unpackElems (elem : Decoder → Unpacked Value) : Nat → List Value → Decoder →
    Unpacked (List Value)
  | 0, arr, dec => (.ok arr, dec)
  | count + 1, arr, dec =>
    match elem dec with
    | (.error e, rest) => (.error e, rest)
    | (.ok v, rest) => unpackElems elem count (arr ++ [v]) rest

/-- One element of an array of structs: a fresh record filled by the recursive call. -/
def unpackStructElem (self : OrderedMap → Decoder → Unpacked OrderedMap) (dec : Decoder) :
    Unpacked Value :=
  match self [] dec with
  | (.ok subResult, rest) => (.ok (.obj subResult), rest)
  | (.error e, rest) => (.error e, rest)

/-- The second part of the body of the loop of `unpackAbiStruct` (`//try to unpack Abi
struct`, `//try to unpack array`), with the recursive call passed as `self`: the value that is
set under the name of the field. -/
def unpackComposite (d : Deps) (t : ABISerializer)
    (self : ABIStruct → OrderedMap → Decoder → Unpacked OrderedMap) (contractName : String)
    (typ : String) (dec : Decoder) : Unpacked Value :=
  match GetAbiStruct t contractName typ with
  | .error e => (.error e, dec)
  | .ok (some subStruct) =>
    (match self subStruct [] dec with
     | (.error e, dec2) => (.error e, dec2)
     | (.ok subResult, dec2) => (.ok (.obj subResult), dec2))
  | .ok none =>
    if hasArraySuffix typ = false then (.error (.error (.unknownType typ)), dec)
    else
      let typ := trimArraySuffix typ
      match Decoder.UnpackVarUint32 dec with
      | (.error e, dec2) => (.error e, dec2)
      | (.ok count, dec2) =>
        if typ ∈ t.baseTypeMap then
          match unpackElems (unpackAbiStructField d typ) count [] dec2 with
          | (.error e, dec3) => (.error e, dec3)
          | (.ok arr, dec3) => (.ok (.arr arr), dec3)
        else
          match GetAbiStruct t contractName typ with
          | .error e => (.error e, dec2)
          | .ok none => (.error (.error (.unknownType typ)), dec2)
          | .ok (some subStruct) =>
            match unpackElems (unpackStructElem (self subStruct)) count [] dec2 with
            | (.error e, dec3) => (.error e, dec3)
            | (.ok arr, dec3) => (.ok (.arr arr), dec3)

/-- The body of the loop of `unpackAbiStruct` for one field: the value that is set under the
name of the field.  A primitive that fails to decode is not an error here: the field is tried
as a struct and as an array next, from wherever the failed read left the decoder. -/
def unpackField (d : Deps) (t : ABISerializer)
    (self : ABIStruct → OrderedMap → Decoder → Unpacked OrderedMap) (contractName : String)
    (v : ABIStructField) (dec : Decoder) : Unpacked Value :=
  if v.Typ ∈ t.baseTypeMap then
    match unpackAbiStructField d v.Typ dec with
    | (.ok val, dec1) => (.ok val, dec1)
    | (.error _, dec1) => unpackComposite d t self contractName v.Typ dec1
  else unpackComposite d t self contractName v.Typ dec

/-- The loop of `unpackAbiStruct` over the declared fields: the value of each field is set
under its name in `result`, and the first error ends the loop. -/
def unpackFields (d : Deps) (t : ABISerializer)
    (self : ABIStruct → OrderedMap → Decoder → Unpacked OrderedMap) (contractName : String) :
    List ABIStructField → OrderedMap → Decoder → Unpacked OrderedMap
  | [], result, dec => (.ok result, dec)
  | v :: rest, result, dec =>
    match unpackField d t self contractName v dec with
    | (.error e, dec1) => (.error e, dec1)
    | (.ok val, dec1) => unpackFields d t self contractName rest (omSet result v.Name val) dec1

/-- The method `unpackAbiStruct`: with fuel `n` it follows nested structs `n` levels down. -/
def unpackAbiStruct (d : Deps) (t : ABISerializer) :
    Nat → String → ABIStruct → OrderedMap → Decoder → Unpacked OrderedMap
  | 0, contractName, abiStruct, result, dec =>
    unpackFields d t (fun _ _ dec2 => (.error .fuel, dec2)) contractName abiStruct.Fields
      result dec
  | fuel + 1, contractName, abiStruct, result, dec =>
    unpackFields d t (unpackAbiStruct d t fuel contractName) contractName abiStruct.Fields
      result dec

/-- The method `UnpackAbiStruct`. -/
def UnpackAbiStruct (d : Deps) (t : ABISerializer) (fuel : Nat) (contractName : String)
    (abiStruct : ABIStruct) (packedValue : Bytes) : Except Fault OrderedMap :=
  (unpackAbiStruct d t fuel contractName abiStruct [] packedValue).1

/-- The tail shared by `UnpackActionArgs` and `UnpackAbiType`: unpack and marshal. -/
def unpackAndMarshal (d : Deps) (t : ABISerializer) (fuel : Nat) (contractName : String)
    (abiStruct : ABIStruct) (packedValue : Bytes) : Except Fault Bytes :=
  match UnpackAbiStruct d t fuel contractName abiStruct packedValue with
  | .error e => .error e
  | .ok result =>
    match d.jsonMarshal result with
    | none => .error (.error (.lib "json.Marshal"))
    | some bs => .ok bs

/-- The method `UnpackActionArgs`. -/
def UnpackActionArgs (d : Deps) (t : ABISerializer) (fuel : Nat)
    (contractName actionName : String) (packedValue : Bytes) : Except Fault Bytes :=
  match GetActionStruct t contractName actionName with
  | none => .error (.error (.unknownAction contractName actionName))
  | some abiStruct => unpackAndMarshal d t fuel contractName abiStruct packedValue

/-- The method `UnpackAbiType`. -/
def UnpackAbiType (d : Deps) (t : ABISerializer) (fuel : Nat) (contractName abiName : String)
    (packedValue : Bytes) : Except Fault Bytes :=
  match GetAbiStruct t contractName abiName with
  | .error e => .error e
  | .ok none => .error (.error (.unknownAction contractName abiName))
  | .ok (some abiStruct) => unpackAndMarshal d t fuel contractName abiStruct packedValue

/-! ## Notions used in the statements -/

/-- The bytes the loop of `PackAbiStruct` owes to one field: the encoding of the value bound
to its name at its declared type. -/
def fieldEnc (parse : String → AbiValue → PackRes) (m : GoMap AbiValue) (f : ABIStructField) :
    Bytes :=
  match m.get f.Name with
  | some v => (parse f.Typ v).out
  | none => []

/-- The recursive call that `unpackAbiStruct` has at its disposal with the given fuel. -/
def unpackNested (d : Deps) (t : ABISerializer) (fuel : Nat) (contractName : String) :
    ABIStruct → OrderedMap → Decoder → Unpacked OrderedMap :=
  match fuel with
  | 0 => fun _ _ dec2 => (.error .fuel, dec2)
  | n + 1 => unpackAbiStruct d t n contractName

/-- The values `vs` are what `elem` decodes, one after the other, from the decoder `dec`, and
the decoder is `dec2` afterwards. -/
inductive ReadSeq (elem : Decoder → Unpacked Value) : Decoder → List Value → Decoder → Prop where
  | nil (dec : Decoder) : ReadSeq elem dec [] dec
  | cons (dec dec1 dec2 : Decoder) (v : Value) (vs : List Value)
      (head : elem dec = (.ok v, dec1)) (tail : ReadSeq elem dec1 vs dec2) :
      ReadSeq elem dec (v :: vs) dec2

/-- A text of upper case letters only. -/
def upperOnly (s : Bytes) : Bool := s.all (fun c => decide (65 ≤ c) && decide (c ≤ 90))

/-- A JSON string literal without escapes: the text between double quotes. -/
def quoted (v : Bytes) : Bytes := 34 :: (v ++ [34])

/-- The asset text with integer part `ip`, `k` fraction digits that are all zero, and the
symbol code `sym`. -/
def assetText (ip : Bytes) (k : Nat) (sym : Bytes) : Bytes :=
  (ip ++ 46 :: List.replicate k 48) ++ 32 :: sym

/-! ## A concrete instance for the examples -/

/-- The symbol value of a character in the base-32 identifier scheme of the ledger protocol. -/
def charToSymbol (c : Nat) : Nat :=
  if 97 ≤ c ∧ c ≤ 122 then c - 97 + 6 else if 49 ≤ c ∧ c ≤ 53 then c - 49 + 1 else 0

/-- The character of a symbol value: the alphabet `.12345abcdefghijklmnopqrstuvwxyz`. -/
def symbolToChar (v : Nat) : Nat :=
  if v = 0 then 46 else if v ≤ 5 then v + 48 else v + 91

/-- The identifier codec of the ledger protocol, text to number: twelve characters of five
bits from the top, a thirteenth of four bits.  It stands in for `S2N` in the examples. -/
def refS2N (s : Bytes) : Nat :=
  (((List.range 12).map (fun i => (charToSymbol (s.getD i 0) % 32) * 2 ^ (59 - 5 * i))).sum
    + charToSymbol (s.getD 12 0) % 16) % 2 ^ 64

/-- The identifier codec of the ledger protocol, number to text: thirteen characters with the
trailing dots removed.  It stands in for `N2S` in the examples. -/
def refN2S (n : Nat) : Bytes :=
  (((List.range 12).map (fun i => symbolToChar (n / 2 ^ (59 - 5 * i) % 32))
    ++ [symbolToChar (n % 16)]).reverse.dropWhile (fun c => c = 46)).reverse

/-- A float parser for the examples: it accepts an optional sign, digits, and optionally a point
and more digits; the bit pattern of the value is not modelled. -/
def refParseFloat (s : Bytes) (_bitSize : Nat) : Option Nat :=
  let body := match s with
    | c :: cs => if c = 45 ∨ c = 43 then cs else c :: cs
    | [] => []
  match List.splitOn 46 body with
  | [a] => if a ≠ [] ∧ a.all isDigit = true then some 0 else none
  | [a, b] => if a ≠ [] ∧ a.all isDigit = true ∧ b.all isDigit = true then some 0 else none
  | _ => none

/-- The collaborators used in the examples: the identifier codec of the ledger protocol and the
decimal float parser; the collaborators that the examples do not reach are inert. -/
def refDeps : Deps where
  S2N := refS2N
  S2N_lt := fun _ => Nat.mod_lt _ (by decide)
  N2S := refN2S
  ParseFloat := refParseFloat
  PackVarInt32 := fun n => PackVarUint32 (toUnsigned 32 n)
  UnpackVarInt32 := fun _ => none
  timeParse := fun _ => none
  timeFormat := fun _ _ => []
  PublicKeyFromBase58 := fun _ => none
  PublicKeyString := fun _ => []
  NewSignatureFromBase58 := fun _ => none
  SignatureString := fun _ => []
  unmarshalExtendedAsset := fun _ => none
  jsonMarshal := fun _ => none
  pow10Overflow := fun _ => -(2 : Int) ^ 63

/-- The struct `transfer` of the token ABI. -/
def transferStruct : ABIStruct :=
  ⟨"transfer", "", [⟨"from", "name"⟩, ⟨"to", "name"⟩, ⟨"quantity", "asset"⟩, ⟨"memo", "string"⟩]⟩

/-- A token ABI with the action `transfer`. -/
def tokenAbi : ABI :=
  { Version := "eosio::abi/1.1", Structs := [transferStruct], Types := [],
    Actions := [⟨"transfer", "transfer", ""⟩] }

/-- The primitive type names, those of the cases of `ParseAbiStringValue`. -/
def refBaseTypes : List String :=
  ["bool", "int8", "uint8", "int16", "uint16", "int32", "uint32", "int64", "uint64", "int128",
   "uint128", "varint32", "varuint32", "float32", "float64", "float128", "time_point",
   "time_point_sec", "block_timestamp_type", "name", "bytes", "string", "checksum160",
   "checksum256", "checksum512", "public_key", "signature", "symbol", "symbol_code", "asset",
   "extended_asset"]

/-- The struct `permission_level` of the system ABI. -/
def permissionLevel : ABIStruct :=
  ⟨"permission_level", "", [⟨"actor", "name"⟩, ⟨"permission", "name"⟩]⟩

/-- A struct with a small integer and an array of integers. -/
def sampleStruct : ABIStruct := ⟨"sample", "", [⟨"level", "uint8"⟩, ⟨"ids", "uint64[]"⟩]⟩

/-- A struct with a nested struct of the system ABI and an array of structs. -/
def holderStruct : ABIStruct :=
  ⟨"holder", "", [⟨"owner", "permission_level"⟩, ⟨"items", "sample[]"⟩]⟩

/-- An ABI for the examples: the actions `sample` and `holder` on the structs of these names,
and the action `sysact` whose type only the system ABI declares. -/
def demoAbi : ABI :=
  { Version := "eosio::abi/1.1", Structs := [sampleStruct, holderStruct], Types := [],
    Actions := [⟨"sample", "sample", ""⟩, ⟨"holder", "holder", ""⟩,
                ⟨"sysact", "permission_level", ""⟩] }

/-- A serializer for the examples: the contract `hello` is registered with the token ABI, the
contract `demo` with the demo ABI, and the system ABI has the struct `permission_level`. -/
def refSerializer : ABISerializer where
  abiMap := [("permission_level", permissionLevel)]
  baseTypeMap := refBaseTypes
  contractAbiMap := [("demo", demoAbi), ("hello", tokenAbi)]
  contractName := ""

/-- The arguments of the transfer of the test `TestAbi`, as a document tree. -/
def transferArgs : Json :=
  .obj [("from", .lit (txt "\"hello\"")), ("to", .lit (txt "\"alice\"")),
        ("quantity", .lit (txt "\"1.0000 EOS\"")), ("memo", .lit (txt "\"transfer from alice\""))]

/-- The bytes `PackAbiStructByName` returns for the transfer of the test `TestAbi`. -/
def packedTransfer : Bytes :=
  [0, 0, 0, 0, 0, 26, 163, 106, 0, 0, 0, 0, 0, 133, 92, 52, 16, 39, 0, 0, 0, 0, 0, 0, 4, 69,
   79, 83, 0, 0, 0, 0, 19, 116, 114, 97, 110, 115, 102, 101, 114, 32, 102, 114, 111, 109, 32,
   97, 108, 105, 99, 101]

/-- The value record of the transfer of the test `TestAbi`. -/
def transferRecord : GoMap AbiValue :=
  [("memo", .str (txt "\"transfer from alice\"")), ("quantity", .str (txt "\"1.0000 EOS\"")),
   ("to", .str (txt "\"alice\"")), ("from", .str (txt "\"hello\""))]

/-- The arguments of a transfer whose amount does not fit 64 bits once the point is removed. -/
def overflowArgs : Json :=
  .obj [("from", .lit (txt "\"hello\"")), ("to", .lit (txt "\"alice\"")),
        ("quantity", .lit (txt "\"9223372036854775807.0 EOS\"")),
        ("memo", .lit (txt "\"transfer from alice\""))]

/-- The arguments of a transfer of zero written with 256 fraction digits. -/
def longFractionArgs : Json :=
  .obj [("from", .lit (txt "\"hello\"")), ("to", .lit (txt "\"alice\"")),
        ("quantity", .lit (quoted (assetText (txt "0") 256 (txt "EOS")))),
        ("memo", .lit (txt "\"transfer from alice\""))]

/-- The bytes `PackAbiStructByName` returns for `longFractionArgs`: the amount 0 and the
precision byte 0. -/
def packedLongFraction : Bytes :=
  leBytes 8 7684013976526520320 ++ leBytes 8 3773036822876127232 ++
    (leBytes 8 0 ++ 0 :: copyInto 7 (txt "EOS")) ++ (19 :: txt "transfer from alice")

/-- A struct with one field, an array of `uint64`. -/
def idsStruct : ABIStruct := ⟨"ids_only", "", [⟨"ids", "uint64[]"⟩]⟩

/-- The bytes 03 and then 1, 2 and 3 as 8-byte little-endian integers. -/
def packedIds : Bytes := 3 :: (leBytes 8 1 ++ leBytes 8 2 ++ leBytes 8 3)

/-- The struct `s` with its base replaced by the name `g s`. -/
def rebaseStruct (g : ABIStruct → String) (s : ABIStruct) : ABIStruct := { s with Base := g s }

/-- The ABI with the base of every struct replaced. -/
def rebaseAbi (g : ABIStruct → String) (abi : ABI) : ABI :=
  { abi with Structs := abi.Structs.map (rebaseStruct g) }

/-- The serializer with the base of every struct replaced, in the system ABI and in the ABI of
every registered contract. -/
def rebaseSerializer (g : ABIStruct → String) (t : ABISerializer) : ABISerializer :=
  { t with
    abiMap := t.abiMap.map (fun p => (p.1, rebaseStruct g p.2))
    contractAbiMap := t.contractAbiMap.map (fun p => (p.1, rebaseAbi g p.2)) }


/-! ## More structs for the examples -/

/-- A struct with one field of the primitive type `uint8`. -/
def levelStruct : ABIStruct := ⟨"lvl", "", [⟨"level", "uint8"⟩]⟩

/-- A struct with one field, an array of `uint8`. -/
def levelsStruct : ABIStruct := ⟨"lvls", "", [⟨"levels", "uint8[]"⟩]⟩

/-- An ABI that declares a struct without fields under the name of the primitive `uint8`. -/
def shadowAbi : ABI :=
  { Version := "eosio::abi/1.1", Structs := [⟨"uint8", "", []⟩, levelStruct], Types := [],
    Actions := [⟨"lvl", "lvl", ""⟩] }

/-- A serializer with the contract `shadow` registered with `shadowAbi`. -/
def shadowSerializer : ABISerializer where
  abiMap := []
  baseTypeMap := refBaseTypes
  contractAbiMap := [("shadow", shadowAbi)]
  contractName := ""

/-- A struct with a `uint8` field and an `int64` field. -/
def pairStruct : ABIStruct := ⟨"pair", "", [⟨"a", "uint8"⟩, ⟨"b", "int64"⟩]⟩

/-- The struct `pairStruct` without its `int64` field. -/
def singleStruct : ABIStruct := ⟨"single", "", [⟨"a", "uint8"⟩]⟩

/-! ## Schema lookup along the base chain -/

/-- The method `GetType`: with fuel `n` it follows the base chain through `n` structs.  For a
name that the system ABI does not declare `s` is a nil pointer, and `s.Fields` dereferences
it. -/
def GetType (t : ABISerializer) : Nat → String → String → Except Fault String
  | 0, _, _ => .error .fuel
  | fuel + 1, structName, fieldName =>
    match t.abiMap.get structName with
    | none => .error (.panic "nil pointer dereference")
    | some s =>
      match s.Fields.find? (fun f => decide (f.Name = fieldName)) with
      | some f => .ok f.Typ
      | none => if s.Base ≠ "" then GetType t fuel s.Base fieldName else .ok ""

/-- The base chain of a name of the system ABI: the struct bound to the name, the struct bound
to the base of that struct, and so on, up to a struct without a base. -/
inductive BaseChain (t : ABISerializer) : String → List ABIStruct → Prop where
  | last (name : String) (s : ABIStruct) :
      t.abiMap.get name = some s → s.Base = "" → BaseChain t name [s]
  | step (name : String) (s : ABIStruct) (rest : List ABIStruct) :
      t.abiMap.get name = some s → s.Base ≠ "" → BaseChain t s.Base rest →
      BaseChain t name (s :: rest)

/-- Whether the struct declares a field of the given name. -/
def declares (fieldName : String) (s : ABIStruct) : Bool :=
  s.Fields.any (fun f => decide (f.Name = fieldName))

/-- The declared type of the field in a struct that declares it, the first one if the name is
declared more than once. -/
def declaredType (fieldName : String) (s : ABIStruct) : String :=
  ((s.Fields.filter (fun f => decide (f.Name = fieldName))).map (fun f => f.Typ)).headD ""

/-- The type that the nearest struct of a chain declares for the field: the declared type in
the first struct of the chain that declares it, the empty name when none does. -/
def nearestType (fieldName : String) (chain : List ABIStruct) : String :=
  match chain.filter (declares fieldName) with
  | [] => ""
  | s :: _ => declaredType fieldName s

/-- The struct `transaction_header` of a system ABI for the examples. -/
def headerStruct : ABIStruct :=
  ⟨"transaction_header", "",
    [⟨"expiration", "time_point_sec"⟩, ⟨"ref_block_num", "uint16"⟩,
     ⟨"ref_block_prefix", "uint32"⟩, ⟨"max_net_usage_words", "varuint32"⟩,
     ⟨"max_cpu_usage_ms", "uint8"⟩, ⟨"delay_sec", "varuint32"⟩]⟩

/-- The struct `transaction` of a system ABI for the examples, with the base
`transaction_header`. -/
def transactionStruct : ABIStruct :=
  ⟨"transaction", "transaction_header",
    [⟨"context_free_actions", "action[]"⟩, ⟨"actions", "action[]"⟩,
     ⟨"transaction_extensions", "extension[]"⟩]⟩

/-- A serializer for the examples whose system ABI declares `transaction` and its base. -/
def systemSerializer : ABISerializer where
  abiMap := [("transaction", transactionStruct), ("transaction_header", headerStruct)]
  baseTypeMap := refBaseTypes
  contractAbiMap := []
  contractName := ""

/-! ## Notions used in the statements on the scalar cases -/

/-- A decimal integer literal and its value: an optional sign and one or more decimal
digits. -/
def IsDecimalLiteral (v : Bytes) (n : Int) : Prop :=
  ∃ ds : Bytes, ds ≠ [] ∧ ds.all isDigit = true ∧
    (((v = ds ∨ v = 43 :: ds) ∧ n = (digitsValue 0 ds : Int)) ∨
      (v = 45 :: ds ∧ n = -(digitsValue 0 ds : Int)))

/-- The fixed-width integer types below 64 bits: name, signedness, width in bits. -/
def fixedIntTypes : List (String × Bool × Nat) :=
  [("int8", true, 8), ("uint8", false, 8), ("int16", true, 16), ("uint16", false, 16),
   ("int32", true, 32), ("uint32", false, 32)]

/-- The least value of an integer type of the given signedness and width. -/
def intMin (signed : Bool) (bits : Nat) : Int := if signed then -(2 : Int) ^ (bits - 1) else 0

/-- The greatest value of an integer type of the given signedness and width. -/
def intMax (signed : Bool) (bits : Nat) : Int :=
  if signed then (2 : Int) ^ (bits - 1) - 1 else (2 : Int) ^ bits - 1

/-- The integer that a byte string denotes in little-endian order, as a two's complement
pattern for a signed type. -/
def leDecode (signed : Bool) (bits : Nat) (bs : Bytes) : Int :=
  if signed then toSigned bits (leValue bs) else (leValue bs : Int)

/-- A text of hexadecimal digits, an even number of them. -/
def IsHexText (c : Bytes) : Prop := c.length % 2 = 0 ∧ ∀ ch ∈ c, (hexVal ch).isSome = true

/-- The 128-bit types, which share one case of `ParseAbiStringValue`. -/
def wideTypes : List String := ["int128", "uint128", "float128"]

/-- The checksum types and their sizes in bytes. -/
def checksumTypes : List (String × Nat) :=
  [("checksum160", 20), ("checksum256", 32), ("checksum512", 64)]

/-! ## A JSON decoder and a time library for the examples -/

/-- The rest of `s` after the leading text `p`, if `s` starts with it. -/
def afterLead (p s : Bytes) : Option Bytes :=
  if p.isPrefixOf s then some (s.drop p.length) else none

/-- The text up to the next double quote and the rest after that quote; a text with a
backslash before the quote is not read (escapes are not modelled). -/
def untilQuote : Bytes → Option (Bytes × Bytes)
  | [] => none
  | c :: cs =>
    if c = 34 then some ([], cs)
    else if c = 92 then none
    else
      match untilQuote cs with
      | none => none
      | some (body, rest) => some (c :: body, rest)

/-- A decoder of the JSON text of an extended asset for the examples: it reads the object
with the members `quantity` and `contract`, in this order, both strings without escapes,
written without white space; it stands in for `json.Unmarshal` on such texts only. -/
def refUnmarshalExtendedAsset (v : Bytes) : Option (Bytes × Bytes) :=
  match afterLead (txt "\x7b\"quantity\":\"") v with
  | none => none
  | some r1 =>
    match untilQuote r1 with
    | none => none
    | some (quantity, r2) =>
      match afterLead (txt ",\"contract\":\"") r2 with
      | none => none
      | some r3 =>
        match untilQuote r3 with
        | none => none
        | some (contract, r4) => if r4 = txt "\x7d" then some (quantity, contract) else none

/-- Days from 1970-01-01 to a date of the proleptic Gregorian calendar. -/
def daysFromCivil (y m dd : Int) : Int :=
  let y1 := if m ≤ 2 then y - 1 else y
  let era := y1 / 400
  let yoe := y1 - era * 400
  let mp := if m > 2 then m - 3 else m + 9
  let doy := (153 * mp + 2) / 5 + dd - 1
  let doe := yoe * 365 + yoe / 4 - yoe / 100 + doy
  era * 146097 + doe - 719468

/-- The date of the proleptic Gregorian calendar that lies the given number of days after
1970-01-01: year, month, day. -/
def civilFromDays (z0 : Int) : Int × Int × Int :=
  let z := z0 + 719468
  let era := z / 146097
  let doe := z - era * 146097
  let yoe := (doe - doe / 1460 + doe / 36524 - doe / 146096) / 365
  let doy := doe - (365 * yoe + yoe / 4 - yoe / 100)
  let mp := (5 * doy + 2) / 153
  let dd := doy - (153 * mp + 2) / 5 + 1
  let m := if mp < 10 then mp + 3 else mp - 9
  (yoe + era * 400 + (if m ≤ 2 then 1 else 0), m, dd)

/-- The number that the bytes of `s` from position `i`, `n` of them, denote in decimal, if
they are digits. -/
def digitsAt (s : Bytes) (i n : Nat) : Option Nat :=
  let f := (s.drop i).take n
  if f.length = n ∧ f.all isDigit = true then some (digitsValue 0 f) else none

/-- The fraction of a second after the seconds field, in nanoseconds: nothing before the `Z`,
or a point and one to nine digits. -/
def fractionNanos (rest : Bytes) : Option Nat :=
  match rest with
  | [90] => some 0
  | 46 :: fr =>
    let ds := fr.dropLast
    if fr.getLast? = some 90 ∧ 1 ≤ ds.length ∧ ds.length ≤ 9 ∧ ds.all isDigit = true
    then some (digitsValue 0 ds * 10 ^ (9 - ds.length)) else none
  | _ => none

/-- A parser of timestamps for the examples: it reads the texts `YYYY-MM-DDThh:mm:ssZ`, with
an optional fraction of one to nine digits after the seconds, of valid dates and times, and
stands in for `time.Parse(time.RFC3339, s)` on such texts only.  The results are `Unix()` and
`UnixNano()`. -/
def refTimeParse (s : Bytes) : Option (Int × Int) :=
  if s.getD 4 0 ≠ 45 ∨ s.getD 7 0 ≠ 45 ∨ s.getD 10 0 ≠ 84 ∨ s.getD 13 0 ≠ 58 ∨
      s.getD 16 0 ≠ 58 then none
  else
    match digitsAt s 0 4, digitsAt s 5 2, digitsAt s 8 2, digitsAt s 11 2, digitsAt s 14 2,
      digitsAt s 17 2, fractionNanos (s.drop 19) with
    | some y, some m, some dd, some hh, some mm, some ss, some ns =>
      if m < 1 ∨ 12 < m ∨ dd < 1 ∨ 23 < hh ∨ 59 < mm ∨ 59 < ss then none
      else if civilFromDays (daysFromCivil y m dd) ≠ ((y : Int), (m : Int), (dd : Int)) then none
      else
        let sec : Int := daysFromCivil y m dd * 86400 + hh * 3600 + mm * 60 + ss
        some (sec, sec * 1000000000 + ns)
    | _, _, _, _, _, _, _ => none

/-- The decimal text of a number on at least `w` digits. -/
def padNat (w n : Nat) : Bytes := List.replicate (w - (fmtNat n).length) 48 ++ fmtNat n

/-- A formatter of timestamps for the examples: the text of
`time.Unix(sec, nsec).Format("2006-01-02T15:04:05")` when the local zone is UTC, for the years
0 to 9999.  The layout has no field for the fraction of a second. -/
def refTimeFormat (sec nsec : Int) : Bytes :=
  let total := sec + nsec / 1000000000
  let sod := (total % 86400).toNat
  let date := civilFromDays (total / 86400)
  padNat 4 date.1.toNat ++ 45 :: padNat 2 date.2.1.toNat ++ 45 :: padNat 2 date.2.2.toNat ++
    84 :: padNat 2 (sod / 3600) ++ 58 :: padNat 2 (sod % 3600 / 60) ++ 58 :: padNat 2 (sod % 60)

/-- The collaborators of the examples with the JSON decoder of extended assets and the time
library above. -/
def libDeps : Deps :=
  { refDeps with
    unmarshalExtendedAsset := refUnmarshalExtendedAsset
    timeParse := refTimeParse
    timeFormat := refTimeFormat }

/-- A struct with one field of the type `extended_asset`. -/
def depositStruct : ABIStruct := ⟨"deposit", "", [⟨"amount", "extended_asset"⟩]⟩

/-- A serializer for the examples with the contract `vault`, whose ABI declares `deposit`. -/
def vaultSerializer : ABISerializer where
  abiMap := [("permission_level", permissionLevel)]
  baseTypeMap := refBaseTypes
  contractAbiMap :=
    [("vault", { Version := "eosio::abi/1.1", Structs := [depositStruct], Types := [],
                 Actions := [⟨"deposit", "deposit", ""⟩] })]
  contractName := ""

/-- The JSON text of an extended asset: one unit of `EOS` of the contract `eosio.token`. -/
def extendedAssetText : Bytes :=
  txt "\x7b\"quantity\":\"1.0000 EOS\",\"contract\":\"eosio.token\"\x7d"

/-! ## The table of transaction handles (lib.go) -/

/-- The global slice `gPackedTxs`: a slot is `none` for a nil pointer and holds the packed
transaction otherwise; the nil slice is the empty list. -/
abbrev HandleTable (α : Type) := List (Option α)

/-- The function `validateIndex`: `none` for a nil error, else the text of the error. -/
def validateIndex {α : Type} (tbl : HandleTable α) (idx : Int) : Option String :=
  if idx < 0 ∨ idx ≥ tbl.length then some "invalid idx"
  else
    match tbl[idx.toNat]? with
    | some (some _) => none
    | _ => some "invalid idx"

/-- The loop of `transaction_new_` from index `i` on, `rest` being the slots not yet looked at:
the first nil slot is assigned and its index returned; `none` when the loop ends without a
return. -/
def newLoop {α : Type} (tbl : HandleTable α) (packedTx : α) :
    List (Option α) → Nat → Option (HandleTable α × Int)
  | [], _ => none
  | none :: _, i => some (tbl.set i (some packedTx), (i : Int))
  | some _ :: rest, i => newLoop tbl packedTx rest (i + 1)

/-- The function `transaction_new_` on the table: the table afterwards and the returned
handle.  The pointer `packedTx` is the result of `NewPackedtransaction`, on which `SetChainId`
was called before the table is looked at, so it is not nil. -/
def transaction_new_ {α : Type} (tbl : HandleTable α) (packedTx : α) : HandleTable α × Int :=
  if tbl.length ≥ 1024 then (tbl, -1)
  else
    match newLoop tbl packedTx tbl 0 with
    | some r => r
    | none => (tbl ++ [some packedTx], (((tbl ++ [some packedTx]).length : Int) - 1))

/-- The function `transaction_free_`. -/
def transaction_free_ {α : Type} (tbl : HandleTable α) (index : Int) : HandleTable α :=
  if index < 0 ∨ index ≥ tbl.length then tbl else tbl.set index.toNat none

/-- A call that changes the table of handles. -/
inductive HandleCall (α : Type) where
  | new (packedTx : α)
  | free (index : Int)

/-- The table after a sequence of calls. -/
def runCalls {α : Type} : HandleTable α → List (HandleCall α) → HandleTable α
  | tbl, [] => tbl
  | tbl, .new packedTx :: rest => runCalls (transaction_new_ tbl packedTx).1 rest
  | tbl, .free index :: rest => runCalls (transaction_free_ tbl index) rest

/-! # Lemmas -/

/-! ## Lemmas on the field loop of `PackAbiStruct` -/

theorem packFields_ok (parse : String → AbiValue → PackRes) (m : GoMap AbiValue) :
    ∀ (fields : List ABIStructField) (out : Bytes),
      packFields parse m fields = ⟨out, none⟩ →
      (∀ f ∈ fields, ∃ v, m.get f.Name = some v ∧ (parse f.Typ v).fault = none) ∧
      out = (fields.map (fieldEnc parse m)).flatten := by
  intro fields
  induction fields with
  | nil =>
    intro out h
    simp only [packFields, PackRes.wrote, PackRes.mk.injEq] at h
    simp [h.1.symm]
  | cons f rest ih =>
    intro out h
    rw [packFields] at h
    cases hg : m.get f.Name with
    | none => simp [hg, PackRes.fail] at h
    | some v =>
      simp only [hg] at h
      cases hf : (parse f.Typ v).fault with
      | some e => simp [hf] at h
      | none =>
        simp only [hf, PackRes.mk.injEq] at h
        obtain ⟨hout, hfault⟩ := h
        have hrest : packFields parse m rest = ⟨(packFields parse m rest).out, none⟩ := by
          cases hr : packFields parse m rest with
          | mk o fl => simp only [hr] at hfault; simp [hfault]
        obtain ⟨hall, hjoin⟩ := ih _ hrest
        refine ⟨?_, ?_⟩
        · intro g hgmem
          rcases List.mem_cons.mp hgmem with rfl | hmem
          · exact ⟨v, hg, hf⟩
          · exact hall g hmem
        · rw [← hout, hjoin]
          simp [fieldEnc, hg]

theorem packFields_congr (parse : String → AbiValue → PackRes) (m1 m2 : GoMap AbiValue) :
    ∀ (fields : List ABIStructField),
      (∀ f ∈ fields, m1.get f.Name = m2.get f.Name) →
      packFields parse m1 fields = packFields parse m2 fields := by
  intro fields
  induction fields with
  | nil => intro _; rfl
  | cons f rest ih =>
    intro h
    rw [packFields, packFields, h f (List.mem_cons_self _ _),
      ih (fun g hg => h g (List.mem_cons_of_mem _ hg))]

theorem lookup_eq_some_of_mem {α : Type} (k : String) (v : α) :
    ∀ (l : List (String × α)), (l.map Prod.fst).Nodup → (k, v) ∈ l → List.lookup k l = some v := by
  intro l
  induction l with
  | nil => intro _ h; cases h
  | cons p rest ih =>
    intro hnd hmem
    obtain ⟨k0, v0⟩ := p
    simp only [List.map_cons, List.nodup_cons] at hnd
    rcases List.mem_cons.mp hmem with heq | hin
    · cases heq
      simp [List.lookup]
    · have hne : k ≠ k0 := by
        intro h
        apply hnd.1
        rw [← h]
        exact List.mem_map_of_mem Prod.fst hin
      have hb : (k == k0) = false := by simpa using hne
      simp only [List.lookup, hb]
      exact ih hnd.2 hin

theorem lookup_eq_none_of_not_mem {α : Type} (k : String) :
    ∀ (l : List (String × α)), k ∉ l.map Prod.fst → List.lookup k l = none := by
  intro l
  induction l with
  | nil => intro _; rfl
  | cons p rest ih =>
    intro h
    obtain ⟨k0, v0⟩ := p
    simp only [List.map_cons, List.mem_cons, not_or] at h
    have hb : (k == k0) = false := by simpa using h.1
    simp only [List.lookup, hb]
    exact ih h.2

theorem mem_of_lookup_eq_some {α : Type} (k : String) (v : α) :
    ∀ (l : List (String × α)), List.lookup k l = some v → (k, v) ∈ l := by
  intro l
  induction l with
  | nil => intro h; simp [List.lookup] at h
  | cons p rest ih =>
    intro h
    obtain ⟨k0, v0⟩ := p
    by_cases hk : k = k0
    · subst hk
      simp [List.lookup] at h
      simp [h]
    · have hb : (k == k0) = false := by simpa using hk
      simp only [List.lookup, hb] at h
      exact List.mem_cons_of_mem _ (ih h)

theorem not_mem_keys_of_lookup_eq_none {α : Type} (k : String) :
    ∀ (l : List (String × α)), List.lookup k l = none → k ∉ l.map Prod.fst := by
  intro l
  induction l with
  | nil => intro _; simp
  | cons p rest ih =>
    intro h
    obtain ⟨k0, v0⟩ := p
    by_cases hk : k = k0
    · subst hk
      simp [List.lookup] at h
    · have hb : (k == k0) = false := by simpa using hk
      simp only [List.lookup, hb] at h
      simp only [List.map_cons, List.mem_cons, not_or]
      exact ⟨hk, ih h⟩

theorem lookup_perm {α : Type} (l1 l2 : List (String × α)) (hp : l1.Perm l2)
    (hnd : (l1.map Prod.fst).Nodup) (k : String) : List.lookup k l1 = List.lookup k l2 := by
  have hnd2 : (l2.map Prod.fst).Nodup := (hp.map Prod.fst).nodup_iff.mp hnd
  cases h1 : List.lookup k l1 with
  | some v =>
    exact (lookup_eq_some_of_mem k v l2 hnd2
      (hp.mem_iff.mp (mem_of_lookup_eq_some k v l1 h1))).symm
  | none =>
    have hk : k ∉ l2.map Prod.fst := fun h =>
      not_mem_keys_of_lookup_eq_none k l1 h1 ((hp.map Prod.fst).mem_iff.mpr h)
    exact (lookup_eq_none_of_not_mem k l2 hk).symm

/-- The map `unmarshalMembers` builds binds a key to the value of its last member, and else to
what the map held before. -/
theorem unmarshalMembers_get (k : String) :
    ∀ (members : List (String × Json)) (m : GoMap AbiValue),
      (unmarshalMembers members m).get k =
        match List.lookup k members.reverse with
        | some j => some (UnmarshalJSON j)
        | none => m.get k := by
  intro members
  induction members with
  | nil => intro m; simp [unmarshalMembers]
  | cons p rest ih =>
    intro m
    obtain ⟨k0, j0⟩ := p
    rw [unmarshalMembers, ih, List.reverse_cons, List.lookup_append]
    cases hr : List.lookup k rest.reverse with
    | some j => simp
    | none =>
      by_cases hk : k = k0
      · subst hk
        simp [GoMap.get, GoMap.set, List.lookup]
      · have hb : (k == k0) = false := by simpa using hk
        simp [GoMap.get, GoMap.set, List.lookup, hb]

/-- Two JSON objects with the same members in a different order, no key twice, decode to maps
with the same bindings. -/
theorem unmarshalMembers_perm (ms1 ms2 : List (String × Json)) (hp : ms1.Perm ms2)
    (hnd : (ms1.map Prod.fst).Nodup) (k : String) :
    (unmarshalMembers ms1 []).get k = (unmarshalMembers ms2 []).get k := by
  rw [unmarshalMembers_get, unmarshalMembers_get]
  have hp2 : ms1.reverse.Perm ms2.reverse :=
    (List.reverse_perm ms1).trans (hp.trans (List.reverse_perm ms2).symm)
  have hnd2 : (ms1.reverse.map Prod.fst).Nodup := by
    rw [List.map_reverse]
    exact List.nodup_reverse.mpr hnd
  rw [lookup_perm _ _ hp2 hnd2 k]

/-! ## Lemmas on the registry lookups -/

theorem findStruct_some (structs : List ABIStruct) (name : String) (s : ABIStruct)
    (h : findStruct structs name = some s) : s ∈ structs ∧ s.Name = name := by
  unfold findStruct at h
  refine ⟨List.mem_of_find?_eq_some h, ?_⟩
  simpa using List.find?_some h

theorem findStruct_none (structs : List ABIStruct) (name : String)
    (h : ∀ s ∈ structs, s.Name ≠ name) : findStruct structs name = none := by
  unfold findStruct
  rw [List.find?_eq_none]
  intro s hs
  simpa using h s hs

theorem actionLoop_some (structs : List ABIStruct) (actionName : String) (s : ABIStruct) :
    ∀ (actions : List ABIAction), actionLoop structs actionName actions = some s →
      ∃ act ∈ actions, act.Name = actionName ∧ s ∈ structs ∧ s.Name = act.Typ := by
  intro actions
  induction actions with
  | nil => intro h; simp [actionLoop] at h
  | cons act rest ih =>
    intro h
    rw [actionLoop] at h
    by_cases hn : act.Name = actionName
    · simp only [hn, if_true] at h
      cases hf : findStruct structs act.Typ with
      | some s0 =>
        simp only [hf, Option.some.injEq] at h
        subst h
        obtain ⟨hm, hname⟩ := findStruct_some _ _ _ hf
        exact ⟨act, List.mem_cons_self _ _, hn, hm, hname⟩
      | none =>
        simp only [hf] at h
        obtain ⟨a, ha, hrest⟩ := ih h
        exact ⟨a, List.mem_cons_of_mem _ ha, hrest⟩
    · simp only [hn, if_false] at h
      obtain ⟨a, ha, hrest⟩ := ih h
      exact ⟨a, List.mem_cons_of_mem _ ha, hrest⟩

theorem actionLoop_none (structs : List ABIStruct) (actionName : String) :
    ∀ (actions : List ABIAction),
      (∀ act ∈ actions, act.Name = actionName → ∀ s ∈ structs, s.Name ≠ act.Typ) →
      actionLoop structs actionName actions = none := by
  intro actions h
  cases hr : actionLoop structs actionName actions with
  | none => rfl
  | some s =>
    obtain ⟨act, hact, hn, hs, hname⟩ := actionLoop_some _ _ _ _ hr
    exact absurd hname (h act hact hn s hs)

theorem GetActionStruct_none (t : ABISerializer) (contractName actionName : String)
    (h : t.contractAbiMap.get contractName = none ∨
      ∃ abi, t.contractAbiMap.get contractName = some abi ∧
        ∀ act ∈ abi.Actions, act.Name = actionName → ∀ s ∈ abi.Structs, s.Name ≠ act.Typ) :
    GetActionStruct t contractName actionName = none := by
  unfold GetActionStruct
  rcases h with h | ⟨abi, habi, hact⟩
  · rw [h]
  · rw [habi]
    exact actionLoop_none _ _ _ hact

/-! ## Lemmas on the loops of `unpackAbiStruct` -/

theorem unpackElems_ok (elem : Decoder → Unpacked Value) :
    ∀ (count : Nat) (acc : List Value) (dec : Decoder) (arr : List Value) (dec2 : Decoder),
      unpackElems elem count acc dec = (.ok arr, dec2) →
      ∃ vs, vs.length = count ∧ arr = acc ++ vs ∧ ReadSeq elem dec vs dec2 := by
  intro count
  induction count with
  | zero =>
    intro acc dec arr dec2 h
    simp only [unpackElems, Prod.mk.injEq, Except.ok.injEq] at h
    exact ⟨[], rfl, by simp [h.1], h.2 ▸ ReadSeq.nil dec⟩
  | succ n ih =>
    intro acc dec arr dec2 h
    rw [unpackElems] at h
    rcases he : elem dec with ⟨res, dec1⟩
    cases res with
    | error e => simp [he] at h
    | ok v =>
      simp only [he] at h
      obtain ⟨vs, hlen, harr, hseq⟩ := ih _ _ _ _ h
      exact ⟨v :: vs, by simp [hlen], by simp [harr], ReadSeq.cons dec dec1 dec2 v vs he hseq⟩

theorem unpackElems_of_readSeq (elem : Decoder → Unpacked Value) :
    ∀ (vs : List Value) (acc : List Value) (dec dec2 : Decoder),
      ReadSeq elem dec vs dec2 → unpackElems elem vs.length acc dec = (.ok (acc ++ vs), dec2) := by
  intro vs
  induction vs with
  | nil =>
    intro acc dec dec2 h
    cases h
    simp [unpackElems]
  | cons v rest ih =>
    intro acc dec dec2 h
    cases h with
    | cons _ dec1 _ _ _ head tail =>
      simp only [List.length_cons, unpackElems, head]
      rw [ih _ _ _ tail]
      simp

theorem unpackAbiStruct_eq (d : Deps) (t : ABISerializer) (fuel : Nat) (contractName : String)
    (S : ABIStruct) (result : OrderedMap) (dec : Decoder) :
    unpackAbiStruct d t fuel contractName S result dec =
      unpackFields d t (unpackNested d t fuel contractName) contractName S.Fields result dec := by
  cases fuel <;> rfl

/-- The array part of the loop body, once the type is known to be neither primitive nor a
struct, to end in the array suffix, and the count is read. -/
theorem unpackField_array (d : Deps) (t : ABISerializer)
    (self : ABIStruct → OrderedMap → Decoder → Unpacked OrderedMap) (contractName : String)
    (f : ABIStructField) (dec dec1 : Decoder) (n : Nat)
    (hprim : f.Typ ∉ t.baseTypeMap) (hstruct : GetAbiStruct t contractName f.Typ = .ok none)
    (hsuf : hasArraySuffix f.Typ = true)
    (hcount : Decoder.UnpackVarUint32 dec = (.ok n, dec1)) :
    unpackField d t self contractName f dec =
      if trimArraySuffix f.Typ ∈ t.baseTypeMap then
        match unpackElems (unpackAbiStructField d (trimArraySuffix f.Typ)) n [] dec1 with
        | (.error e, dec3) => (.error e, dec3)
        | (.ok arr, dec3) => (.ok (.arr arr), dec3)
      else
        match GetAbiStruct t contractName (trimArraySuffix f.Typ) with
        | .error e => (.error e, dec1)
        | .ok none => (.error (.error (.unknownType (trimArraySuffix f.Typ))), dec1)
        | .ok (some subStruct) =>
          match unpackElems (unpackStructElem (self subStruct)) n [] dec1 with
          | (.error e, dec3) => (.error e, dec3)
          | (.ok arr, dec3) => (.ok (.arr arr), dec3) := by
  unfold unpackField
  rw [if_neg hprim]
  unfold unpackComposite
  simp only [hstruct, hsuf, hcount]
  rfl

/-- The loop body for an array field whose elements are decoded by `elem`. -/
theorem array_field_steps (d : Deps) (t : ABISerializer)
    (self : ABIStruct → OrderedMap → Decoder → Unpacked OrderedMap) (contractName : String)
    (f : ABIStructField) (rest : List ABIStructField) (result : OrderedMap) (dec dec1 : Decoder)
    (n : Nat) (elem : Decoder → Unpacked Value)
    (hfield : unpackField d t self contractName f dec =
      match unpackElems elem n [] dec1 with
      | (.error e, dec3) => (.error e, dec3)
      | (.ok arr, dec3) => (.ok (.arr arr), dec3)) :
    (∀ vs dec2, vs.length = n → ReadSeq elem dec1 vs dec2 →
      unpackFields d t self contractName (f :: rest) result dec =
        unpackFields d t self contractName rest (omSet result f.Name (.arr vs)) dec2) ∧
    (∀ r dec3, unpackFields d t self contractName (f :: rest) result dec = (.ok r, dec3) →
      ∃ vs dec2, vs.length = n ∧ ReadSeq elem dec1 vs dec2 ∧
        unpackFields d t self contractName rest (omSet result f.Name (.arr vs)) dec2
          = (.ok r, dec3)) := by
  refine ⟨?_, ?_⟩
  · intro vs dec2 hlen hseq
    have he := unpackElems_of_readSeq elem vs [] dec1 dec2 hseq
    rw [hlen] at he
    rw [unpackFields, hfield, he]
    rfl
  · intro r dec3 h
    rw [unpackFields, hfield] at h
    rcases he : unpackElems elem n [] dec1 with ⟨res, dec2⟩
    cases res with
    | error e => simp [he] at h
    | ok arr =>
      simp only [he] at h
      obtain ⟨vs, hlen, harr, hseq⟩ := unpackElems_ok elem n [] dec1 arr dec2 he
      simp only [List.nil_append] at harr
      subst harr
      exact ⟨arr, dec2, hlen, hseq, h⟩

/-! ## Lemmas on the byte codec -/

theorem length_leBytes : ∀ (w n : Nat), (leBytes w n).length = w := by
  intro w
  induction w with
  | zero => intro n; rfl
  | succ k ih => intro n; simp [leBytes, ih]

theorem leValue_leBytes : ∀ (w n : Nat), leValue (leBytes w n) = n % 256 ^ w := by
  intro w
  induction w with
  | zero => intro n; simp [leBytes, leValue, Nat.mod_one]
  | succ k ih =>
    intro n
    simp only [leBytes, leValue, ih]
    rw [pow_succ, Nat.mul_comm (256 ^ k) 256, Nat.mod_mul]

theorem read_append (bs rest : Bytes) (n : Nat) (h : bs.length = n) :
    Decoder.read (bs ++ rest) n = (.ok bs, rest) := by
  unfold Decoder.read
  have hle : n ≤ (bs ++ rest).length := by simp [← h]
  rw [if_pos hle]
  subst h
  simp

theorem toUnsigned_of_nonneg (bits : Nat) (n : Nat) (h : n < 2 ^ bits) :
    toUnsigned bits (n : Int) = n := by
  unfold toUnsigned
  have : ((n : Int) % (2 : Int) ^ bits) = (n : Int) := by
    apply Int.emod_eq_of_lt (Int.ofNat_nonneg n)
    exact_mod_cast h
  rw [this]
  simp

theorem readUint64_PackInt (n : Nat) (rest : Bytes) (h : n < 2 ^ 64) :
    Decoder.readUint (PackInt 64 (n : Int) ++ rest) 64 = (.ok n, rest) := by
  unfold Decoder.readUint PackInt
  rw [read_append _ _ _ (length_leBytes _ _), toUnsigned_of_nonneg 64 n h]
  simp only [leValue_leBytes]
  have : n % 256 ^ (64 / 8) = n := Nat.mod_eq_of_lt (by norm_num; omega)
  rw [this]

theorem readInt64_PackInt (n : Nat) (rest : Bytes) (h : n < 2 ^ 63) :
    Decoder.readInt (PackInt 64 (n : Int) ++ rest) 64 = (.ok (n : Int), rest) := by
  unfold Decoder.readInt PackInt
  have h64 : n < 2 ^ 64 := by omega
  rw [read_append _ _ _ (length_leBytes _ _), toUnsigned_of_nonneg 64 n h64]
  simp only [leValue_leBytes]
  have : n % 256 ^ (64 / 8) = n := Nat.mod_eq_of_lt (by norm_num; omega)
  rw [this]
  unfold toSigned
  rw [if_pos (by norm_num; omega)]

theorem varuintRead_varuintLoop (rest : Bytes) :
    ∀ (k n shift acc : Nat), n < 128 ^ (k + 1) →
      varuintRead shift acc (varuintLoop (k + 1) n ++ rest)
        = some ((acc + n * 2 ^ shift) % 2 ^ 32, rest) := by
  intro k
  induction k with
  | zero =>
    intro n shift acc h
    have hn : n < 128 := by simpa using h
    rw [varuintLoop, if_pos hn]
    simp [varuintRead, hn]
  | succ j ih =>
    intro n shift acc h
    rw [varuintLoop]
    by_cases hn : n < 128
    · rw [if_pos hn]
      simp [varuintRead, hn]
    · rw [if_neg hn]
      have h1 : ¬ (n % 128 + 128 < 128) := by omega
      have h2 : (n % 128 + 128) % 128 = n % 128 := by omega
      have h3 : n / 128 < 128 ^ (j + 1) := by
        rw [Nat.div_lt_iff_lt_mul (by norm_num)]
        rw [pow_succ] at h
        exact h
      have hstep : varuintRead shift acc ((n % 128 + 128) :: (varuintLoop (j + 1) (n / 128) ++ rest))
          = varuintRead (shift + 7) (acc + n % 128 * 2 ^ shift)
              (varuintLoop (j + 1) (n / 128) ++ rest) := by
        rw [varuintRead, if_neg h1, h2]
      rw [List.cons_append, hstep, ih (n / 128) (shift + 7) _ h3]
      have : acc + n % 128 * 2 ^ shift + n / 128 * 2 ^ (shift + 7) = acc + n * 2 ^ shift := by
        have hd := Nat.div_add_mod n 128
        rw [pow_add]
        calc acc + n % 128 * 2 ^ shift + n / 128 * (2 ^ shift * 2 ^ 7)
            = acc + (128 * (n / 128) + n % 128) * 2 ^ shift := by ring
          _ = acc + n * 2 ^ shift := by rw [hd]
      rw [this]

theorem UnpackVarUint32_PackVarUint32 (n : Nat) (rest : Bytes) (h : n < 2 ^ 32) :
    Decoder.UnpackVarUint32 (PackVarUint32 n ++ rest) = (.ok n, rest) := by
  unfold Decoder.UnpackVarUint32 PackVarUint32
  have h35 : n < 128 ^ (4 + 1) := by
    have : (2 : Nat) ^ 32 < 128 ^ (4 + 1) := by norm_num
    omega
  rw [Nat.mod_eq_of_lt h, varuintRead_varuintLoop rest 4 n 0 0 h35]
  simp only [Nat.zero_add, Nat.pow_zero, Nat.mul_one, Nat.mod_eq_of_lt h]

theorem UnpackBytes_PackBytes (bs rest : Bytes) (h : bs.length < 2 ^ 32) :
    Decoder.UnpackBytes (PackBytes bs ++ rest) = (.ok bs, rest) := by
  unfold Decoder.UnpackBytes PackBytes
  rw [List.append_assoc, UnpackVarUint32_PackVarUint32 _ _ h]
  simp only
  rw [read_append _ _ _ rfl]

/-! ## Lemmas on texts -/

theorem StripString_quoted (v : Bytes) : StripString (34 :: (v ++ [34])) = some v := by
  unfold StripString
  have h1 : ¬ (34 :: (v ++ [34])).length < 2 := by simp
  rw [if_neg h1]
  have h2 : ¬ ((34 :: (v ++ [34])).head? ≠ some 34 ∨ (34 :: (v ++ [34])).getLast? ≠ some 34) := by
    simp [List.getLast?_cons_cons]
    rw [← List.cons_append, List.getLast?_append]
    simp
  rw [if_neg h2]
  simp

theorem isDigit_iff (c : Nat) : isDigit c = true ↔ 48 ≤ c ∧ c ≤ 57 := by
  simp [isDigit]

theorem digitsValue_nil (acc : Nat) : digitsValue acc [] = acc := rfl

theorem digitsValue_cons (acc c : Nat) (cs : Bytes) :
    digitsValue acc (c :: cs) = digitsValue (acc * 10 + (c - 48)) cs := rfl

theorem digitsValue_append : ∀ (a b : Bytes) (acc : Nat),
    digitsValue acc (a ++ b) = digitsValue (digitsValue acc a) b := by
  intro a
  induction a with
  | nil => intro b acc; rfl
  | cons c cs ih =>
    intro b acc
    rw [List.cons_append, digitsValue_cons, digitsValue_cons, ih]

theorem digitsValue_zeros : ∀ (k acc : Nat),
    digitsValue acc (List.replicate k 48) = acc * 10 ^ k := by
  intro k
  induction k with
  | zero => intro acc; simp [digitsValue_nil]
  | succ j ih =>
    intro acc
    rw [List.replicate_succ, digitsValue_cons, ih]
    ring

theorem le_digitsValue : ∀ (s : Bytes) (acc : Nat), acc ≤ digitsValue acc s := by
  intro s
  induction s with
  | nil => intro acc; exact Nat.le_refl _
  | cons c cs ih =>
    intro acc
    rw [digitsValue_cons]
    have := ih (acc * 10 + (c - 48))
    omega

/-- A digit string with a leading digit other than zero denotes a number of that many
digits. -/
theorem pow_le_digitsValue : ∀ (s : Bytes) (acc : Nat), 1 ≤ acc →
    acc * 10 ^ s.length ≤ digitsValue acc s := by
  intro s
  induction s with
  | nil => intro acc _; simp [digitsValue_nil]
  | cons c cs ih =>
    intro acc h
    rw [digitsValue_cons, List.length_cons]
    have := ih (acc * 10 + (c - 48)) (by omega)
    calc acc * 10 ^ (cs.length + 1) = acc * 10 * 10 ^ cs.length := by ring
      _ ≤ (acc * 10 + (c - 48)) * 10 ^ cs.length := Nat.mul_le_mul_right _ (by omega)
      _ ≤ _ := this

theorem decDigits_digitsValue : ∀ (s : Bytes), s ≠ [] → s.all isDigit = true →
    s.head? ≠ some 48 → ∀ (fuel : Nat) (acc : Bytes), s.length ≤ fuel →
      decDigits fuel (digitsValue 0 s) acc = s ++ acc := by
  intro s
  induction s using List.reverseRecOn with
  | nil => intro h; exact absurd rfl h
  | append_singleton init c ih =>
    intro _ hall hhead fuel acc hfuel
    rw [List.all_append] at hall
    simp only [Bool.and_eq_true, List.all_cons, List.all_nil, Bool.and_true] at hall
    obtain ⟨hinit, hc⟩ := hall
    rw [isDigit_iff] at hc
    rw [digitsValue_append, digitsValue_cons, digitsValue_nil]
    cases fuel with
    | zero => simp at hfuel
    | succ f =>
      rw [decDigits]
      by_cases hnil : init = []
      · subst hnil
        simp only [digitsValue_nil, List.nil_append]
        have hlt : 0 * 10 + (c - 48) < 10 := by omega
        rw [if_pos hlt]
        have : 0 * 10 + (c - 48) + 48 = c := by omega
        rw [this]
        rfl
      · have hhead2 : init.head? ≠ some 48 := by
          cases init with
          | nil => exact absurd rfl hnil
          | cons a as => simpa using hhead
        have hpos : 1 ≤ digitsValue 0 init := by
          cases init with
          | nil => exact absurd rfl hnil
          | cons a as =>
            simp only [List.all_cons, Bool.and_eq_true] at hinit
            have ha := (isDigit_iff a).mp hinit.1
            have hne : a ≠ 48 := by simpa using hhead2
            rw [digitsValue_cons]
            have := le_digitsValue as (0 * 10 + (a - 48))
            omega
        have hge : ¬ (digitsValue 0 init * 10 + (c - 48) < 10) := by omega
        rw [if_neg hge]
        have hdiv : (digitsValue 0 init * 10 + (c - 48)) / 10 = digitsValue 0 init := by omega
        have hmod : (digitsValue 0 init * 10 + (c - 48)) % 10 + 48 = c := by omega
        rw [hdiv, hmod]
        have hlen : init.length ≤ f := by
          simp only [List.length_append, List.length_singleton] at hfuel
          omega
        rw [ih hnil hinit hhead2 f (c :: acc) hlen]
        simp

/-- The decimal text of the value of a digit string without redundant leading zeros is the
string itself. -/
theorem fmtNat_digitsValue (s : Bytes) (hne : s ≠ []) (hall : s.all isDigit = true)
    (hcanon : s = [48] ∨ s.head? ≠ some 48) : fmtNat (digitsValue 0 s) = s := by
  unfold fmtNat
  by_cases hz : s = [48]
  · subst hz
    rfl
  · have hhead : s.head? ≠ some 48 := by
      rcases hcanon with h | h
      · exact absurd h hz
      · exact h
    have hlen : s.length ≤ digitsValue 0 s + 1 := by
      cases s with
      | nil => exact absurd rfl hne
      | cons a as =>
        simp only [List.all_cons, Bool.and_eq_true] at hall
        have ha := (isDigit_iff a).mp hall.1
        have hne48 : a ≠ 48 := by simpa using hhead
        rw [digitsValue_cons, List.length_cons]
        have h1 := pow_le_digitsValue as (0 * 10 + (a - 48)) (by omega)
        have h2 : as.length < 10 ^ as.length := Nat.lt_pow_self (by norm_num) _
        have h3 : 10 ^ as.length ≤ (0 * 10 + (a - 48)) * 10 ^ as.length :=
          Nat.le_mul_of_pos_left _ (by omega)
        omega
    have := decDigits_digitsValue s hne hall hhead (digitsValue 0 s + 1) [] hlen
    simpa using this

theorem Atoi_digits (s : Bytes) (hne : s ≠ []) (hall : s.all isDigit = true)
    (hlt : digitsValue 0 s < 2 ^ 63) : Atoi s = some (digitsValue 0 s : Int) := by
  cases s with
  | nil => exact absurd rfl hne
  | cons c cs =>
    have hc : 48 ≤ c ∧ c ≤ 57 := by
      simp only [List.all_cons, Bool.and_eq_true] at hall
      exact (isDigit_iff c).mp hall.1
    have h45 : c ≠ 45 := by omega
    have h43 : c ≠ 43 := by omega
    unfold Atoi
    simp only [h45, h43, or_self, if_false, decide_False]
    have hcond : (c :: cs ≠ [] ∧ (c :: cs).all isDigit = true) := ⟨by simp, hall⟩
    rw [if_pos hcond]
    have hrange : -(2 : Int) ^ 63 ≤ (digitsValue 0 (c :: cs) : Int) ∧
        (digitsValue 0 (c :: cs) : Int) < (2 : Int) ^ 63 := by
      constructor
      · have : (0 : Int) ≤ (digitsValue 0 (c :: cs) : Int) := Int.ofNat_nonneg _
        have h2 : -(2 : Int) ^ 63 ≤ 0 := by norm_num
        omega
      · exact_mod_cast hlt
    simp only [Bool.false_eq_true, if_false]
    rw [if_pos hrange]

theorem splitOn_two (x : Nat) (a b : Bytes) (ha : x ∉ a) (hb : x ∉ b) :
    List.splitOn x (a ++ x :: b) = [a, b] := by
  have h := List.splitOn_intercalate [a, b] x
    (by
      intro l hl
      simp only [List.mem_cons, List.mem_singleton, List.not_mem_nil, or_false] at hl
      rcases hl with rfl | rfl
      · exact ha
      · exact hb)
    (by simp)
  simpa [List.intercalate] using h

theorem erase_first (x : Nat) (a b : Bytes) (ha : x ∉ a) :
    List.erase (a ++ x :: b) x = a ++ b := by
  rw [List.erase_append_right _ ha, List.erase_cons_head]

theorem symbolLoop_upper : ∀ (s : Bytes), upperOnly s = true → symbolLoop s = true := by
  intro s
  induction s with
  | nil => intro _; rfl
  | cons c cs ih =>
    intro h
    simp only [upperOnly, List.all_cons, Bool.and_eq_true, decide_eq_true_eq] at h
    have hc : 65 ≤ c ∧ c ≤ 90 := h.1
    rw [symbolLoop, if_pos hc]
    exact ih (by simpa [upperOnly] using h.2)

theorem IsSymbolValid_upper (s : Bytes) (h : upperOnly s = true) (h1 : 1 ≤ s.length)
    (h7 : s.length ≤ 7) : IsSymbolValid s = true := by
  unfold IsSymbolValid
  have : ¬ (s.length > 7 ∨ s.length ≤ 0) := by omega
  rw [if_neg this]
  exact symbolLoop_upper s h

theorem copyInto_short (n : Nat) (s : Bytes) (h : s.length ≤ n) :
    copyInto n s = s ++ List.replicate (n - s.length) 0 := by
  unfold copyInto
  apply List.take_of_length_le
  simp
  omega

theorem length_copyInto (n : Nat) (s : Bytes) : (copyInto n s).length = n := by
  unfold copyInto
  simp
  omega

theorem trimRightNul_padded (s : Bytes) (k : Nat) (h : ∀ c ∈ s, c ≠ 0) :
    trimRightNul (s ++ List.replicate k 0) = s := by
  unfold trimRightNul
  rw [List.reverse_append, List.reverse_replicate]
  have hdrop : ∀ (j : Nat) (l : Bytes), (∀ c ∈ l, c ≠ 0) →
      List.dropWhile (fun c => decide (c = 0)) (List.replicate j 0 ++ l) = l := by
    intro j
    induction j with
    | zero =>
      intro l hl
      cases l with
      | nil => rfl
      | cons a as =>
        have : a ≠ 0 := hl a (List.mem_cons_self _ _)
        simp [List.dropWhile, this]
    | succ i ih =>
      intro l hl
      simp only [List.replicate_succ, List.cons_append, List.dropWhile, decide_True]
      exact ih l hl
  rw [hdrop k s.reverse (fun c hc => h c (List.mem_reverse.mp hc))]
  simp

/-! ## The asset codec on canonical texts -/

theorem upperOnly_mem (s : Bytes) (h : upperOnly s = true) : ∀ c ∈ s, 65 ≤ c ∧ c ≤ 90 := by
  intro c hc
  have := List.all_eq_true.mp h c hc
  simpa using this

theorem digits_mem (s : Bytes) (h : s.all isDigit = true) : ∀ c ∈ s, 48 ≤ c ∧ c ≤ 57 := by
  intro c hc
  exact (isDigit_iff c).mp (List.all_eq_true.mp h c hc)

theorem all_isDigit_zeros (k : Nat) : (List.replicate k 48).all isDigit = true := by
  rw [List.all_eq_true]
  intro c hc
  rw [List.eq_of_mem_replicate hc]
  rfl

theorem ParseAsset_canonical (d : Deps) (ip : Bytes) (k : Nat) (sym : Bytes)
    (hne : ip ≠ []) (hdig : ip.all isDigit = true) (hk1 : 1 ≤ k) (hk : k ≤ 255)
    (hval : digitsValue 0 ip * 10 ^ k < 2 ^ 63)
    (hsym : upperOnly sym = true) (hs1 : 1 ≤ sym.length) (hs7 : sym.length ≤ 7)
    (hfloat : (d.ParseFloat (ip ++ 46 :: List.replicate k 48) 64).isSome = true) :
    ParseAsset d (assetText ip k sym) =
      some (PackInt 64 ((digitsValue 0 ip * 10 ^ k : Nat) : Int) ++ [k] ++ copyInto 7 sym) := by
  have hipd := digits_mem ip hdig
  have hsymu := upperOnly_mem sym hsym
  have h32a : (32 : Nat) ∉ ip ++ 46 :: List.replicate k 48 := by
    intro hm
    rcases List.mem_append.mp hm with h | h
    · have := hipd 32 h; omega
    · rcases List.mem_cons.mp h with h | h
      · omega
      · have := List.eq_of_mem_replicate h; omega
  have h32s : (32 : Nat) ∉ sym := fun h => by have := hsymu 32 h; omega
  have h46i : (46 : Nat) ∉ ip := fun h => by have := hipd 46 h; omega
  have h46z : (46 : Nat) ∉ List.replicate k 48 := fun h => by
    have := List.eq_of_mem_replicate h; omega
  have hzne : List.replicate k 48 ≠ [] := by
    intro h
    have := congrArg List.length h
    simp at this
    omega
  have hpow : 1 ≤ 10 ^ k := Nat.one_le_pow _ _ (by norm_num)
  have hv : digitsValue 0 ip < 2 ^ 63 :=
    Nat.lt_of_le_of_lt (Nat.le_mul_of_pos_right _ hpow) hval
  have hA0 : Atoi (List.replicate k 48) = some 0 := by
    have := Atoi_digits (List.replicate k 48) hzne (all_isDigit_zeros k)
      (by rw [digitsValue_zeros]; norm_num)
    rw [this, digitsValue_zeros]
    simp
  have hA1 : Atoi ip = some (digitsValue 0 ip : Int) := Atoi_digits ip hne hdig hv
  have hcat : digitsValue 0 (ip ++ List.replicate k 48) = digitsValue 0 ip * 10 ^ k := by
    rw [digitsValue_append, digitsValue_zeros]
  have hA2 : Atoi (ip ++ List.replicate k 48) = some ((digitsValue 0 ip * 10 ^ k : Nat) : Int) := by
    have := Atoi_digits (ip ++ List.replicate k 48) (by simp [hne])
      (by rw [List.all_append, hdig, all_isDigit_zeros]; rfl) (by rw [hcat]; exact hval)
    rw [this, hcat]
  have hnone : (d.ParseFloat (ip ++ 46 :: List.replicate k 48) 64).isNone = false := by
    cases hp : d.ParseFloat (ip ++ 46 :: List.replicate k 48) 64 with
    | none => rw [hp] at hfloat; simp at hfloat
    | some b => rfl
  unfold ParseAsset assetText
  rw [splitOn_two 32 _ _ h32a h32s]
  simp only [IsSymbolValid_upper sym hsym hs1 hs7, hnone, Bool.true_eq_false, if_false,
    Bool.false_eq_true]
  rw [splitOn_two 46 _ _ h46i h46z]
  simp only [hA0, hA1, erase_first 46 _ _ h46i, hA2]
  have hnn : ¬ ((digitsValue 0 ip : Int) < 0) := by
    have := Int.ofNat_nonneg (digitsValue 0 ip)
    omega
  have hkm : k % 256 = k := Nat.mod_eq_of_lt (by omega)
  simp [hnn, hkm]

theorem fmtInt_natCast (n : Nat) : fmtInt (n : Int) = fmtNat n := by
  unfold fmtInt
  have : ¬ ((n : Int) < 0) := by
    have := Int.ofNat_nonneg n
    omega
  rw [if_neg this]
  simp

theorem fmtIntZero_zero (k : Nat) (hk : 1 ≤ k) : fmtIntZero k 0 = List.replicate k 48 := by
  unfold fmtIntZero
  have hf : fmtNat (Int.natAbs 0) = [48] := rfl
  simp only [hf, lt_self_iff_false, if_false, List.length_singleton]
  obtain ⟨j, rfl⟩ : ∃ j, k = j + 1 := ⟨k - 1, by omega⟩
  rw [Nat.add_sub_cancel, List.replicate_succ']

theorem unpackAsset_canonical (d : Deps) (ip : Bytes) (k : Nat) (sym rest : Bytes)
    (hne : ip ≠ []) (hdig : ip.all isDigit = true)
    (hcanon : ip = [48] ∨ ip.head? ≠ some 48) (hk1 : 1 ≤ k)
    (hk : k ≤ 18 ∨ d.pow10Overflow k ≠ 0)
    (hval : digitsValue 0 ip * 10 ^ k < 2 ^ 63)
    (hsym : upperOnly sym = true) (hs7 : sym.length ≤ 7) :
    unpackAsset d
        ((PackInt 64 ((digitsValue 0 ip * 10 ^ k : Nat) : Int) ++ [k] ++ copyInto 7 sym) ++ rest)
      = (.ok (.str (assetText ip k sym)), rest) := by
  have hsymu := upperOnly_mem sym hsym
  have hpow : 1 ≤ 10 ^ k := Nat.one_le_pow _ _ (by norm_num)
  have hv : digitsValue 0 ip < 2 ^ 63 :=
    Nat.lt_of_le_of_lt (Nat.le_mul_of_pos_right _ hpow) hval
  unfold unpackAsset
  rw [List.append_assoc, List.append_assoc, readInt64_PackInt _ _ hval]
  simp only
  have hread : Decoder.read ([k] ++ (copyInto 7 sym ++ rest)) 8
      = (.ok ([k] ++ copyInto 7 sym), rest) := by
    rw [← List.append_assoc]
    exact read_append _ _ _ (by simp [length_copyInto])
  rw [hread]
  simp only [List.singleton_append, List.headD_cons, List.drop_succ_cons, List.drop_zero]
  have hp0 : ¬ (pow10Int64 d k = 0) := by
    unfold pow10Int64
    by_cases h18 : k ≤ 18
    · rw [if_pos h18]
      positivity
    · rw [if_neg h18]
      rcases hk with h | h
      · exact absurd h h18
      · exact h
  have hquot : Int.tdiv ((digitsValue 0 ip * 10 ^ k : Nat) : Int) (pow10Int64 d k)
        = (digitsValue 0 ip : Int) ∧
      Int.tmod ((digitsValue 0 ip * 10 ^ k : Nat) : Int) (pow10Int64 d k) = 0 := by
    by_cases h18 : k ≤ 18
    · have hp : pow10Int64 d k = ((10 ^ k : Nat) : Int) := by
        unfold pow10Int64
        rw [if_pos h18]
        push_cast
        rfl
      rw [hp, ← Int.ofNat_tdiv, ← Int.ofNat_tmod, Nat.mul_div_cancel _ (by omega),
        Nat.mul_mod_left]
      exact ⟨rfl, rfl⟩
    · have hbig : 2 ^ 63 ≤ 10 ^ k :=
        Nat.le_trans (by norm_num) (Nat.pow_le_pow_right (by norm_num) (by omega : 19 ≤ k))
      have hzero : digitsValue 0 ip = 0 := by
        by_contra hnz
        have : 10 ^ k ≤ digitsValue 0 ip * 10 ^ k :=
          Nat.le_mul_of_pos_left _ (Nat.pos_of_ne_zero hnz)
        omega
      rw [hzero]
      simp
  obtain ⟨hdiv, hmod⟩ := hquot
  rw [if_neg hp0]
  have hsig : toSigned 64 (toUnsigned 64 (digitsValue 0 ip : Int)) = (digitsValue 0 ip : Int) := by
    rw [toUnsigned_of_nonneg 64 _ (by omega)]
    unfold toSigned
    rw [if_pos (by norm_num; omega)]
  rw [hdiv, hmod, hsig, fmtInt_natCast, fmtNat_digitsValue ip hne hdig hcanon,
    fmtIntZero_zero k hk1, copyInto_short 7 sym hs7,
    trimRightNul_padded sym _ (fun c hc => by have := hsymu c hc; omega)]
  have h46 : txt "." = [46] := rfl
  have h32 : txt " " = [32] := rfl
  rw [h46, h32]
  simp [assetText]

theorem ParseAbiValue_str (d : Deps) (t : ABISerializer) (fuel : Nat) (typ : String)
    (v : Bytes) : ParseAbiValue d t fuel typ (.str v) = ParseAbiStringValue d typ v := by
  cases fuel <;> rfl

theorem pack_name (d : Deps) (v : Bytes) (h : d.N2S (d.S2N v) = v) :
    ParseAbiStringValue d "name" (quoted v) = .wrote (PackInt 64 (d.S2N v : Int)) := by
  have h1 : ParseAbiStringValue d "name" (quoted v) =
      (match StripString (quoted v) with
       | none => PackRes.fail (.invalidValue "name" [])
       | some v =>
         if d.N2S (d.S2N v) ≠ v then PackRes.fail (.invalidValue "name" v)
         else .wrote (PackInt 64 (d.S2N v))) := rfl
  rw [h1]
  unfold quoted
  rw [StripString_quoted]
  simp [h]

theorem pack_string (d : Deps) (v : Bytes) :
    ParseAbiStringValue d "string" (quoted v) = .wrote (PackBytes v) := by
  have h1 : ParseAbiStringValue d "string" (quoted v) =
      (match StripString (quoted v) with
       | none => PackRes.fail (.invalidValue "string" [])
       | some v => .wrote (PackBytes v)) := rfl
  rw [h1]
  unfold quoted
  rw [StripString_quoted]

theorem pack_asset (d : Deps) (v r : Bytes) (h : ParseAsset d v = some r) :
    ParseAbiStringValue d "asset" (quoted v) = .wrote r := by
  have h1 : ParseAbiStringValue d "asset" (quoted v) =
      (match StripString (quoted v) with
       | none => PackRes.fail (.invalidValue "asset" [])
       | some v =>
         match ParseAsset d v with
         | none => PackRes.fail (.invalidValue "asset" v)
         | some r => .wrote r) := rfl
  rw [h1]
  unfold quoted
  rw [StripString_quoted]
  simp [h]

theorem unpack_name (d : Deps) (n : Nat) (rest : Bytes) (h : n < 2 ^ 64) :
    unpackAbiStructField d "name" (PackInt 64 (n : Int) ++ rest) = (.ok (.str (d.N2S n)), rest) := by
  have h1 : unpackAbiStructField d "name" (PackInt 64 (n : Int) ++ rest)
      = unpackName d (PackInt 64 (n : Int) ++ rest) := rfl
  rw [h1]
  unfold unpackName
  rw [readUint64_PackInt n rest h]

theorem unpack_string (d : Deps) (v rest : Bytes) (h : v.length < 2 ^ 32) :
    unpackAbiStructField d "string" (PackBytes v ++ rest) = (.ok (.str v), rest) := by
  have h1 : unpackAbiStructField d "string" (PackBytes v ++ rest)
      = (match Decoder.UnpackBytes (PackBytes v ++ rest) with
         | (.ok v, rest) => (.ok (.str v), rest)
         | (.error e, rest) => (.error e, rest)) := rfl
  rw [h1, UnpackBytes_PackBytes v rest h]

theorem unpackField_prim (d : Deps) (t : ABISerializer)
    (self : ABIStruct → OrderedMap → Decoder → Unpacked OrderedMap) (contractName : String)
    (f : ABIStructField) (dec dec1 : Decoder) (val : Value) (hb : f.Typ ∈ t.baseTypeMap)
    (h : unpackAbiStructField d f.Typ dec = (.ok val, dec1)) :
    unpackField d t self contractName f dec = (.ok val, dec1) := by
  unfold unpackField
  rw [if_pos hb, h]

/-! ## Lemmas on the base of a struct -/

theorem lookup_map_snd {α β : Type} (f : α → β) (k : String) :
    ∀ (m : List (String × α)),
      List.lookup k (m.map (fun p => (p.1, f p.2))) = (List.lookup k m).map f := by
  intro m
  induction m with
  | nil => rfl
  | cons p rest ih =>
    obtain ⟨k0, v0⟩ := p
    by_cases hk : k = k0
    · subst hk
      simp [List.lookup]
    · have hb : (k == k0) = false := by simpa using hk
      simp only [List.map_cons, List.lookup, hb]
      exact ih

theorem findStruct_rebase (g : ABIStruct → String) (name : String) :
    ∀ (structs : List ABIStruct),
      findStruct (structs.map (rebaseStruct g)) name
        = (findStruct structs name).map (rebaseStruct g) := by
  intro structs
  induction structs with
  | nil => rfl
  | cons s rest ih =>
    unfold findStruct at ih ⊢
    by_cases hn : s.Name = name
    · simp [List.find?, rebaseStruct, hn]
    · simp only [List.map_cons, List.find?, rebaseStruct, hn, decide_False]
      exact ih

theorem GetAbiStruct_rebase (g : ABIStruct → String) (t : ABISerializer)
    (contractName typ : String) :
    GetAbiStruct (rebaseSerializer g t) contractName typ =
      match GetAbiStruct t contractName typ with
      | .error e => .error e
      | .ok r => .ok (r.map (rebaseStruct g)) := by
  unfold GetAbiStruct
  have h1 : (rebaseSerializer g t).contractAbiMap.get contractName
      = (t.contractAbiMap.get contractName).map (rebaseAbi g) :=
    lookup_map_snd (rebaseAbi g) contractName t.contractAbiMap
  have h2 : (rebaseSerializer g t).abiMap.get typ = (t.abiMap.get typ).map (rebaseStruct g) :=
    lookup_map_snd (rebaseStruct g) typ t.abiMap
  rw [h1, h2]
  cases hc : t.contractAbiMap.get contractName with
  | none => rfl
  | some abi =>
    simp only [Option.map_some', rebaseAbi, findStruct_rebase]
    cases hf : findStruct abi.Structs typ with
    | none => rfl
    | some s => rfl

theorem packFields_parse_congr (p1 p2 : String → AbiValue → PackRes) (m : GoMap AbiValue)
    (h : ∀ typ v, p1 typ v = p2 typ v) :
    ∀ (fields : List ABIStructField), packFields p1 m fields = packFields p2 m fields := by
  have : p1 = p2 := funext (fun typ => funext (fun v => h typ v))
  intro fields
  rw [this]

theorem ParseAbiValue_rebase (d : Deps) (g : ABIStruct → String) (t : ABISerializer) :
    ∀ (fuel : Nat) (typ : String) (v : AbiValue),
      ParseAbiValue d (rebaseSerializer g t) fuel typ v = ParseAbiValue d t fuel typ v := by
  intro fuel
  induction fuel with
  | zero =>
    intro typ v
    cases v <;> rfl
  | succ n ih =>
    intro typ v
    cases v with
    | str raw => rfl
    | arr elems => rfl
    | map m =>
      have hname : (rebaseSerializer g t).contractName = t.contractName := rfl
      simp only [ParseAbiValue, hname, GetAbiStruct_rebase]
      rcases hg : GetAbiStruct t t.contractName typ with e | (_ | s)
      · rfl
      · rfl
      · simp only [Option.map_some']
        exact packFields_parse_congr _ _ m ih s.Fields

theorem unpackElems_congr (e1 e2 : Decoder → Unpacked Value) (h : ∀ dec, e1 dec = e2 dec)
    (count : Nat) (acc : List Value) (dec : Decoder) :
    unpackElems e1 count acc dec = unpackElems e2 count acc dec := by
  have : e1 = e2 := funext h
  rw [this]

/-- The loop body does not look at the bases: it gives the same value in the serializer with
replaced bases, when the recursive calls agree. -/
theorem unpackField_rebase (d : Deps) (g : ABIStruct → String) (t : ABISerializer)
    (self1 self2 : ABIStruct → OrderedMap → Decoder → Unpacked OrderedMap)
    (contractName : String)
    (hself : ∀ sub result dec, self1 (rebaseStruct g sub) result dec = self2 sub result dec)
    (f : ABIStructField) (dec : Decoder) :
    unpackField d (rebaseSerializer g t) self1 contractName f dec
      = unpackField d t self2 contractName f dec := by
  have hcomp : ∀ typ dec0, unpackComposite d (rebaseSerializer g t) self1 contractName typ dec0
      = unpackComposite d t self2 contractName typ dec0 := by
    intro typ dec0
    unfold unpackComposite
    have hbase : (rebaseSerializer g t).baseTypeMap = t.baseTypeMap := rfl
    simp only [GetAbiStruct_rebase, hbase]
    rcases hg : GetAbiStruct t contractName typ with e | (_ | s)
    · rfl
    · simp only [Option.map_none']
      by_cases hsuf : hasArraySuffix typ = false
      · simp only [hsuf, if_true]
      · rw [if_neg hsuf, if_neg hsuf]
        rcases hl : Decoder.UnpackVarUint32 dec0 with ⟨res, dec2⟩
        cases res with
        | error e => rfl
        | ok count =>
          simp only
          by_cases hb : trimArraySuffix typ ∈ t.baseTypeMap
          · simp only [hb, if_true]
          · simp only [hb, if_false]
            rcases hg2 : GetAbiStruct t contractName (trimArraySuffix typ) with e | (_ | s2)
            · rfl
            · rfl
            · simp only [Option.map_some']
              rw [unpackElems_congr (unpackStructElem (self1 (rebaseStruct g s2)))
                (unpackStructElem (self2 s2))
                (fun dec1 => by unfold unpackStructElem; rw [hself])]
    · simp only [Option.map_some', hself]
  unfold unpackField
  have hbase : (rebaseSerializer g t).baseTypeMap = t.baseTypeMap := rfl
  rw [hbase]
  by_cases hb : f.Typ ∈ t.baseTypeMap
  · rw [if_pos hb, if_pos hb]
    rcases hp : unpackAbiStructField d f.Typ dec with ⟨res, dec1⟩
    cases res with
    | error e => simp only [hcomp]
    | ok v => rfl
  · rw [if_neg hb, if_neg hb, hcomp]

theorem unpackFields_rebase (d : Deps) (g : ABIStruct → String) (t : ABISerializer)
    (self1 self2 : ABIStruct → OrderedMap → Decoder → Unpacked OrderedMap)
    (contractName : String)
    (hself : ∀ sub result dec, self1 (rebaseStruct g sub) result dec = self2 sub result dec) :
    ∀ (fields : List ABIStructField) (result : OrderedMap) (dec : Decoder),
      unpackFields d (rebaseSerializer g t) self1 contractName fields result dec
        = unpackFields d t self2 contractName fields result dec := by
  intro fields
  induction fields with
  | nil => intro result dec; rfl
  | cons f rest ih =>
    intro result dec
    rw [unpackFields, unpackFields, unpackField_rebase d g t self1 self2 contractName hself]
    rcases hf : unpackField d t self2 contractName f dec with ⟨res, dec1⟩
    cases res with
    | error e => rfl
    | ok v => exact ih _ _

theorem unpackAbiStruct_rebase (d : Deps) (g : ABIStruct → String) (t : ABISerializer)
    (contractName : String) :
    ∀ (fuel : Nat) (S1 S2 : ABIStruct), S1.Fields = S2.Fields →
      ∀ (result : OrderedMap) (dec : Decoder),
        unpackAbiStruct d (rebaseSerializer g t) fuel contractName S1 result dec
          = unpackAbiStruct d t fuel contractName S2 result dec := by
  intro fuel
  induction fuel with
  | zero =>
    intro S1 S2 hS result dec
    rw [unpackAbiStruct_eq, unpackAbiStruct_eq, hS]
    exact unpackFields_rebase d g t _ _ contractName (fun _ _ _ => rfl) _ _ _
  | succ n ih =>
    intro S1 S2 hS result dec
    rw [unpackAbiStruct_eq, unpackAbiStruct_eq, hS]
    exact unpackFields_rebase d g t _ _ contractName
      (fun sub result dec => ih (rebaseStruct g sub) sub rfl result dec) _ _ _

/-! ## Lemmas on `IsSymbolValid` -/

theorem allNul_iff (s : Bytes) : allNul s = true ↔ s = List.replicate s.length 0 := by
  unfold allNul
  rw [List.all_eq_true]
  constructor
  · intro h
    apply List.eq_replicate_of_mem
    intro c hc
    simpa using h c hc
  · intro h c hc
    rw [h] at hc
    simp [List.eq_of_mem_replicate hc]

theorem symbolLoop_zeros (z : Nat) : symbolLoop (List.replicate z 0) = true := by
  cases z with
  | zero => rfl
  | succ n =>
    rw [List.replicate_succ, symbolLoop]
    have h1 : ¬ (65 ≤ 0 ∧ 0 ≤ 90) := by omega
    rw [if_neg h1, if_pos rfl, allNul_iff]
    simp

theorem symbolLoop_iff : ∀ (s : Bytes),
    symbolLoop s = true ↔ ∃ u z, s = u ++ List.replicate z 0 ∧ upperOnly u = true := by
  intro s
  induction s with
  | nil => exact ⟨fun _ => ⟨[], 0, rfl, rfl⟩, fun _ => rfl⟩
  | cons c rest ih =>
    rw [symbolLoop]
    by_cases hu : 65 ≤ c ∧ c ≤ 90
    · rw [if_pos hu, ih]
      constructor
      · rintro ⟨u, z, hs, hup⟩
        refine ⟨c :: u, z, by rw [hs]; rfl, ?_⟩
        simp only [upperOnly, List.all_cons, Bool.and_eq_true, decide_eq_true_eq]
        exact ⟨hu, by simpa [upperOnly] using hup⟩
      · rintro ⟨u, z, hs, hup⟩
        cases u with
        | nil =>
          exfalso
          cases z with
          | zero => simp at hs
          | succ n =>
            rw [List.nil_append, List.replicate_succ] at hs
            have := (List.cons.inj hs).1
            omega
        | cons a as =>
          rw [List.cons_append] at hs
          refine ⟨as, z, (List.cons.inj hs).2, ?_⟩
          simp only [upperOnly, List.all_cons, Bool.and_eq_true] at hup
          simpa [upperOnly] using hup.2
    · rw [if_neg hu]
      by_cases h0 : c = 0
      · rw [if_pos h0, allNul_iff]
        subst h0
        constructor
        · intro h
          refine ⟨[], rest.length + 1, ?_, rfl⟩
          rw [List.nil_append, List.replicate_succ, ← h]
        · rintro ⟨u, z, hs, hup⟩
          cases u with
          | nil =>
            rw [List.nil_append] at hs
            have hlen := congrArg List.length hs
            simp only [List.length_cons, List.length_replicate] at hlen
            rw [← hlen, List.replicate_succ] at hs
            exact (List.cons.inj hs).2
          | cons a as =>
            exfalso
            rw [List.cons_append] at hs
            have ha := (List.cons.inj hs).1
            simp only [upperOnly, List.all_cons, Bool.and_eq_true, decide_eq_true_eq] at hup
            omega
      · rw [if_neg h0]
        constructor
        · intro h
          cases h
        · rintro ⟨u, z, hs, hup⟩
          exfalso
          cases u with
          | nil =>
            cases z with
            | zero => simp at hs
            | succ n =>
              rw [List.nil_append, List.replicate_succ] at hs
              exact h0 (List.cons.inj hs).1
          | cons a as =>
            rw [List.cons_append] at hs
            have ha := (List.cons.inj hs).1
            simp only [upperOnly, List.all_cons, Bool.and_eq_true, decide_eq_true_eq] at hup
            exact hu (ha ▸ hup.1)

theorem IsSymbolValid_iff (s : Bytes) :
    IsSymbolValid s = true ↔
      1 ≤ s.length ∧ s.length ≤ 7 ∧
        ∃ u z, s = u ++ List.replicate z 0 ∧ upperOnly u = true := by
  unfold IsSymbolValid
  by_cases hl : s.length > 7 ∨ s.length ≤ 0
  · rw [if_pos hl]
    constructor
    · intro h; cases h
    · rintro ⟨h1, h7, _⟩
      omega
  · rw [if_neg hl, symbolLoop_iff]
    constructor
    · intro h
      exact ⟨by omega, by omega, h⟩
    · rintro ⟨_, _, h⟩
      exact h

/-- Every byte of a valid symbol code is an upper case letter or NUL. -/
theorem IsSymbolValid_mem (s : Bytes) (h : IsSymbolValid s = true) :
    ∀ c ∈ s, c = 0 ∨ (65 ≤ c ∧ c ≤ 90) := by
  obtain ⟨_, _, u, z, hs, hup⟩ := (IsSymbolValid_iff s).mp h
  intro c hc
  rw [hs] at hc
  rcases List.mem_append.mp hc with hm | hm
  · exact Or.inr (upperOnly_mem u hup c hm)
  · exact Or.inl (List.eq_of_mem_replicate hm)

theorem ParseAsset_some_valid (d : Deps) (v r : Bytes) (h : ParseAsset d v = some r) :
    ∃ amount code, List.splitOn 32 v = [amount, code] ∧ IsSymbolValid code = true := by
  unfold ParseAsset at h
  split at h
  · rename_i amount code hs
    refine ⟨amount, code, hs, ?_⟩
    by_cases hv : IsSymbolValid code = false
    · rw [if_pos hv] at h
      cases h
    · simpa using hv
  · cases h

theorem symbolLoop_nul_then_other (post : Bytes) (c : Nat) (hc : c ∈ post) (hne : c ≠ 0) :
    ∀ (pre : Bytes), symbolLoop (pre ++ 0 :: post) = false := by
  have hall : ∀ (l : Bytes), c ∈ l → allNul l = false := by
    intro l hl
    cases hn : allNul l with
    | false => rfl
    | true =>
      rw [allNul_iff] at hn
      rw [hn] at hl
      exact absurd (List.eq_of_mem_replicate hl) hne
  intro pre
  induction pre with
  | nil =>
    rw [List.nil_append, symbolLoop]
    have h1 : ¬ (65 ≤ 0 ∧ 0 ≤ 90) := by omega
    rw [if_neg h1, if_pos rfl]
    exact hall post hc
  | cons a rest ih =>
    rw [List.cons_append, symbolLoop]
    by_cases hu : 65 ≤ a ∧ a ≤ 90
    · rw [if_pos hu]
      exact ih
    · rw [if_neg hu]
      by_cases h0 : a = 0
      · rw [if_pos h0]
        exact hall _ (List.mem_append_right _ (List.mem_cons_of_mem _ hc))
      · rw [if_neg h0]

theorem asset_case (d : Deps) (raw : Bytes) :
    ParseAbiStringValue d "asset" raw =
      match StripString raw with
      | none => PackRes.fail (.invalidValue "asset" [])
      | some v =>
        match ParseAsset d v with
        | none => PackRes.fail (.invalidValue "asset" v)
        | some r => .wrote r := rfl

theorem symbol_case (d : Deps) (raw : Bytes) :
    ParseAbiStringValue d "symbol" raw =
      match StripString raw with
      | none => PackRes.fail (.invalidValue "symbol" [])
      | some v =>
        match List.splitOn 44 v with
        | [v0, v1] =>
          (match ParseUint v0 with
           | none => PackRes.fail (.lib "strconv.ParseUint")
           | some n =>
             if n > 16 then PackRes.fail (.invalidValue "symbol" v)
             else if v1.length > 7 ∨ v1.length ≤ 0 then PackRes.fail (.invalidValue "symbol" v)
             else if IsSymbolValid v1 = false then PackRes.fail (.invalidValue "symbol" v)
             else .wrote (copyInto 7 v1))
        | _ => PackRes.fail (.invalidValue "symbol" v) := rfl

theorem symbol_code_case (d : Deps) (raw : Bytes) :
    ParseAbiStringValue d "symbol_code" raw =
      match StripString raw with
      | none => PackRes.fail (.invalidValue "symbol_code" [])
      | some v =>
        if IsSymbolValid v = false then PackRes.fail (.invalidValue "symbol_code" v)
        else .wrote (copyInto 8 v) := rfl

/-- What a successful `symbol` case of `ParseAbiStringValue` went through and wrote. -/
theorem symbol_ok (d : Deps) (raw : Bytes)
    (h : (ParseAbiStringValue d "symbol" raw).fault = none) :
    ∃ v v0 v1 n, StripString raw = some v ∧ List.splitOn 44 v = [v0, v1] ∧
      ParseUint v0 = some n ∧ n ≤ 16 ∧ IsSymbolValid v1 = true ∧
      ParseAbiStringValue d "symbol" raw = .wrote (copyInto 7 v1) := by
  rw [symbol_case] at h ⊢
  cases hs : StripString raw with
  | none => simp [hs, PackRes.fail] at h
  | some v =>
    simp only [hs] at h ⊢
    split at h
    · rename_i v0 v1 hsp
      cases hp : ParseUint v0 with
      | none => simp [hp, PackRes.fail] at h
      | some n =>
        simp only [hp] at h
        by_cases h16 : n > 16
        · rw [if_pos h16] at h
          exact absurd h (by simp [PackRes.fail])
        · rw [if_neg h16] at h
          by_cases hl : v1.length > 7 ∨ v1.length ≤ 0
          · rw [if_pos hl] at h
            exact absurd h (by simp [PackRes.fail])
          · rw [if_neg hl] at h
            by_cases hv : IsSymbolValid v1 = false
            · rw [if_pos hv] at h
              exact absurd h (by simp [PackRes.fail])
            · refine ⟨v, v0, v1, n, rfl, hsp, hp, by omega, by simpa using hv, ?_⟩
              simp only [hsp, hp]
              rw [if_neg h16, if_neg hl, if_neg hv]
    · simp [PackRes.fail] at h

/-! ## Lemmas on the asset codec on digit texts -/

theorem Atoi_digits_eq (s : Bytes) (hall : s.all isDigit = true) :
    Atoi s = if s ≠ [] ∧ digitsValue 0 s < 2 ^ 63 then some (digitsValue 0 s : Int) else none := by
  cases s with
  | nil => rfl
  | cons c cs =>
    by_cases hlt : digitsValue 0 (c :: cs) < 2 ^ 63
    · rw [if_pos ⟨by simp, hlt⟩]
      exact Atoi_digits _ (by simp) hall hlt
    · have hnot : ¬ (c :: cs ≠ [] ∧ digitsValue 0 (c :: cs) < 2 ^ 63) := fun h => hlt h.2
      rw [if_neg hnot]
      have hc : 48 ≤ c ∧ c ≤ 57 := by
        simp only [List.all_cons, Bool.and_eq_true] at hall
        exact (isDigit_iff c).mp hall.1
      have h45 : c ≠ 45 := by omega
      have h43 : c ≠ 43 := by omega
      unfold Atoi
      simp only [h45, h43, or_self, if_false, decide_False]
      have hcond : (c :: cs ≠ [] ∧ (c :: cs).all isDigit = true) := ⟨by simp, hall⟩
      rw [if_pos hcond]
      have hrange : ¬ (-(2 : Int) ^ 63 ≤ (digitsValue 0 (c :: cs) : Int) ∧
          (digitsValue 0 (c :: cs) : Int) < (2 : Int) ^ 63) := by
        intro h
        apply hlt
        exact_mod_cast h.2
      simp only [Bool.false_eq_true, if_false]
      rw [if_neg hrange]

theorem digits_of_value_zero : ∀ (s : Bytes), s.all isDigit = true → digitsValue 0 s = 0 →
    s = List.replicate s.length 48 := by
  intro s
  induction s with
  | nil => intro _ _; rfl
  | cons c cs ih =>
    intro hall h0
    simp only [List.all_cons, Bool.and_eq_true] at hall
    have hc := (isDigit_iff c).mp hall.1
    rw [digitsValue_cons] at h0
    have hle := le_digitsValue cs (0 * 10 + (c - 48))
    have hc48 : c = 48 := by omega
    subst hc48
    rw [List.length_cons, List.replicate_succ, ← ih hall.2 h0]

theorem digitsValue_le_append (a b : Bytes) : digitsValue 0 a ≤ digitsValue 0 (a ++ b) := by
  rw [digitsValue_append]
  exact le_digitsValue b _

/-- The function `ParseAsset` on a text of two digit strings around a point, a space and a
code: what is accepted and what is written. -/
theorem ParseAsset_digits (d : Deps) (a0 a1 code : Bytes)
    (hdig0 : a0.all isDigit = true) (hdig1 : a1.all isDigit = true) (h32 : (32 : Nat) ∉ code) :
    ParseAsset d ((a0 ++ 46 :: a1) ++ 32 :: code) =
      if IsSymbolValid code = true ∧ (d.ParseFloat (a0 ++ 46 :: a1) 64).isSome = true ∧
          a0 ≠ [] ∧ a1 ≠ [] ∧ digitsValue 0 a1 = 0 ∧ digitsValue 0 (a0 ++ a1) < 2 ^ 63
      then some (PackInt 64 (digitsValue 0 (a0 ++ a1) : Int) ++ [a1.length % 256]
        ++ copyInto 7 code)
      else none := by
  have h0 := digits_mem a0 hdig0
  have h1 := digits_mem a1 hdig1
  have h32a : (32 : Nat) ∉ a0 ++ 46 :: a1 := by
    intro hm
    rcases List.mem_append.mp hm with h | h
    · have := h0 32 h; omega
    · rcases List.mem_cons.mp h with h | h
      · omega
      · have := h1 32 h; omega
  have h46a : (46 : Nat) ∉ a0 := fun h => by have := h0 46 h; omega
  have h46b : (46 : Nat) ∉ a1 := fun h => by have := h1 46 h; omega
  have hcat : (a0 ++ a1).all isDigit = true := by rw [List.all_append, hdig0, hdig1]; rfl
  unfold ParseAsset
  rw [splitOn_two 32 _ _ h32a h32]
  simp only
  by_cases hv : IsSymbolValid code = false
  · rw [if_pos hv, if_neg (by rw [hv]; simp)]
  rw [if_neg hv]
  have hv1 : IsSymbolValid code = true := by simpa using hv
  by_cases hf : (d.ParseFloat (a0 ++ 46 :: a1) 64).isNone = true
  · rw [if_pos hf]
    have : ¬ ((d.ParseFloat (a0 ++ 46 :: a1) 64).isSome = true) := by
      cases hp : d.ParseFloat (a0 ++ 46 :: a1) 64 with
      | none => simp
      | some b => rw [hp] at hf; simp at hf
    rw [if_neg (fun h => this h.2.1)]
  rw [if_neg hf]
  have hf1 : (d.ParseFloat (a0 ++ 46 :: a1) 64).isSome = true := by
    cases hp : d.ParseFloat (a0 ++ 46 :: a1) 64 with
    | none => rw [hp] at hf; simp at hf
    | some b => rfl
  rw [splitOn_two 46 _ _ h46a h46b]
  simp only [erase_first 46 _ _ h46a, Atoi_digits_eq a1 hdig1, Atoi_digits_eq a0 hdig0,
    Atoi_digits_eq _ hcat]
  by_cases c1 : a1 ≠ [] ∧ digitsValue 0 a1 < 2 ^ 63
  · rw [if_pos c1]
    simp only
    by_cases c2 : digitsValue 0 a1 = 0
    · have c2i : ¬ ((digitsValue 0 a1 : Int) ≠ 0) := by
        rw [c2]
        simp
      rw [if_neg c2i]
      by_cases c3 : a0 ≠ [] ∧ digitsValue 0 a0 < 2 ^ 63
      · rw [if_pos c3]
        simp only
        have hnn : ¬ ((digitsValue 0 a0 : Int) < 0) := by
          have := Int.ofNat_nonneg (digitsValue 0 a0)
          omega
        rw [if_neg hnn]
        by_cases c4 : a0 ++ a1 ≠ [] ∧ digitsValue 0 (a0 ++ a1) < 2 ^ 63
        · rw [if_pos c4, if_pos ⟨hv1, hf1, c3.1, c1.1, c2, c4.2⟩]
        · rw [if_neg c4]
          exact (if_neg (fun h => c4 ⟨by simp [c3.1], h.2.2.2.2.2⟩)).symm
      · rw [if_neg c3]
        exact (if_neg (fun h => c3
          ⟨h.2.2.1, Nat.lt_of_le_of_lt (digitsValue_le_append a0 a1) h.2.2.2.2.2⟩)).symm
    · have c2i : (digitsValue 0 a1 : Int) ≠ 0 := by
        exact_mod_cast c2
      rw [if_pos c2i]
      exact (if_neg (fun h => c2 h.2.2.2.2.1)).symm
  · rw [if_neg c1]
    refine (if_neg (fun h => c1 ⟨h.2.2.2.1, ?_⟩)).symm
    rw [h.2.2.2.2.1]
    norm_num

theorem unpack_asset_case (d : Deps) (dec : Decoder) :
    unpackAbiStructField d "asset" dec = unpackAsset d dec := rfl

theorem PackInt64_nat (n : Nat) (h : n < 2 ^ 63) : PackInt 64 (n : Int) = leBytes 8 n := by
  unfold PackInt
  rw [toUnsigned_of_nonneg 64 n (by omega)]


/-! ## Lemmas on `GetType` -/

theorem find_none_of_not_declares (fieldName : String) (s : ABIStruct)
    (h : declares fieldName s = false) :
    s.Fields.find? (fun f => decide (f.Name = fieldName)) = none := by
  unfold declares at h
  rw [List.find?_eq_none]
  intro f hf
  have := (List.any_eq_false.mp h) f hf
  simpa using this

theorem find_some_of_declares (fieldName : String) (s : ABIStruct)
    (h : declares fieldName s = true) :
    ∃ f, s.Fields.find? (fun f => decide (f.Name = fieldName)) = some f ∧
      declaredType fieldName s = f.Typ := by
  unfold declares at h
  unfold declaredType
  generalize s.Fields = fs at h ⊢
  induction fs with
  | nil => simp at h
  | cons a rest ih =>
    by_cases ha : a.Name = fieldName
    · exact ⟨a, by simp [List.find?, ha], by simp [List.filter, ha]⟩
    · have hrest : rest.any (fun f => decide (f.Name = fieldName)) = true := by
        simpa [ha] using h
      obtain ⟨f, hf, ht⟩ := ih hrest
      refine ⟨f, ?_, ?_⟩
      · simp only [List.find?, ha, decide_False]
        exact hf
      · simp only [List.filter, ha, decide_False]
        exact ht

theorem nearestType_cons (fieldName : String) (s : ABIStruct) (rest : List ABIStruct) :
    nearestType fieldName (s :: rest) =
      if declares fieldName s = true then declaredType fieldName s
      else nearestType fieldName rest := by
  unfold nearestType
  by_cases h : declares fieldName s = true
  · simp [List.filter, h]
  · simp [List.filter, h]

theorem GetType_of_chain (t : ABISerializer) (fieldName : String) :
    ∀ (chain : List ABIStruct) (name : String) (fuel : Nat), BaseChain t name chain →
      chain.length ≤ fuel → GetType t fuel name fieldName = .ok (nearestType fieldName chain) := by
  intro chain
  induction chain with
  | nil => intro name fuel h; cases h
  | cons s rest ih =>
    intro name fuel h hfuel
    obtain ⟨n, rfl⟩ : ∃ n, fuel = n + 1 := ⟨fuel - 1, by simp at hfuel; omega⟩
    rw [nearestType_cons]
    cases h with
    | last _ _ hget hbase =>
      unfold GetType
      simp only [hget]
      by_cases hd : declares fieldName s = true
      · obtain ⟨f, hf, ht⟩ := find_some_of_declares fieldName s hd
        simp only [hf, hd, if_true, ht]
      · have hd2 : declares fieldName s = false := by simpa using hd
        rw [find_none_of_not_declares fieldName s hd2]
        simp only [hbase, ne_eq, not_true_eq_false, if_false, hd]
        rfl
    | step _ _ _ hget hbase hrest =>
      unfold GetType
      simp only [hget]
      by_cases hd : declares fieldName s = true
      · obtain ⟨f, hf, ht⟩ := find_some_of_declares fieldName s hd
        simp only [hf, hd, if_true, ht]
      · have hd2 : declares fieldName s = false := by simpa using hd
        rw [find_none_of_not_declares fieldName s hd2]
        simp only [hd]
        rw [if_pos hbase]
        simp only [Bool.false_eq_true, if_false]
        exact ih s.Base n hrest (by simp at hfuel; omega)

/-! ## Lemmas on the integer cases -/

theorem Atoi_eq_some_iff (v : Bytes) (n : Int) :
    Atoi v = some n ↔ IsDecimalLiteral v n ∧ -(2 : Int) ^ 63 ≤ n ∧ n < (2 : Int) ^ 63 := by
  cases v with
  | nil =>
    constructor
    · intro h
      exact absurd h (by simp [Atoi])
    · rintro ⟨⟨ds, hne, _, h⟩, _⟩
      rcases h with ⟨h | h, _⟩ | ⟨h, _⟩
      · exact absurd h.symm hne
      · exact absurd h (by simp)
      · exact absurd h (by simp)
  | cons c cs =>
    have hdig : ∀ (ds : Bytes), ds ≠ [] → ds.all isDigit = true →
        ds.head? ≠ some 45 ∧ ds.head? ≠ some 43 := by
      intro ds hne hall
      cases ds with
      | nil => exact absurd rfl hne
      | cons a as =>
        simp only [List.all_cons, Bool.and_eq_true] at hall
        have := (isDigit_iff a).mp hall.1
        simp only [List.head?_cons, ne_eq, Option.some.injEq]
        omega
    unfold Atoi
    by_cases h45 : c = 45
    · subst h45
      simp only [true_or, if_true, decide_True]
      constructor
      · intro h
        by_cases hc : cs ≠ [] ∧ cs.all isDigit = true
        · rw [if_pos hc] at h
          by_cases hr : -(2 : Int) ^ 63 ≤ -(digitsValue 0 cs : Int) ∧
              -(digitsValue 0 cs : Int) < (2 : Int) ^ 63
          · rw [if_pos hr] at h
            have hn : -(digitsValue 0 cs : Int) = n := Option.some.inj h
            rw [← hn]
            exact ⟨⟨cs, hc.1, hc.2, Or.inr ⟨rfl, rfl⟩⟩, hr⟩
          · rw [if_neg hr] at h
            exact absurd h (by simp)
        · rw [if_neg hc] at h
          exact absurd h (by simp)
      · rintro ⟨⟨ds, hne, hall, h⟩, hr⟩
        rcases h with ⟨h | h, _⟩ | ⟨h, hn⟩
        · have := (hdig ds hne hall).1
          rw [← h] at this
          exact absurd rfl this
        · exact absurd (List.cons.inj h).1 (by decide)
        · have hcs : cs = ds := (List.cons.inj h).2
          subst hcs
          subst hn
          rw [if_pos ⟨hne, hall⟩, if_pos hr]
    · by_cases h43 : c = 43
      · subst h43
        simp only [or_true, if_true]
        have hd : decide ((43 : Nat) = 45) = false := by decide
        simp only [hd, Bool.false_eq_true, if_false]
        constructor
        · intro h
          by_cases hc : cs ≠ [] ∧ cs.all isDigit = true
          · rw [if_pos hc] at h
            by_cases hr : -(2 : Int) ^ 63 ≤ (digitsValue 0 cs : Int) ∧
                (digitsValue 0 cs : Int) < (2 : Int) ^ 63
            · rw [if_pos hr] at h
              have hn : (digitsValue 0 cs : Int) = n := Option.some.inj h
              rw [← hn]
              exact ⟨⟨cs, hc.1, hc.2, Or.inl ⟨Or.inr rfl, rfl⟩⟩, hr⟩
            · rw [if_neg hr] at h
              exact absurd h (by simp)
          · rw [if_neg hc] at h
            exact absurd h (by simp)
        · rintro ⟨⟨ds, hne, hall, h⟩, hr⟩
          rcases h with ⟨h | h, hn⟩ | ⟨h, _⟩
          · have := (hdig ds hne hall).2
            rw [← h] at this
            exact absurd rfl this
          · have hcs : cs = ds := (List.cons.inj h).2
            subst hcs
            subst hn
            rw [if_pos ⟨hne, hall⟩, if_pos hr]
          · exact absurd (List.cons.inj h).1 (by decide)
      · have hor : ¬ (c = 45 ∨ c = 43) := fun h => h.elim h45 h43
        simp only [h45, h43, or_self, if_false, decide_False, Bool.false_eq_true]
        constructor
        · intro h
          by_cases hc : c :: cs ≠ [] ∧ (c :: cs).all isDigit = true
          · rw [if_pos hc] at h
            by_cases hr : -(2 : Int) ^ 63 ≤ (digitsValue 0 (c :: cs) : Int) ∧
                (digitsValue 0 (c :: cs) : Int) < (2 : Int) ^ 63
            · rw [if_pos hr] at h
              have hn : (digitsValue 0 (c :: cs) : Int) = n := Option.some.inj h
              rw [← hn]
              exact ⟨⟨c :: cs, hc.1, hc.2, Or.inl ⟨Or.inl rfl, rfl⟩⟩, hr⟩
            · rw [if_neg hr] at h
              exact absurd h (by simp)
          · rw [if_neg hc] at h
            exact absurd h (by simp)
        · rintro ⟨⟨ds, hne, hall, h⟩, hr⟩
          rcases h with ⟨h | h, hn⟩ | ⟨h, _⟩
          · subst h
            subst hn
            rw [if_pos ⟨hne, hall⟩, if_pos hr]
          · exact absurd (List.cons.inj h).1 h43
          · exact absurd (List.cons.inj h).1 h45

theorem packRanged_spec (typ : String) (bits : Nat) (lo hi : Int) (v : Bytes)
    (hlo : -(2 : Int) ^ 63 ≤ lo) (hhi : hi < (2 : Int) ^ 63) :
    ((packRanged typ bits lo hi v).fault = none ↔
      ∃ n, IsDecimalLiteral v n ∧ lo ≤ n ∧ n ≤ hi) ∧
    (∀ n, IsDecimalLiteral v n → lo ≤ n → n ≤ hi →
      packRanged typ bits lo hi v = .wrote (PackInt bits n)) ∧
    ((packRanged typ bits lo hi v).fault ≠ none →
      (packRanged typ bits lo hi v).out = [] ∧
        ∃ e, (packRanged typ bits lo hi v).fault = some (.error e)) := by
  have hwrote : ∀ n, IsDecimalLiteral v n → lo ≤ n → n ≤ hi →
      packRanged typ bits lo hi v = .wrote (PackInt bits n) := by
    intro n hl h1 h2
    have ha : Atoi v = some n := (Atoi_eq_some_iff v n).mpr ⟨hl, by omega, by omega⟩
    unfold packRanged StringToInt
    rw [ha]
    simp only
    rw [if_neg (by omega)]
  refine ⟨⟨?_, ?_⟩, hwrote, ?_⟩
  · intro h
    unfold packRanged StringToInt at h
    cases ha : Atoi v with
    | none =>
      rw [ha] at h
      exact absurd h (by simp [PackRes.fail])
    | some n =>
      rw [ha] at h
      simp only at h
      by_cases hr : n > hi ∨ n < lo
      · rw [if_pos hr] at h
        exact absurd h (by simp [PackRes.fail])
      · exact ⟨n, ((Atoi_eq_some_iff v n).mp ha).1, by omega, by omega⟩
  · rintro ⟨n, hl, h1, h2⟩
    rw [hwrote n hl h1 h2]
    rfl
  · intro h
    unfold packRanged StringToInt at h ⊢
    cases ha : Atoi v with
    | none => exact ⟨rfl, _, rfl⟩
    | some n =>
      rw [ha] at h
      simp only at h ⊢
      by_cases hr : n > hi ∨ n < lo
      · rw [if_pos hr]
        exact ⟨rfl, _, rfl⟩
      · rw [if_neg hr] at h
        exact absurd rfl h

theorem leDecode_PackInt (signed : Bool) (bits : Nat) (n : Int)
    (hT : (signed, bits) ∈ [(true, 8), (false, 8), (true, 16), (false, 16), (true, 32),
      (false, 32)])
    (h1 : intMin signed bits ≤ n) (h2 : n ≤ intMax signed bits) :
    leDecode signed bits (PackInt bits n) = n := by
  simp only [List.mem_cons, Prod.mk.injEq, List.mem_singleton, List.not_mem_nil, or_false] at hT
  unfold leDecode PackInt
  rw [leValue_leBytes]
  unfold toSigned toUnsigned
  unfold intMin at h1
  unfold intMax at h2
  have hm : ((n % (2 : Int) ^ bits).toNat : Int) = n % (2 : Int) ^ bits :=
    Int.toNat_of_nonneg (Int.emod_nonneg _ (by positivity))
  generalize (n % (2 : Int) ^ bits).toNat = m at hm ⊢
  rcases hT with ⟨rfl, rfl⟩ | ⟨rfl, rfl⟩ | ⟨rfl, rfl⟩ | ⟨rfl, rfl⟩ | ⟨rfl, rfl⟩ | ⟨rfl, rfl⟩ <;>
    norm_num at h1 h2 hm ⊢ <;> first | (split_ifs <;> omega) | omega

/-! ## Lemmas on the quoted and the hexadecimal texts -/

theorem StripString_eq_some_iff (v c : Bytes) : StripString v = some c ↔ v = quoted c := by
  constructor
  · intro h
    have h0 := h
    unfold StripString at h
    by_cases h2 : v.length < 2
    · rw [if_pos h2] at h
      exact absurd h (by simp)
    · rw [if_neg h2] at h
      by_cases hq : v.head? ≠ some 34 ∨ v.getLast? ≠ some 34
      · rw [if_pos hq] at h
        exact absurd h (by simp)
      · rw [if_neg hq] at h
        have hq1 : v.head? = some 34 := by
          by_contra hx
          exact hq (Or.inl hx)
        have hq2 : v.getLast? = some 34 := by
          by_contra hx
          exact hq (Or.inr hx)
        cases v with
        | nil => simp at hq1
        | cons a rest =>
          have ha : a = 34 := Option.some.inj hq1
          subst ha
          have hrne : rest ≠ [] := by
            intro hr
            subst hr
            simp at h2
          obtain ⟨mid, z, rfl⟩ : ∃ mid z, rest = mid ++ [z] :=
            ⟨rest.dropLast, rest.getLast hrne, (List.dropLast_append_getLast hrne).symm⟩
          have hz : z = 34 := by
            rw [← List.cons_append, List.getLast?_append] at hq2
            simpa using hq2
          subst hz
          rw [StripString_quoted] at h0
          rw [← Option.some.inj h0]
          rfl
  · intro h
    rw [h]
    exact StripString_quoted c

theorem hexDecode_length : ∀ (n : Nat) (c bs : Bytes), c.length ≤ n → hexDecode c = some bs →
    2 * bs.length = c.length := by
  intro n
  induction n with
  | zero =>
    intro c bs hn h
    cases c with
    | nil =>
      have : bs = [] := by
        simp only [hexDecode, Option.some.injEq] at h
        exact h.symm
      rw [this]
      rfl
    | cons a r => simp at hn
  | succ k ih =>
    intro c bs hn h
    match c, h with
    | [], h =>
      have : bs = [] := by
        simp only [hexDecode, Option.some.injEq] at h
        exact h.symm
      rw [this]
      rfl
    | [_], h => simp [hexDecode] at h
    | a :: b :: rest, h =>
      simp only [hexDecode] at h
      cases ha : hexVal a with
      | none => simp [ha] at h
      | some x =>
        cases hb : hexVal b with
        | none => simp [ha, hb] at h
        | some y =>
          cases hr : hexDecode rest with
          | none => simp [ha, hb, hr] at h
          | some bs2 =>
            simp only [ha, hb, hr, Option.some.injEq] at h
            have hlen := ih rest bs2 (by simp at hn; omega) hr
            rw [← h]
            simp only [List.length_cons]
            omega

theorem hexDecode_isSome_iff : ∀ (n : Nat) (c : Bytes), c.length ≤ n →
    ((hexDecode c).isSome = true ↔ IsHexText c) := by
  intro n
  induction n with
  | zero =>
    intro c hn
    cases c with
    | nil => simp [hexDecode, IsHexText]
    | cons a r => simp at hn
  | succ k ih =>
    intro c hn
    match c with
    | [] => simp [hexDecode, IsHexText]
    | [a] => simp [hexDecode, IsHexText]
    | a :: b :: rest =>
      have hrec := ih rest (by simp at hn; omega)
      unfold IsHexText at hrec ⊢
      simp only [hexDecode, List.length_cons, List.mem_cons, forall_eq_or_imp]
      have hmod : (rest.length + 1 + 1) % 2 = rest.length % 2 := by omega
      rw [hmod]
      cases ha : hexVal a with
      | none => simp
      | some x =>
        cases hb : hexVal b with
        | none => simp
        | some y =>
          cases hr : hexDecode rest with
          | none =>
            rw [hr] at hrec
            simp only [Option.isSome_none, Bool.false_eq_true, false_iff] at hrec
            simp only [Option.isSome_none, Bool.false_eq_true, Option.isSome_some, true_and,
              false_iff]
            exact hrec
          | some bs2 =>
            rw [hr] at hrec
            simp only [Option.isSome_some, true_iff] at hrec
            simp only [Option.isSome_some, true_and, true_iff]
            exact hrec

theorem packChecksum_spec (typ : String) (size : Nat) (v : Bytes) :
    ((packChecksum typ size v).fault ≠ none ↔
      (¬ ∃ c, v = quoted c) ∨ (∃ c, v = quoted c ∧ ¬ IsHexText c) ∨
        (∃ c bs, v = quoted c ∧ hexDecode c = some bs ∧ size < bs.length)) ∧
    ((packChecksum typ size v).fault = none →
      ∃ c bs, v = quoted c ∧ hexDecode c = some bs ∧ 2 * bs.length = c.length ∧
        bs.length ≤ size ∧
        packChecksum typ size v = .wrote (bs ++ List.replicate (size - bs.length) 0)) ∧
    ((packChecksum typ size v).fault ≠ none →
      (packChecksum typ size v).out = [] ∧
        ∃ e, (packChecksum typ size v).fault = some (.error e)) := by
  unfold packChecksum
  cases hs : StripString v with
  | none =>
    have hnq : ¬ ∃ c, v = quoted c := by
      rintro ⟨c, hc⟩
      rw [(StripString_eq_some_iff v c).mpr hc] at hs
      exact absurd hs (by simp)
    refine ⟨⟨fun _ => Or.inl hnq, fun _ => by simp [PackRes.fail]⟩, ?_, ?_⟩
    · intro h
      exact absurd h (by simp [PackRes.fail])
    · intro _
      exact ⟨rfl, _, rfl⟩
  | some c =>
    have hv : v = quoted c := (StripString_eq_some_iff v c).mp hs
    have huniq : ∀ c2, v = quoted c2 → c2 = c := by
      intro c2 h2
      have := (StripString_eq_some_iff v c2).mpr h2
      rw [hs] at this
      exact (Option.some.inj this).symm
    simp only
    cases hd : hexDecode c with
    | none =>
      have hnh : ¬ IsHexText c := by
        intro hx
        have := (hexDecode_isSome_iff c.length c (Nat.le_refl _)).mpr hx
        rw [hd] at this
        exact absurd this (by simp)
      refine ⟨⟨fun _ => Or.inr (Or.inl ⟨c, hv, hnh⟩), fun _ => by simp [PackRes.fail]⟩, ?_, ?_⟩
      · intro h
        exact absurd h (by simp [PackRes.fail])
      · intro _
        exact ⟨rfl, _, rfl⟩
    | some bs =>
      have hhex : IsHexText c := by
        apply (hexDecode_isSome_iff c.length c (Nat.le_refl _)).mp
        rw [hd]
        rfl
      simp only
      by_cases hl : bs.length > size
      · rw [if_pos hl]
        refine ⟨⟨fun _ => Or.inr (Or.inr ⟨c, bs, hv, hd, hl⟩), fun _ => by simp [PackRes.fail]⟩,
          ?_, ?_⟩
        · intro h
          exact absurd h (by simp [PackRes.fail])
        · intro _
          exact ⟨rfl, _, rfl⟩
      · rw [if_neg hl]
        refine ⟨⟨fun h => absurd rfl h, ?_⟩, ?_, ?_⟩
        · intro h
          rcases h with h | ⟨c2, h2, hn2⟩ | ⟨c2, bs2, h2, hd2, hl2⟩
          · exact absurd ⟨c, hv⟩ h
          · rw [huniq c2 h2] at hn2
            exact absurd hhex hn2
          · rw [huniq c2 h2, hd] at hd2
            rw [← Option.some.inj hd2] at hl2
            exact absurd hl2 hl
        · intro _
          refine ⟨c, bs, hv, hd, hexDecode_length c.length c bs (Nat.le_refl _) hd,
            by omega, ?_⟩
          rw [copyInto_short size bs (by omega)]
        · intro h
          exact absurd rfl h

theorem wide_case (d : Deps) (T : String) (hT : T ∈ wideTypes) (v : Bytes) :
    ParseAbiStringValue d T v =
      match StripString v with
      | none => PackRes.fail (.invalidValue "int128" [])
      | some v =>
        if v.length < 2 then ⟨[], some (.panic "slice bounds out of range")⟩
        else if v.take 2 ≠ txt "0x" then PackRes.fail (.invalidValue "int128" v)
        else
          match hexDecode (v.drop 2) with
          | none => PackRes.fail (.lib "hex.DecodeString")
          | some bs =>
            if bs.length > 16 then PackRes.fail (.invalidValue "int128" (v.drop 2))
            else .wrote (copyInto 16 bs) := by
  unfold wideTypes at hT
  simp only [List.mem_cons, List.mem_singleton, List.not_mem_nil, or_false] at hT
  rcases hT with rfl | rfl | rfl <;> rfl

/-! ## Lemmas on the texts that `ParseAsset` accepts -/

theorem splitOn_parts (x : Nat) : ∀ (l : Bytes), ∀ part ∈ List.splitOn x l, x ∉ part := by
  intro l
  induction l with
  | nil =>
    intro part hp
    simp only [List.splitOn_nil, List.mem_singleton] at hp
    rw [hp]
    exact List.not_mem_nil _
  | cons hd tl ih =>
    intro part hp
    unfold List.splitOn at hp ih
    rw [List.splitOnP_cons] at hp
    by_cases hx : (hd == x) = true
    · rw [if_pos hx] at hp
      rcases List.mem_cons.mp hp with h | h
      · rw [h]
        exact List.not_mem_nil _
      · exact ih part h
    · rw [if_neg hx] at hp
      cases hsp : List.splitOnP (fun y => y == x) tl with
      | nil => exact absurd hsp (List.splitOnP_ne_nil _ _)
      | cons p0 ps =>
        rw [hsp] at hp ih
        simp only [List.modifyHead_cons, List.mem_cons] at hp
        rcases hp with h | h
        · rw [h]
          intro hm
          rcases List.mem_cons.mp hm with h1 | h1
          · exact hx (by simp [h1])
          · exact ih p0 (List.mem_cons_self _ _) h1
        · exact ih part (List.mem_cons_of_mem _ h)

theorem splitOn_eq_two (x : Nat) (l a b : Bytes) (h : List.splitOn x l = [a, b]) :
    l = a ++ x :: b ∧ x ∉ a ∧ x ∉ b := by
  have hparts := splitOn_parts x l
  rw [h] at hparts
  have hl := List.intercalate_splitOn l x
  rw [h] at hl
  refine ⟨?_, hparts a (List.mem_cons_self _ _),
    hparts b (List.mem_cons_of_mem _ (List.mem_cons_self _ _))⟩
  rw [← hl]
  simp [List.intercalate]

theorem split_unique (x : Nat) : ∀ (a b a2 b2 : Bytes), x ∉ a2 → x ∉ b2 →
    a ++ x :: b = a2 ++ x :: b2 → a = a2 ∧ b = b2 := by
  intro a
  induction a with
  | nil =>
    intro b a2 b2 ha2 _ h
    cases a2 with
    | nil => exact ⟨rfl, (List.cons.inj h).2⟩
    | cons y ys =>
      have hy : x = y := (List.cons.inj h).1
      exact absurd (by rw [hy]; exact List.mem_cons_self _ _) ha2
  | cons y ys ih =>
    intro b a2 b2 ha2 hb2 h
    cases a2 with
    | nil =>
      have hb : ys ++ x :: b = b2 := (List.cons.inj h).2
      exact absurd (by rw [← hb]; simp) hb2
    | cons z zs =>
      have h1 := List.cons.inj h
      obtain ⟨e1, e2⟩ := ih b zs b2 (fun hm => ha2 (List.mem_cons_of_mem _ hm)) hb2 h1.2
      exact ⟨by rw [h1.1, e1], e2⟩

/-- The sign and the digits of a decimal integer literal. -/
theorem literal_cases (v : Bytes) (n : Int) (h : IsDecimalLiteral v n) :
    ∃ sgn ds, v = sgn ++ ds ∧ ds ≠ [] ∧ ds.all isDigit = true ∧
      ((sgn = [] ∧ n = (digitsValue 0 ds : Int)) ∨ (sgn = [43] ∧ n = (digitsValue 0 ds : Int)) ∨
        (sgn = [45] ∧ n = -(digitsValue 0 ds : Int))) := by
  obtain ⟨ds, hne, hall, h⟩ := h
  rcases h with ⟨h | h, hn⟩ | ⟨h, hn⟩
  · exact ⟨[], ds, h, hne, hall, Or.inl ⟨rfl, hn⟩⟩
  · exact ⟨[43], ds, h, hne, hall, Or.inr (Or.inl ⟨rfl, hn⟩)⟩
  · exact ⟨[45], ds, h, hne, hall, Or.inr (Or.inr ⟨rfl, hn⟩)⟩

theorem head_digit (ds : Bytes) (hne : ds ≠ []) (hall : ds.all isDigit = true) :
    ∃ c cs, ds = c :: cs ∧ 48 ≤ c ∧ c ≤ 57 := by
  cases ds with
  | nil => exact absurd rfl hne
  | cons c cs =>
    simp only [List.all_cons, Bool.and_eq_true] at hall
    exact ⟨c, cs, rfl, (isDigit_iff c).mp hall.1⟩

/-- After its first byte a decimal integer literal has digits only. -/
theorem literal_tail (v : Bytes) (n : Int) (h : IsDecimalLiteral v n) :
    ∀ c ∈ v.tail, 48 ≤ c ∧ c ≤ 57 := by
  obtain ⟨sgn, ds, hv, hne, hall, hs⟩ := literal_cases v n h
  have hd := digits_mem ds hall
  intro c hc
  rcases hs with ⟨rfl, _⟩ | ⟨rfl, _⟩ | ⟨rfl, _⟩
  · rw [hv, List.nil_append] at hc
    exact hd c (List.mem_of_mem_tail hc)
  · rw [hv] at hc
    exact hd c hc
  · rw [hv] at hc
    exact hd c hc

/-- A text of a sign, or none, and digits: the result of `Atoi` on it. -/
theorem Atoi_signed (sgn ds : Bytes) (n : Int) (hne : ds ≠ []) (hall : ds.all isDigit = true)
    (hs : sgn = [] ∨ sgn = [43] ∨ sgn = [45]) (h : Atoi (sgn ++ ds) = some n) :
    n = (if sgn = [45] then -(digitsValue 0 ds : Int) else (digitsValue 0 ds : Int)) ∧
    -(2 : Int) ^ 63 ≤ n ∧ n < (2 : Int) ^ 63 := by
  obtain ⟨hl, hr⟩ := (Atoi_eq_some_iff _ _).mp h
  refine ⟨?_, hr⟩
  obtain ⟨c, cs, hds, hc⟩ := head_digit ds hne hall
  obtain ⟨ds2, hne2, hall2, h2⟩ := hl
  obtain ⟨c2, cs2, hds2, hc2⟩ := head_digit ds2 hne2 hall2
  rcases hs with rfl | rfl | rfl
  · rw [List.nil_append] at h2
    rw [if_neg (by simp)]
    rcases h2 with ⟨h3 | h3, hn⟩ | ⟨h3, hn⟩
    · rw [hn, h3]
    · rw [hds] at h3
      have := (List.cons.inj h3).1
      omega
    · rw [hds] at h3
      have := (List.cons.inj h3).1
      omega
  · rw [if_neg (by simp)]
    rcases h2 with ⟨h3 | h3, hn⟩ | ⟨h3, hn⟩
    · rw [hds2] at h3
      have := (List.cons.inj h3).1
      omega
    · have hd2 : ds = ds2 := (List.cons.inj h3).2
      rw [hn, hd2]
    · exact absurd (List.cons.inj h3).1 (by decide)
  · rw [if_pos rfl]
    rcases h2 with ⟨h3 | h3, hn⟩ | ⟨h3, hn⟩
    · rw [hds2] at h3
      have := (List.cons.inj h3).1
      omega
    · exact absurd (List.cons.inj h3).1 (by decide)
    · have hd2 : ds = ds2 := (List.cons.inj h3).2
      rw [hn, hd2]

/-- What `ParseAsset` went through when it accepts a text: the shape of the text and the bytes
that are returned. -/
theorem ParseAsset_form (d : Deps) (v r : Bytes) (h : ParseAsset d v = some r) :
    ∃ (sgn ip : Bytes) (k : Nat) (code : Bytes),
      v = ((sgn ++ ip) ++ 46 :: List.replicate k 48) ++ 32 :: code ∧
      (sgn = [] ∨ sgn = [43] ∨ (sgn = [45] ∧ digitsValue 0 ip = 0)) ∧
      ip ≠ [] ∧ ip.all isDigit = true ∧ 1 ≤ k ∧ IsSymbolValid code = true ∧
      (d.ParseFloat ((sgn ++ ip) ++ 46 :: List.replicate k 48) 64).isSome = true ∧
      digitsValue 0 ip * 10 ^ k < 2 ^ 63 ∧
      r = PackInt 64 ((digitsValue 0 ip * 10 ^ k : Nat) : Int) ++ [k % 256] ++ copyInto 7 code := by
  unfold ParseAsset at h
  split at h
  swap
  · exact absurd h (by simp)
  rename_i amount code hs32
  by_cases hv : IsSymbolValid code = false
  · rw [if_pos hv] at h
    exact absurd h (by simp)
  rw [if_neg hv] at h
  have hvalid : IsSymbolValid code = true := by simpa using hv
  by_cases hf : (d.ParseFloat amount 64).isNone = true
  · rw [if_pos hf] at h
    exact absurd h (by simp)
  rw [if_neg hf] at h
  have hfloat : (d.ParseFloat amount 64).isSome = true := by
    cases hp : d.ParseFloat amount 64 with
    | none => rw [hp] at hf; simp at hf
    | some b => rfl
  split at h
  swap
  · exact absurd h (by simp)
  rename_i a0 a1 hs46
  cases hA1 : Atoi a1 with
  | none =>
    rw [hA1] at h
    exact absurd h (by simp)
  | some n =>
    rw [hA1] at h
    simp only at h
    by_cases hn : n ≠ 0
    · rw [if_pos hn] at h
      exact absurd h (by simp)
    rw [if_neg hn] at h
    have hn0 : n = 0 := by
      by_contra hx
      exact hn hx
    subst hn0
    cases hA0 : Atoi a0 with
    | none =>
      rw [hA0] at h
      exact absurd h (by simp)
    | some amt =>
      rw [hA0] at h
      simp only at h
      by_cases hneg : amt < 0
      · rw [if_pos hneg] at h
        exact absurd h (by simp)
      rw [if_neg hneg] at h
      cases hA2 : Atoi (List.erase amount 46) with
      | none =>
        rw [hA2] at h
        exact absurd h (by simp)
      | some nAmount =>
        rw [hA2] at h
        simp only at h
        have hr : PackInt 64 nAmount ++ [a1.length % 256] ++ copyInto 7 code = r :=
          Option.some.inj h
        obtain ⟨hveq, _, _⟩ := splitOn_eq_two 32 v amount code hs32
        obtain ⟨haeq, h46a0, _⟩ := splitOn_eq_two 46 amount a0 a1 hs46
        rw [haeq, erase_first 46 a0 a1 h46a0] at hA2
        obtain ⟨sgn, ds0, ha0, hne0, hall0, hs0⟩ :=
          literal_cases a0 amt ((Atoi_eq_some_iff a0 amt).mp hA0).1
        obtain ⟨sgn1, ds1, ha1, hne1, hall1, hs1⟩ :=
          literal_cases a1 0 ((Atoi_eq_some_iff a1 0).mp hA1).1
        have htail := literal_tail (a0 ++ a1) nAmount ((Atoi_eq_some_iff _ _).mp hA2).1
        have ha0ne : a0 ≠ [] := by
          rw [ha0]
          intro hx
          exact hne0 (List.append_eq_nil.mp hx).2
        have hmem : ∀ c ∈ a1, c ∈ (a0 ++ a1).tail := by
          intro c hc
          cases a0 with
          | nil => exact absurd rfl ha0ne
          | cons y ys =>
            rw [List.cons_append, List.tail_cons]
            exact List.mem_append_right _ hc
        have hsgn1 : sgn1 = [] := by
          rcases hs1 with ⟨hx, _⟩ | ⟨hx, _⟩ | ⟨hx, _⟩
          · exact hx
          · have := htail 43 (hmem 43 (by rw [ha1, hx]; simp))
            omega
          · have := htail 45 (hmem 45 (by rw [ha1, hx]; simp))
            omega
        rw [hsgn1, List.nil_append] at ha1
        subst ha1
        have hz1 : digitsValue 0 a1 = 0 := by
          rcases hs1 with ⟨_, hx⟩ | ⟨_, hx⟩ | ⟨_, hx⟩
          · exact_mod_cast hx.symm
          · exact_mod_cast hx.symm
          · have : (digitsValue 0 a1 : Int) = 0 := by omega
            exact_mod_cast this
        have hzeros := digits_of_value_zero a1 hall1 hz1
        have hk1 : 1 ≤ a1.length := by
          cases a1 with
          | nil => exact absurd rfl hne1
          | cons c cs => simp
        have hcat : digitsValue 0 (ds0 ++ a1) = digitsValue 0 ds0 * 10 ^ a1.length := by
          rw [digitsValue_append]
          conv_lhs => rw [hzeros]
          rw [digitsValue_zeros]
        have hsg : sgn = [] ∨ sgn = [43] ∨ sgn = [45] := by
          rcases hs0 with ⟨hx, _⟩ | ⟨hx, _⟩ | ⟨hx, _⟩
          · exact Or.inl hx
          · exact Or.inr (Or.inl hx)
          · exact Or.inr (Or.inr hx)
        rw [ha0, List.append_assoc] at hA2
        obtain ⟨hval, _, hlt⟩ := Atoi_signed sgn (ds0 ++ a1) nAmount
          (by intro hx; exact hne0 (List.append_eq_nil.mp hx).1)
          (by rw [List.all_append, hall0, hall1]; rfl) hsg hA2
        have hsign : sgn = [] ∨ sgn = [43] ∨ (sgn = [45] ∧ digitsValue 0 ds0 = 0) := by
          rcases hs0 with ⟨hx, _⟩ | ⟨hx, _⟩ | ⟨hx, hamt⟩
          · exact Or.inl hx
          · exact Or.inr (Or.inl hx)
          · refine Or.inr (Or.inr ⟨hx, ?_⟩)
            have : (digitsValue 0 ds0 : Int) = 0 := by
              have := Int.ofNat_nonneg (digitsValue 0 ds0)
              omega
            exact_mod_cast this
        have hnA : nAmount = ((digitsValue 0 ds0 * 10 ^ a1.length : Nat) : Int) := by
          rw [hval, hcat]
          by_cases h45 : sgn = [45]
          · rw [if_pos h45]
            rcases hsign with hx | hx | ⟨_, hx⟩
            · rw [hx] at h45
              exact absurd h45 (by simp)
            · rw [hx] at h45
              exact absurd h45 (by simp)
            · rw [hx]
              simp
          · rw [if_neg h45]
        have hfit : digitsValue 0 ds0 * 10 ^ a1.length < 2 ^ 63 := by
          rw [hnA] at hlt
          exact_mod_cast hlt
        refine ⟨sgn, ds0, a1.length, code, ?_, hsign, hne0, hall0, hk1, hvalid, ?_, hfit, ?_⟩
        · rw [hveq, haeq, ha0, ← hzeros]
        · rw [← hzeros, ← ha0, ← haeq]
          exact hfloat
        · rw [← hr, hnA]

/-! ## Lemmas on decoding from a longer input -/

theorem read_stable (n : Nat) (b x bs rest : Bytes)
    (h : Decoder.read b n = (.ok bs, rest)) :
    Decoder.read (b ++ x) n = (.ok bs, rest ++ x) := by
  unfold Decoder.read at h ⊢
  by_cases hn : n ≤ b.length
  · rw [if_pos hn] at h
    have hn2 : n ≤ (b ++ x).length := by
      rw [List.length_append]
      omega
    rw [if_pos hn2]
    simp only [Prod.mk.injEq, Except.ok.injEq] at h ⊢
    rw [← h.1, ← h.2]
    exact ⟨List.take_append_of_le_length hn, List.drop_append_of_le_length hn⟩
  · rw [if_neg hn] at h
    exact absurd h (by simp)

theorem readUint_stable (bits : Nat) (b x : Bytes) (v : Nat) (rest : Bytes)
    (h : Decoder.readUint b bits = (.ok v, rest)) :
    Decoder.readUint (b ++ x) bits = (.ok v, rest ++ x) := by
  unfold Decoder.readUint at h ⊢
  split at h
  · rename_i heq
    rw [read_stable _ b x _ _ heq]
    simp only [Prod.mk.injEq, Except.ok.injEq] at h ⊢
    exact ⟨h.1, by rw [h.2]⟩
  · exact absurd h (by simp)

theorem readInt_stable (bits : Nat) (b x : Bytes) (v : Int) (rest : Bytes)
    (h : Decoder.readInt b bits = (.ok v, rest)) :
    Decoder.readInt (b ++ x) bits = (.ok v, rest ++ x) := by
  unfold Decoder.readInt at h ⊢
  split at h
  · rename_i heq
    rw [read_stable _ b x _ _ heq]
    simp only [Prod.mk.injEq, Except.ok.injEq] at h ⊢
    exact ⟨h.1, by rw [h.2]⟩
  · exact absurd h (by simp)

theorem UnpackBool_stable (b x : Bytes) (v : Bool) (rest : Bytes)
    (h : Decoder.UnpackBool b = (.ok v, rest)) :
    Decoder.UnpackBool (b ++ x) = (.ok v, rest ++ x) := by
  unfold Decoder.UnpackBool at h ⊢
  split at h
  · rename_i heq
    rw [read_stable _ b x _ _ heq]
    simp only [Prod.mk.injEq, Except.ok.injEq] at h ⊢
    exact ⟨h.1, by rw [h.2]⟩
  · exact absurd h (by simp)

theorem varuintRead_stable (x : Bytes) : ∀ (b : Bytes) (shift acc n : Nat) (rest : Bytes),
    varuintRead shift acc b = some (n, rest) →
    varuintRead shift acc (b ++ x) = some (n, rest ++ x) := by
  intro b
  induction b with
  | nil =>
    intro shift acc n rest h
    exact absurd h (by simp [varuintRead])
  | cons c cs ih =>
    intro shift acc n rest h
    rw [List.cons_append]
    unfold varuintRead at h ⊢
    by_cases hc : c < 128
    · rw [if_pos hc] at h ⊢
      simp only [Option.some.injEq, Prod.mk.injEq] at h ⊢
      exact ⟨h.1, by rw [h.2]⟩
    · rw [if_neg hc] at h ⊢
      exact ih _ _ _ _ h

theorem UnpackVarUint32_stable (b x : Bytes) (n : Nat) (rest : Bytes)
    (h : Decoder.UnpackVarUint32 b = (.ok n, rest)) :
    Decoder.UnpackVarUint32 (b ++ x) = (.ok n, rest ++ x) := by
  unfold Decoder.UnpackVarUint32 at h ⊢
  split at h
  · rename_i heq
    rw [varuintRead_stable x b _ _ _ _ heq]
    simp only [Prod.mk.injEq, Except.ok.injEq] at h ⊢
    exact ⟨h.1, by rw [h.2]⟩
  · exact absurd h (by simp)

theorem UnpackBytes_stable (b x bs rest : Bytes)
    (h : Decoder.UnpackBytes b = (.ok bs, rest)) :
    Decoder.UnpackBytes (b ++ x) = (.ok bs, rest ++ x) := by
  unfold Decoder.UnpackBytes at h ⊢
  split at h
  · rename_i heq
    rw [UnpackVarUint32_stable b x _ _ heq]
    simp only
    split at h
    · rename_i heq2
      rw [read_stable _ _ x _ _ heq2]
      simp only [Prod.mk.injEq, Except.ok.injEq] at h ⊢
      exact ⟨h.1, by rw [h.2]⟩
    · exact absurd h (by simp)
  · exact absurd h (by simp)

theorem unpackSigned_stable (bits : Nat) (b x : Bytes) (v : Value) (rest : Bytes)
    (h : unpackSigned bits b = (.ok v, rest)) :
    unpackSigned bits (b ++ x) = (.ok v, rest ++ x) := by
  unfold unpackSigned at h ⊢
  split at h
  · rename_i heq
    rw [readInt_stable _ b x _ _ heq]
    simp only [Prod.mk.injEq, Except.ok.injEq] at h ⊢
    exact ⟨h.1, by rw [h.2]⟩
  · exact absurd h (by simp)

theorem unpackUnsigned_stable (bits : Nat) (b x : Bytes) (v : Value) (rest : Bytes)
    (h : unpackUnsigned bits b = (.ok v, rest)) :
    unpackUnsigned bits (b ++ x) = (.ok v, rest ++ x) := by
  unfold unpackUnsigned at h ⊢
  split at h
  · rename_i heq
    rw [readUint_stable _ b x _ _ heq]
    simp only [Prod.mk.injEq, Except.ok.injEq] at h ⊢
    exact ⟨h.1, by rw [h.2]⟩
  · exact absurd h (by simp)

theorem unpackHex_stable (pre : Bytes) (size : Nat) (b x : Bytes) (v : Value) (rest : Bytes)
    (h : unpackHex pre size b = (.ok v, rest)) :
    unpackHex pre size (b ++ x) = (.ok v, rest ++ x) := by
  unfold unpackHex at h ⊢
  split at h
  · rename_i heq
    rw [read_stable _ b x _ _ heq]
    simp only [Prod.mk.injEq, Except.ok.injEq] at h ⊢
    exact ⟨h.1, by rw [h.2]⟩
  · exact absurd h (by simp)

theorem unpackName_stable (d : Deps) (b x : Bytes) (v : Value) (rest : Bytes)
    (h : unpackName d b = (.ok v, rest)) :
    unpackName d (b ++ x) = (.ok v, rest ++ x) := by
  unfold unpackName at h ⊢
  split at h
  · rename_i heq
    rw [readUint_stable _ b x _ _ heq]
    simp only [Prod.mk.injEq, Except.ok.injEq] at h ⊢
    exact ⟨h.1, by rw [h.2]⟩
  · exact absurd h (by simp)

theorem unpackAsset_stable (d : Deps) (b x : Bytes) (v : Value) (rest : Bytes)
    (h : unpackAsset d b = (.ok v, rest)) :
    unpackAsset d (b ++ x) = (.ok v, rest ++ x) := by
  unfold unpackAsset at h ⊢
  split at h
  · exact absurd h (by simp)
  · rename_i heq
    rw [readInt_stable _ b x _ _ heq]
    simp only
    split at h
    · exact absurd h (by simp)
    · rename_i heq2
      rw [read_stable _ _ x _ _ heq2]
      simp only at h ⊢
      split at h
      · exact absurd h (by simp)
      · rename_i hp
        rw [if_neg hp]
        simp only [Prod.mk.injEq, Except.ok.injEq] at h ⊢
        exact ⟨h.1, by rw [h.2]⟩

/-- A primitive that is decoded from an input is decoded to the same value from the input
followed by more bytes, which are left unread. -/
theorem unpackAbiStructField_stable (d : Deps)
    (hd : ∀ (b x : Bytes) (n : Int) (rest : Bytes), d.UnpackVarInt32 b = some (n, rest) →
      d.UnpackVarInt32 (b ++ x) = some (n, rest ++ x))
    (typ : String) (b x : Bytes) (v : Value) (rest : Bytes)
    (h : unpackAbiStructField d typ b = (.ok v, rest)) :
    unpackAbiStructField d typ (b ++ x) = (.ok v, rest ++ x) := by
  unfold unpackAbiStructField at h ⊢
  split at h
  all_goals first
    | exact unpackSigned_stable _ b x v rest h
    | exact unpackUnsigned_stable _ b x v rest h
    | exact unpackHex_stable _ _ b x v rest h
    | exact unpackName_stable d b x v rest h
    | exact unpackAsset_stable d b x v rest h
    | (simp at h; done)
    | (split at h
       · rename_i heq
         first
           | rw [UnpackBool_stable b x _ _ heq]
           | rw [readUint_stable _ b x _ _ heq]
           | rw [read_stable _ b x _ _ heq]
           | rw [UnpackBytes_stable b x _ _ heq]
           | rw [UnpackVarUint32_stable b x _ _ heq]
           | rw [hd b x _ _ heq]
         simp only [Prod.mk.injEq, Except.ok.injEq] at h ⊢
         exact ⟨h.1, by rw [h.2]⟩
       · exact absurd h (by simp))
    | (split at h
       · exact absurd h (by simp)
       · rename_i heq
         rw [unpackAsset_stable d b x _ _ heq]
         simp only
         split at h
         · exact absurd h (by simp)
         · rename_i heq2
           rw [unpackName_stable d _ x _ _ heq2]
           simp only [Prod.mk.injEq, Except.ok.injEq] at h ⊢
           exact ⟨h.1, by rw [h.2]⟩)

theorem unpackElems_stable (elem : Decoder → Unpacked Value) (x : Bytes)
    (helem : ∀ (b : Bytes) (v : Value) (rest : Bytes), elem b = (.ok v, rest) →
      elem (b ++ x) = (.ok v, rest ++ x)) :
    ∀ (count : Nat) (arr : List Value) (b : Bytes) (vs : List Value) (rest : Bytes),
      unpackElems elem count arr b = (.ok vs, rest) →
      unpackElems elem count arr (b ++ x) = (.ok vs, rest ++ x) := by
  intro count
  induction count with
  | zero =>
    intro arr b vs rest h
    unfold unpackElems at h ⊢
    simp only [Prod.mk.injEq, Except.ok.injEq] at h ⊢
    exact ⟨h.1, by rw [h.2]⟩
  | succ n ih =>
    intro arr b vs rest h
    unfold unpackElems at h ⊢
    split at h
    · exact absurd h (by simp)
    · rename_i heq
      rw [helem _ _ _ heq]
      exact ih _ _ _ _ h

theorem unpackStructElem_stable (self : OrderedMap → Decoder → Unpacked OrderedMap) (x : Bytes)
    (hself : ∀ (result : OrderedMap) (b : Bytes) (r : OrderedMap) (rest : Bytes),
      self result b = (.ok r, rest) → self result (b ++ x) = (.ok r, rest ++ x))
    (b : Bytes) (v : Value) (rest : Bytes) (h : unpackStructElem self b = (.ok v, rest)) :
    unpackStructElem self (b ++ x) = (.ok v, rest ++ x) := by
  unfold unpackStructElem at h ⊢
  split at h
  · rename_i heq
    rw [hself _ _ _ _ heq]
    simp only [Prod.mk.injEq, Except.ok.injEq] at h ⊢
    exact ⟨h.1, by rw [h.2]⟩
  · exact absurd h (by simp)

theorem unpackComposite_stable (d : Deps) (t : ABISerializer)
    (hd : ∀ (b x : Bytes) (n : Int) (rest : Bytes), d.UnpackVarInt32 b = some (n, rest) →
      d.UnpackVarInt32 (b ++ x) = some (n, rest ++ x))
    (self : ABIStruct → OrderedMap → Decoder → Unpacked OrderedMap) (x : Bytes)
    (hself : ∀ (s : ABIStruct) (result : OrderedMap) (b : Bytes) (r : OrderedMap)
      (rest : Bytes), self s result b = (.ok r, rest) →
      self s result (b ++ x) = (.ok r, rest ++ x))
    (contractName typ : String) (b : Bytes) (v : Value) (rest : Bytes)
    (h : unpackComposite d t self contractName typ b = (.ok v, rest)) :
    unpackComposite d t self contractName typ (b ++ x) = (.ok v, rest ++ x) := by
  unfold unpackComposite at h ⊢
  split at h
  · exact absurd h (by simp)
  · split at h
    · exact absurd h (by simp)
    · rename_i heq
      rw [hself _ _ _ _ _ heq]
      simp only [Prod.mk.injEq, Except.ok.injEq] at h ⊢
      exact ⟨h.1, by rw [h.2]⟩
  · by_cases hsuf : hasArraySuffix typ = false
    · rw [if_pos hsuf] at h
      exact absurd h (by simp)
    · rw [if_neg hsuf] at h ⊢
      simp only at h ⊢
      split at h
      · exact absurd h (by simp)
      · rename_i heq
        rw [UnpackVarUint32_stable b x _ _ heq]
        simp only
        by_cases hb : trimArraySuffix typ ∈ t.baseTypeMap
        · rw [if_pos hb] at h ⊢
          split at h
          · exact absurd h (by simp)
          · rename_i heq2
            rw [unpackElems_stable _ x
              (fun b0 v0 r0 h0 => unpackAbiStructField_stable d hd _ b0 x v0 r0 h0)
              _ _ _ _ _ heq2]
            simp only [Prod.mk.injEq, Except.ok.injEq] at h ⊢
            exact ⟨h.1, by rw [h.2]⟩
        · rw [if_neg hb] at h ⊢
          split at h
          · exact absurd h (by simp)
          · exact absurd h (by simp)
          · split at h
            · exact absurd h (by simp)
            · rename_i heq2
              rw [unpackElems_stable _ x
                (fun b0 v0 r0 h0 => unpackStructElem_stable _ x
                  (fun res b1 r1 rest1 h1 => hself _ res b1 r1 rest1 h1) b0 v0 r0 h0)
                _ _ _ _ _ heq2]
              simp only [Prod.mk.injEq, Except.ok.injEq] at h ⊢
              exact ⟨h.1, by rw [h.2]⟩

theorem unpackField_stable (d : Deps) (t : ABISerializer)
    (hd : ∀ (b x : Bytes) (n : Int) (rest : Bytes), d.UnpackVarInt32 b = some (n, rest) →
      d.UnpackVarInt32 (b ++ x) = some (n, rest ++ x))
    (self : ABIStruct → OrderedMap → Decoder → Unpacked OrderedMap) (x : Bytes)
    (hself : ∀ (s : ABIStruct) (result : OrderedMap) (b : Bytes) (r : OrderedMap)
      (rest : Bytes), self s result b = (.ok r, rest) →
      self s result (b ++ x) = (.ok r, rest ++ x))
    (contractName : String)
    (hprim : ∀ typ ∈ t.baseTypeMap, hasArraySuffix typ = false ∧
      ∀ s, GetAbiStruct t contractName typ ≠ .ok (some s))
    (f : ABIStructField) (b : Bytes) (v : Value) (rest : Bytes)
    (h : unpackField d t self contractName f b = (.ok v, rest)) :
    unpackField d t self contractName f (b ++ x) = (.ok v, rest ++ x) := by
  unfold unpackField at h ⊢
  by_cases hb : f.Typ ∈ t.baseTypeMap
  · rw [if_pos hb] at h ⊢
    split at h
    · rename_i heq
      rw [unpackAbiStructField_stable d hd _ b x _ _ heq]
      simp only [Prod.mk.injEq, Except.ok.injEq] at h ⊢
      exact ⟨h.1, by rw [h.2]⟩
    · exfalso
      obtain ⟨hsuf, hno⟩ := hprim f.Typ hb
      unfold unpackComposite at h
      split at h
      · exact absurd h (by simp)
      · rename_i s hg
        exact hno s hg
      · rw [if_pos hsuf] at h
        exact absurd h (by simp)
  · rw [if_neg hb] at h ⊢
    exact unpackComposite_stable d t hd self x hself contractName f.Typ b v rest h

theorem unpackFields_stable (d : Deps) (t : ABISerializer)
    (hd : ∀ (b x : Bytes) (n : Int) (rest : Bytes), d.UnpackVarInt32 b = some (n, rest) →
      d.UnpackVarInt32 (b ++ x) = some (n, rest ++ x))
    (self : ABIStruct → OrderedMap → Decoder → Unpacked OrderedMap) (x : Bytes)
    (hself : ∀ (s : ABIStruct) (result : OrderedMap) (b : Bytes) (r : OrderedMap)
      (rest : Bytes), self s result b = (.ok r, rest) →
      self s result (b ++ x) = (.ok r, rest ++ x))
    (contractName : String)
    (hprim : ∀ typ ∈ t.baseTypeMap, hasArraySuffix typ = false ∧
      ∀ s, GetAbiStruct t contractName typ ≠ .ok (some s)) :
    ∀ (fields : List ABIStructField) (result : OrderedMap) (b : Bytes) (r : OrderedMap)
      (rest : Bytes), unpackFields d t self contractName fields result b = (.ok r, rest) →
      unpackFields d t self contractName fields result (b ++ x) = (.ok r, rest ++ x) := by
  intro fields
  induction fields with
  | nil =>
    intro result b r rest h
    unfold unpackFields at h ⊢
    simp only [Prod.mk.injEq, Except.ok.injEq] at h ⊢
    exact ⟨h.1, by rw [h.2]⟩
  | cons f fs ih =>
    intro result b r rest h
    unfold unpackFields at h ⊢
    split at h
    · exact absurd h (by simp)
    · rename_i heq
      rw [unpackField_stable d t hd self x hself contractName hprim f b _ _ heq]
      exact ih _ _ _ _ h

/-- When no struct stands behind the name of a primitive, a struct that is unpacked from an
input is unpacked to the same record from the input followed by more bytes. -/
theorem unpackAbiStruct_stable (d : Deps) (t : ABISerializer)
    (hd : ∀ (b x : Bytes) (n : Int) (rest : Bytes), d.UnpackVarInt32 b = some (n, rest) →
      d.UnpackVarInt32 (b ++ x) = some (n, rest ++ x))
    (contractName : String)
    (hprim : ∀ typ ∈ t.baseTypeMap, hasArraySuffix typ = false ∧
      ∀ s, GetAbiStruct t contractName typ ≠ .ok (some s))
    (x : Bytes) :
    ∀ (fuel : Nat) (S : ABIStruct) (result : OrderedMap) (b : Bytes) (r : OrderedMap)
      (rest : Bytes), unpackAbiStruct d t fuel contractName S result b = (.ok r, rest) →
      unpackAbiStruct d t fuel contractName S result (b ++ x) = (.ok r, rest ++ x) := by
  intro fuel
  induction fuel with
  | zero =>
    intro S result b r rest h
    unfold unpackAbiStruct at h ⊢
    exact unpackFields_stable d t hd _ x
      (fun s res b1 r1 rest1 h1 => absurd h1 (by simp)) contractName hprim _ _ _ _ _ h
  | succ n ih =>
    intro S result b r rest h
    unfold unpackAbiStruct at h ⊢
    exact unpackFields_stable d t hd _ x
      (fun s res b1 r1 rest1 h1 => ih s res b1 r1 rest1 h1) contractName hprim _ _ _ _ _ h


/-! ## Lemmas on the table of transaction handles -/

theorem validateIndex_nat {α : Type} (tbl : HandleTable α) (i : Nat) :
    validateIndex tbl (i : Int) = none ↔ ∃ a, tbl[i]? = some (some a) := by
  unfold validateIndex
  by_cases hb : (i : Int) < 0 ∨ (i : Int) ≥ tbl.length
  · rw [if_pos hb]
    have hi : tbl.length ≤ i := by omega
    constructor
    · intro h
      exact absurd h (by simp)
    · rintro ⟨a, ha⟩
      rw [List.getElem?_eq_none hi] at ha
      exact absurd ha (by simp)
  · rw [if_neg hb, Int.toNat_ofNat]
    constructor
    · intro h
      split at h
      · rename_i a heq
        exact ⟨a, heq⟩
      · exact absurd h (by simp)
    · rintro ⟨a, ha⟩
      rw [ha]

theorem validateIndex_ok {α : Type} (tbl : HandleTable α) (idx : Int)
    (h : validateIndex tbl idx = none) :
    ∃ (i : Nat) (a : α), idx = (i : Int) ∧ tbl[i]? = some (some a) := by
  have hnn : 0 ≤ idx := by
    by_contra hneg
    unfold validateIndex at h
    rw [if_pos (Or.inl (by omega))] at h
    exact absurd h (by simp)
  obtain ⟨i, rfl⟩ := Int.eq_ofNat_of_zero_le hnn
  obtain ⟨a, ha⟩ := (validateIndex_nat tbl i).mp h
  exact ⟨i, a, rfl, ha⟩

theorem newLoop_spec {α : Type} (tbl : HandleTable α) (tx : α) :
    ∀ (rest pre : List (Option α)), tbl = pre ++ rest →
      (∀ j, j < pre.length → tbl[j]? ≠ some none) →
      (∀ r, newLoop tbl tx rest pre.length = some r →
        ∃ k, k < tbl.length ∧ tbl[k]? = some none ∧ (∀ j, j < k → tbl[j]? ≠ some none) ∧
          r = (tbl.set k (some tx), (k : Int))) ∧
      (newLoop tbl tx rest pre.length = none → ∀ j, j < tbl.length → tbl[j]? ≠ some none) := by
  intro rest
  induction rest with
  | nil =>
    intro pre htbl hpre
    refine ⟨fun r h => absurd h (by simp [newLoop]), fun _ j hj => hpre j ?_⟩
    rw [htbl, List.append_nil] at hj
    exact hj
  | cons s rest ih =>
    intro pre htbl hpre
    have hs : tbl[pre.length]? = some s := by
      rw [htbl, List.getElem?_append_right (Nat.le_refl _), Nat.sub_self]
      exact List.getElem?_cons_zero
    cases s with
    | none =>
      refine ⟨fun r h => ?_, fun h => absurd h (by simp [newLoop])⟩
      have hr : (tbl.set pre.length (some tx), (pre.length : Int)) = r := by
        simpa [newLoop] using h
      refine ⟨pre.length, ?_, hs, hpre, hr.symm⟩
      rw [htbl, List.length_append, List.length_cons]
      omega
    | some a =>
      have hstep : ∀ j, j < (pre ++ [some a]).length → tbl[j]? ≠ some none := by
        intro j hj
        rw [List.length_append, List.length_singleton] at hj
        by_cases hlt : j < pre.length
        · exact hpre j hlt
        · have : j = pre.length := by omega
          rw [this, hs]
          simp
      have := ih (pre ++ [some a]) (by rw [htbl]; simp) hstep
      rw [List.length_append, List.length_singleton] at this
      exact this

theorem length_transaction_free {α : Type} (tbl : HandleTable α) (idx : Int) :
    (transaction_free_ tbl idx).length = tbl.length := by
  unfold transaction_free_
  split <;> simp

/-- What `transaction_new_` does to a table of fewer than 1024 slots. -/
theorem transaction_new_below {α : Type} (tbl : HandleTable α) (tx : α)
    (hlen : tbl.length < 1024) :
    ∃ i : Nat, (∀ j, j < i → tbl[j]? ≠ some none) ∧
      ((i < tbl.length ∧ tbl[i]? = some none ∧
          transaction_new_ tbl tx = (tbl.set i (some tx), (i : Int))) ∨
        (i = tbl.length ∧ transaction_new_ tbl tx = (tbl ++ [some tx], (i : Int)))) := by
  unfold transaction_new_
  rw [if_neg (by omega)]
  obtain ⟨h1, h2⟩ := newLoop_spec tbl tx tbl [] rfl (fun j hj => absurd hj (by simp))
  cases hl : newLoop tbl tx tbl 0 with
  | some r =>
    obtain ⟨k, hk, hfree, hmin, hr⟩ := h1 r hl
    exact ⟨k, hmin, Or.inl ⟨hk, hfree, hr⟩⟩
  | none =>
    refine ⟨tbl.length, h2 hl, Or.inr ⟨rfl, ?_⟩⟩
    simp

theorem length_transaction_new {α : Type} (tbl : HandleTable α) (tx : α)
    (h : tbl.length ≤ 1024) : (transaction_new_ tbl tx).1.length ≤ 1024 := by
  by_cases hlen : tbl.length < 1024
  · obtain ⟨i, _, hi⟩ := transaction_new_below tbl tx hlen
    rcases hi with ⟨_, _, hi⟩ | ⟨_, hi⟩
    · rw [hi, List.length_set]
      exact h
    · rw [hi, List.length_append, List.length_singleton]
      omega
  · unfold transaction_new_
    rw [if_pos (by omega)]
    exact h

theorem length_runCalls {α : Type} : ∀ (calls : List (HandleCall α)) (tbl : HandleTable α),
    tbl.length ≤ 1024 → (runCalls tbl calls).length ≤ 1024 := by
  intro calls
  induction calls with
  | nil => intro tbl h; exact h
  | cons c rest ih =>
    intro tbl h
    cases c with
    | new tx =>
      unfold runCalls
      exact ih _ (length_transaction_new tbl tx h)
    | free idx =>
      unfold runCalls
      exact ih _ (by rw [length_transaction_free]; exact h)


/-! ## Lemmas on the asset case on texts with a zero fraction -/

/-- A text of integer digits, a point, between 1 and 255 fraction digits that are all zero, a
space and a valid symbol code, whose amount with the point removed is below `2 ^ 63` and
which the float parser accepts, is packed by the asset case to exactly 16 bytes: the amount
with the point removed as 8 bytes little-endian, one byte equal to the number of fraction
digits, the code padded with NUL to 7 bytes. -/
theorem asset_pack_zero_fraction (d : Deps) (ip : Bytes) (k : Nat) (code : Bytes)
    (hne : ip ≠ []) (hdig : ip.all isDigit = true) (hk1 : 1 ≤ k) (hk : k ≤ 255)
    (hval : digitsValue 0 (ip ++ List.replicate k 48) < 2 ^ 63)
    (hcode : IsSymbolValid code = true)
    (hfloat : (d.ParseFloat (ip ++ 46 :: List.replicate k 48) 64).isSome = true) :
    ParseAbiStringValue d "asset" (quoted (assetText ip k code))
      = .wrote (PackInt 64 (digitsValue 0 (ip ++ List.replicate k 48) : Int) ++ [k]
          ++ copyInto 7 code) ∧
    PackInt 64 (digitsValue 0 (ip ++ List.replicate k 48) : Int)
      = leBytes 8 (digitsValue 0 (ip ++ List.replicate k 48)) ∧
    (PackInt 64 (digitsValue 0 (ip ++ List.replicate k 48) : Int) ++ [k]
          ++ copyInto 7 code).length = 16 := by
  have h32 : (32 : Nat) ∉ code := fun h => by
    rcases IsSymbolValid_mem code hcode 32 h with h1 | h1 <;> omega
  have hz : List.replicate k 48 ≠ [] := by
    intro h
    have := congrArg List.length h
    simp at this
    omega
  have hcond : IsSymbolValid code = true ∧
      (d.ParseFloat (ip ++ 46 :: List.replicate k 48) 64).isSome = true ∧
      ip ≠ [] ∧ List.replicate k 48 ≠ [] ∧ digitsValue 0 (List.replicate k 48) = 0 ∧
      digitsValue 0 (ip ++ List.replicate k 48) < 2 ^ 63 :=
    ⟨hcode, hfloat, hne, hz, by rw [digitsValue_zeros]; norm_num, hval⟩
  have hp := ParseAsset_digits d ip (List.replicate k 48) code hdig (all_isDigit_zeros k) h32
  rw [if_pos hcond, List.length_replicate, Nat.mod_eq_of_lt (by omega : k < 256)] at hp
  refine ⟨pack_asset d _ _ hp, PackInt64_nat _ hval, ?_⟩
  rw [PackInt64_nat _ hval]
  simp [length_leBytes, length_copyInto]

/-- The text `1.0000 EOS` is packed to `10 27 00 00 00 00 00 00 04 45 4f 53 00 00 00 00`. -/
theorem asset_pack_zero_fraction_witness :
    ParseAbiStringValue refDeps "asset" (quoted (txt "1.0000 EOS"))
      = .wrote ([0x10, 0x27] ++ List.replicate 6 0 ++ [0x04, 0x45, 0x4f, 0x53]
          ++ List.replicate 4 0) :=
  (asset_pack_zero_fraction refDeps (txt "1") 4 (txt "EOS") (by decide) rfl (by decide)
    (by decide) (by decide) rfl rfl).1

/-! # The claims -/

/-! ## C1 -/

/-- C1: when `PackAbiStruct` succeeds, every declared field is bound in the value record and
encodes without error, and the bytes appended to the encoder are the concatenation, in
declared order, of the encodings of the values bound to the field names at the declared field
types; and two JSON objects that differ only in the order of their (distinct) keys pack to the
same result. -/
theorem PackAbiStruct_concat (d : Deps) (t : ABISerializer) (fuel : Nat) (contractName : String)
    (S : ABIStruct) (m : GoMap AbiValue) (out : Bytes)
    (h : PackAbiStruct d t fuel contractName (some S) m = ⟨out, none⟩) :
    (∀ f ∈ S.Fields, ∃ v, m.get f.Name = some v ∧ (ParseAbiValue d t fuel f.Typ v).fault = none) ∧
    out = (S.Fields.map (fun f =>
      match m.get f.Name with
      | some v => (ParseAbiValue d t fuel f.Typ v).out
      | none => [])).flatten ∧
    (∀ ms1 ms2 : List (String × Json), ms1.Perm ms2 → (ms1.map Prod.fst).Nodup →
      PackAbiStruct d t fuel contractName (some S) (unmarshalMembers ms1 []) =
        PackAbiStruct d t fuel contractName (some S) (unmarshalMembers ms2 [])) := by
  obtain ⟨h1, h2⟩ := packFields_ok (ParseAbiValue d t fuel) m S.Fields out h
  refine ⟨h1, h2, ?_⟩
  intro ms1 ms2 hp hnd
  exact packFields_congr _ _ _ _ (fun f _ => unmarshalMembers_perm ms1 ms2 hp hnd f.Name)

/-- The transfer of the test packs, and its bytes are the four field encodings in declared order. -/
theorem PackAbiStruct_concat_witness :
    PackAbiStruct refDeps refSerializer 0 "hello" (some transferStruct) transferRecord
      = ⟨packedTransfer, none⟩ ∧
    packedTransfer = (transferStruct.Fields.map (fun f =>
      match transferRecord.get f.Name with
      | some v => (ParseAbiValue refDeps refSerializer 0 f.Typ v).out
      | none => [])).flatten :=
  ⟨rfl, (PackAbiStruct_concat refDeps refSerializer 0 "hello" transferStruct transferRecord
    packedTransfer rfl).2.1⟩

/-! ## C2 -/

/-- C2: at the failing input the struct packer reports the missing field `to`, and yet
`PackActionArgs` and `PackAbiType` return the eight bytes written so far with a nil error
(`PackAbiStructByName` returns the error); likewise an out-of-range `uint8` is reported by
the struct packer and dropped by both entry points. -/
theorem PackActionArgs_drops_pack_error :
    (PackAbiStruct refDeps { refSerializer with contractName := "hello" } 0 "hello"
        (some transferStruct) [("from", .str (txt "\"hello\""))]).fault
      = some (.error (.missingField "to")) ∧
    PackActionArgs refDeps refSerializer 0 "hello" "transfer"
        (some (.obj [("from", .lit (txt "\"hello\""))])) = .ok [0, 0, 0, 0, 0, 26, 163, 106] ∧
    PackAbiType refDeps refSerializer 0 "hello" "transfer"
        (some (.obj [("from", .lit (txt "\"hello\""))])) = .ok [0, 0, 0, 0, 0, 26, 163, 106] ∧
    PackAbiStructByName refDeps refSerializer 0 "hello" "transfer"
        (some (.obj [("from", .lit (txt "\"hello\""))]))
      = .error (.error (.missingField "to")) ∧
    (PackAbiStruct refDeps { refSerializer with contractName := "demo" } 0 "demo"
        (some sampleStruct) [("ids", .arr []), ("level", .str (txt "256"))]).fault
      = some (.error (.overflow "uint8" 256)) ∧
    PackActionArgs refDeps refSerializer 0 "demo" "sample"
        (some (.obj [("level", .lit (txt "256")), ("ids", .arr [])])) = .ok [] ∧
    PackAbiType refDeps refSerializer 0 "demo" "sample"
        (some (.obj [("level", .lit (txt "256")), ("ids", .arr [])])) = .ok [] :=
  ⟨rfl, rfl, rfl, rfl, rfl, rfl, rfl⟩

/-! ## C3 -/

set_option maxRecDepth 100000 in
/-- C4 (the claim as stated fails): the quantity `9223372036854775807.0 EOS` is a canonical
asset text, and packing the transfer with it returns an error, so there is nothing to
unpack; and the canonical quantity with integer part 0 and 256 fraction digits packs with the
precision byte 0 and unpacks to `0.0 EOS`. -/
theorem transfer_roundtrip_counterexample :
    PackAbiStructByName refDeps refSerializer 0 "hello" "transfer" (some overflowArgs)
      = .error (.error (.invalidValue "asset" (txt "9223372036854775807.0 EOS"))) ∧
    PackAbiStructByName refDeps refSerializer 0 "hello" "transfer" (some longFractionArgs)
      = .ok packedLongFraction ∧
    UnpackAbiStruct refDeps refSerializer 0 "hello" transferStruct packedLongFraction
      = .ok [("from", .str (txt "hello")), ("to", .str (txt "alice")),
             ("quantity", .str (txt "0.0 EOS")), ("memo", .str (txt "transfer from alice"))] :=
  ⟨rfl, rfl, rfl⟩

/-- C4 (amended): for a contract whose struct `transfer` has the fields from:name, to:name,
quantity:asset, memo:string, and an args object whose from and to are quoted identifiers that
survive the name round trip, whose quantity is a quoted canonical asset text (integer part
without redundant leading zeros, a point, between 1 and 255 fraction digits all zero, a space,
1 to 7 upper case letters) whose amount with the point removed is below 2^63 and is accepted
by the float parser, and whose memo is a quoted string without escapes: packing succeeds, and
unpacking the packed bytes returns the record with exactly the keys from, to, quantity, memo
in this order and the four texts that were packed.  With more than 18 fraction digits (the
amount is zero then) this needs `int64(math.Pow10(p))`, which the platform chooses, not to
be zero. -/
theorem transfer_roundtrip (d : Deps) (t : ABISerializer) (fuel : Nat) (contractName : String)
    (S : ABIStruct) (members : List (String × Json)) (src dst memo ip sym : Bytes) (k : Nat)
    (hS : GetAbiStruct t contractName "transfer" = .ok (some S))
    (hfields : S.Fields = transferStruct.Fields)
    (hbase : "name" ∈ t.baseTypeMap ∧ "asset" ∈ t.baseTypeMap ∧ "string" ∈ t.baseTypeMap)
    (hfrom : (unmarshalMembers members []).get "from" = some (.str (quoted src)))
    (hto : (unmarshalMembers members []).get "to" = some (.str (quoted dst)))
    (hquantity : (unmarshalMembers members []).get "quantity"
      = some (.str (quoted (assetText ip k sym))))
    (hmemo : (unmarshalMembers members []).get "memo" = some (.str (quoted memo)))
    (hsrc : d.N2S (d.S2N src) = src) (hdst : d.N2S (d.S2N dst) = dst)
    (hne : ip ≠ []) (hdig : ip.all isDigit = true)
    (hcanon : ip = [48] ∨ ip.head? ≠ some 48) (hk1 : 1 ≤ k) (hk : k ≤ 255)
    (hpow : k ≤ 18 ∨ d.pow10Overflow k ≠ 0)
    (hval : digitsValue 0 ip * 10 ^ k < 2 ^ 63)
    (hsym : upperOnly sym = true) (hs1 : 1 ≤ sym.length) (hs7 : sym.length ≤ 7)
    (hfloat : (d.ParseFloat (ip ++ 46 :: List.replicate k 48) 64).isSome = true)
    (hlen : memo.length < 2 ^ 32) :
    ∃ packed,
      PackAbiStructByName d t fuel contractName "transfer" (some (.obj members)) = .ok packed ∧
      packed = PackInt 64 (d.S2N src : Int) ++ (PackInt 64 (d.S2N dst : Int) ++
        ((PackInt 64 ((digitsValue 0 ip * 10 ^ k : Nat) : Int) ++ [k] ++ copyInto 7 sym) ++
          (PackBytes memo ++ []))) ∧
      UnpackAbiStruct d t fuel contractName S packed =
        .ok [("from", .str src), ("to", .str dst), ("quantity", .str (assetText ip k sym)),
             ("memo", .str memo)] := by
  refine ⟨_, ?_, rfl, ?_⟩
  · have hS2 : GetAbiStruct { t with contractName := contractName } contractName "transfer"
        = .ok (some S) := hS
    have hasset := pack_asset d _ _
      (ParseAsset_canonical d ip k sym hne hdig hk1 hk hval hsym hs1 hs7 hfloat)
    unfold PackAbiStructByName
    simp only [unmarshalArgs, hS2, PackAbiStruct, hfields, transferStruct, packFields, hfrom,
      hto, hquantity, hmemo, ParseAbiValue_str, pack_name d src hsrc, pack_name d dst hdst,
      hasset, pack_string, PackRes.wrote]
  · unfold UnpackAbiStruct
    rw [unpackAbiStruct_eq, hfields]
    simp only [transferStruct, unpackFields]
    rw [unpackField_prim d t _ contractName ⟨"from", "name"⟩ _ _ _ hbase.1
      (unpack_name d (d.S2N src) _ (d.S2N_lt src))]
    simp only
    rw [unpackField_prim d t _ contractName ⟨"to", "name"⟩ _ _ _ hbase.1
      (unpack_name d (d.S2N dst) _ (d.S2N_lt dst))]
    simp only
    have hq : unpackAbiStructField d "asset"
        ((PackInt 64 ((digitsValue 0 ip * 10 ^ k : Nat) : Int) ++ [k] ++ copyInto 7 sym) ++
          (PackBytes memo ++ []))
        = (.ok (.str (assetText ip k sym)), PackBytes memo ++ []) :=
      unpackAsset_canonical d ip k sym _ hne hdig hcanon hk1 hpow hval hsym hs7
    rw [unpackField_prim d t _ contractName ⟨"quantity", "asset"⟩ _ _ _ hbase.2.1 hq]
    simp only
    rw [unpackField_prim d t _ contractName ⟨"memo", "string"⟩ _ _ _ hbase.2.2
      (unpack_string d memo [] hlen)]
    simp only [hsrc, hdst]
    rfl

/-- The transfer of the test packs and unpacks to its four texts. -/
theorem transfer_roundtrip_witness :
    ∃ packed,
      PackAbiStructByName refDeps refSerializer 0 "hello" "transfer" (some transferArgs)
        = .ok packed ∧
      packed = PackInt 64 (refDeps.S2N (txt "hello") : Int) ++
        (PackInt 64 (refDeps.S2N (txt "alice") : Int) ++
        ((PackInt 64 ((digitsValue 0 (txt "1") * 10 ^ 4 : Nat) : Int) ++ [4]
            ++ copyInto 7 (txt "EOS")) ++
          (PackBytes (txt "transfer from alice") ++ []))) ∧
      UnpackAbiStruct refDeps refSerializer 0 "hello" transferStruct packed =
        .ok [("from", .str (txt "hello")), ("to", .str (txt "alice")),
             ("quantity", .str (assetText (txt "1") 4 (txt "EOS"))),
             ("memo", .str (txt "transfer from alice"))] :=
  transfer_roundtrip refDeps refSerializer 0 "hello" transferStruct
    [("from", .lit (txt "\"hello\"")), ("to", .lit (txt "\"alice\"")),
     ("quantity", .lit (txt "\"1.0000 EOS\"")), ("memo", .lit (txt "\"transfer from alice\""))]
    (txt "hello") (txt "alice") (txt "transfer from alice") (txt "1") (txt "EOS") 4
    rfl rfl (by decide) rfl rfl rfl rfl (by decide) (by decide) (List.cons_ne_nil _ _) rfl
    (Or.inr (by decide)) (Nat.le_of_ble_eq_true rfl) (by decide) (Or.inl (by decide))
    (by decide) rfl (Nat.le_of_ble_eq_true rfl) (by decide) rfl (by decide)

/-! ## C5 -/

/-- C5: for the unregistered contract `nobody`, `GetAbiStruct` dereferences the nil ABI and
panics, although the system ABI declares the struct asked for; `UnpackAbiType` and
`PackAbiType` panic with it.  For a registered contract the lookup is as the claim says. -/
theorem GetAbiStruct_unregistered_panics :
    refSerializer.contractAbiMap.get "nobody" = none ∧
    refSerializer.abiMap.get "permission_level" = some permissionLevel ∧
    GetAbiStruct refSerializer "nobody" "permission_level"
      = .error (.panic "nil pointer dereference") ∧
    UnpackAbiType refDeps refSerializer 0 "nobody" "permission_level" []
      = .error (.panic "nil pointer dereference") ∧
    PackAbiType refDeps refSerializer 0 "nobody" "permission_level" (some (.obj []))
      = .error (.panic "nil pointer dereference") ∧
    GetAbiStruct refSerializer "hello" "transfer" = .ok (some transferStruct) ∧
    GetAbiStruct refSerializer "hello" "permission_level" = .ok (some permissionLevel) ∧
    GetAbiStruct refSerializer "hello" "nothing" = .ok none :=
  ⟨rfl, rfl, rfl, rfl, rfl, rfl, rfl, rfl⟩

/-! ## C6 -/

/-- C6: when the contract is not registered, or is registered and every action it declares
under the given name has a type that is not the name of one of its own structs (in particular
when it declares no such action), `PackActionArgs` and `UnpackActionArgs` return an error
value, neither a panic nor a result, whatever the arguments, the packed bytes and the fuel. -/
theorem action_args_unknown_action (d : Deps) (t : ABISerializer) (fuel : Nat)
    (contractName actionName : String) (args : Option Json) (packedValue : Bytes)
    (h : t.contractAbiMap.get contractName = none ∨
      ∃ abi, t.contractAbiMap.get contractName = some abi ∧
        ∀ act ∈ abi.Actions, act.Name = actionName → ∀ s ∈ abi.Structs, s.Name ≠ act.Typ) :
    (∃ e, PackActionArgs d t fuel contractName actionName args = .error (.error e)) ∧
    UnpackActionArgs d t fuel contractName actionName packedValue
      = .error (.error (.unknownAction contractName actionName)) := by
  refine ⟨?_, ?_⟩
  · unfold PackActionArgs
    cases unmarshalArgs args with
    | none => exact ⟨_, rfl⟩
    | some m =>
      have hn : GetActionStruct { t with contractName := contractName } contractName actionName
          = none := GetActionStruct_none _ _ _ h
      simp only [hn]
      exact ⟨_, rfl⟩
  · unfold UnpackActionArgs
    rw [GetActionStruct_none t _ _ h]

/-- The contract `nobody` is not registered: both entry points return an error. -/
theorem action_args_unknown_action_witness :
    (refSerializer.contractAbiMap.get "nobody" = none) ∧
    (∃ e, PackActionArgs refDeps refSerializer 3 "nobody" "transfer" (some transferArgs)
      = .error (.error e)) ∧
    UnpackActionArgs refDeps refSerializer 3 "nobody" "transfer" packedTransfer
      = .error (.error (.unknownAction "nobody" "transfer")) :=
  ⟨rfl, action_args_unknown_action refDeps refSerializer 3 "nobody" "transfer"
    (some transferArgs) packedTransfer (Or.inl rfl)⟩

/-! ## C7 -/

/-- C7: if `GetActionStruct` returns a struct, then the contract is registered, the struct is
an element of the struct list of that contract, and the contract declares an action with the
given name whose type is the name of the struct; and if no action of that name has a type
naming one of the structs of the contract, the result is nil whatever the system ABI holds. -/
theorem GetActionStruct_own_structs (t : ABISerializer) (contractName actionName : String) :
    (∀ s, GetActionStruct t contractName actionName = some s →
      ∃ abi, t.contractAbiMap.get contractName = some abi ∧ s ∈ abi.Structs ∧
        ∃ act ∈ abi.Actions, act.Name = actionName ∧ s.Name = act.Typ) ∧
    (∀ abi, t.contractAbiMap.get contractName = some abi →
      (∀ act ∈ abi.Actions, act.Name = actionName → ∀ s ∈ abi.Structs, s.Name ≠ act.Typ) →
      GetActionStruct t contractName actionName = none) := by
  refine ⟨?_, ?_⟩
  · intro s h
    unfold GetActionStruct at h
    cases hc : t.contractAbiMap.get contractName with
    | none => simp [hc] at h
    | some abi =>
      simp only [hc] at h
      obtain ⟨act, hact, hn, hs, hname⟩ := actionLoop_some _ _ _ _ h
      exact ⟨abi, rfl, hs, act, hact, hn, hname⟩
  · intro abi habi hact
    exact GetActionStruct_none t _ _ (Or.inr ⟨abi, habi, hact⟩)

/-- The action `transfer` of `hello` resolves to its own struct, and the action `sysact` of `demo`, whose type only the system ABI declares, resolves to nothing. -/
theorem GetActionStruct_own_structs_witness :
    GetActionStruct refSerializer "hello" "transfer" = some transferStruct ∧
    (∃ abi, refSerializer.contractAbiMap.get "hello" = some abi ∧ transferStruct ∈ abi.Structs ∧
        ∃ act ∈ abi.Actions, act.Name = "transfer" ∧ transferStruct.Name = act.Typ) ∧
    refSerializer.abiMap.get "permission_level" = some permissionLevel ∧
    GetActionStruct refSerializer "demo" "sysact" = none :=
  ⟨rfl, (GetActionStruct_own_structs refSerializer "hello" "transfer").1 transferStruct rfl,
    rfl, (GetActionStruct_own_structs refSerializer "demo" "sysact").2 demoAbi rfl (by decide)⟩

/-! ## C8 -/

/-- C8: when the ABI text parses, `AddContractABI` returns nil, the entry of the contract is
the newly parsed ABI (so the action and struct lookups of that contract see the new ABI
only), the entry of every other contract and the rest of the serializer are unchanged; when
the text is malformed, it returns an error and the serializer is unchanged. -/
theorem AddContractABI_frame (t : ABISerializer) (contractName : String) :
    (∀ abiObj : ABI,
      (AddContractABI t contractName (some abiObj)).2 = none ∧
      (AddContractABI t contractName (some abiObj)).1.contractAbiMap.get contractName
        = some abiObj ∧
      (∀ other, other ≠ contractName →
        (AddContractABI t contractName (some abiObj)).1.contractAbiMap.get other
          = t.contractAbiMap.get other) ∧
      (∀ name, GetActionStruct (AddContractABI t contractName (some abiObj)).1 contractName name
        = actionLoop abiObj.Structs name abiObj.Actions) ∧
      (AddContractABI t contractName (some abiObj)).1.abiMap = t.abiMap ∧
      (AddContractABI t contractName (some abiObj)).1.baseTypeMap = t.baseTypeMap ∧
      (AddContractABI t contractName (some abiObj)).1.contractName = t.contractName) ∧
    (∃ e, AddContractABI t contractName none = (t, some e)) := by
  refine ⟨?_, ⟨_, rfl⟩⟩
  intro abiObj
  have hget : (AddContractABI t contractName (some abiObj)).1.contractAbiMap.get contractName
      = some abiObj := by
    simp [AddContractABI, GoMap.get, GoMap.set, List.lookup]
  refine ⟨rfl, hget, ?_, ?_, rfl, rfl, rfl⟩
  · intro other hne
    have hb : (other == contractName) = false := by simpa using hne
    simp [AddContractABI, GoMap.get, GoMap.set, List.lookup, hb]
  · intro name
    unfold GetActionStruct
    rw [hget]

/-- Registering the demo ABI under `hello` replaces the token ABI and leaves `demo` alone. -/
theorem AddContractABI_frame_witness :
    (AddContractABI refSerializer "hello" (some demoAbi)).1.contractAbiMap.get "hello"
      = some demoAbi ∧
    (AddContractABI refSerializer "hello" (some demoAbi)).1.contractAbiMap.get "demo"
      = refSerializer.contractAbiMap.get "demo" ∧
    GetActionStruct (AddContractABI refSerializer "hello" (some demoAbi)).1 "hello" "transfer"
      = none :=
  ⟨((AddContractABI_frame refSerializer "hello").1 demoAbi).2.1,
    ((AddContractABI_frame refSerializer "hello").1 demoAbi).2.2.1 "demo" (by decide),
    rfl⟩

/-! ## C9 -/

/-- C10: for a field whose declared type is neither a primitive nor a struct and ends in the
array suffix, once the unsigned-varint count `n` is read, unpacking decodes exactly `n`
elements of the stripped type, one after the other (`ReadSeq`), as primitives if the
stripped type is a primitive and else as fresh records of the struct it resolves to, sets the
list of these `n` values, in read order, under the field name and goes on with the next field;
and it fails with the unknown-type error when the stripped type is neither. -/
theorem unpack_array_field (d : Deps) (t : ABISerializer) (fuel : Nat) (contractName : String)
    (S : ABIStruct) (f : ABIStructField) (rest : List ABIStructField) (result : OrderedMap)
    (dec dec1 : Decoder) (n : Nat)
    (hS : S.Fields = f :: rest)
    (hprim : f.Typ ∉ t.baseTypeMap) (hstruct : GetAbiStruct t contractName f.Typ = .ok none)
    (hsuf : hasArraySuffix f.Typ = true)
    (hcount : Decoder.UnpackVarUint32 dec = (.ok n, dec1)) :
    (trimArraySuffix f.Typ ∈ t.baseTypeMap →
      (∀ vs dec2, vs.length = n →
        ReadSeq (unpackAbiStructField d (trimArraySuffix f.Typ)) dec1 vs dec2 →
        unpackAbiStruct d t fuel contractName S result dec =
          unpackAbiStruct d t fuel contractName { S with Fields := rest }
            (omSet result f.Name (.arr vs)) dec2) ∧
      (∀ r dec3, unpackAbiStruct d t fuel contractName S result dec = (.ok r, dec3) →
        ∃ vs dec2, vs.length = n ∧
          ReadSeq (unpackAbiStructField d (trimArraySuffix f.Typ)) dec1 vs dec2 ∧
          unpackAbiStruct d t fuel contractName { S with Fields := rest }
            (omSet result f.Name (.arr vs)) dec2 = (.ok r, dec3))) ∧
    (trimArraySuffix f.Typ ∉ t.baseTypeMap →
      ∀ sub, GetAbiStruct t contractName (trimArraySuffix f.Typ) = .ok (some sub) →
      (∀ vs dec2, vs.length = n →
        ReadSeq (unpackStructElem (unpackNested d t fuel contractName sub)) dec1 vs dec2 →
        unpackAbiStruct d t fuel contractName S result dec =
          unpackAbiStruct d t fuel contractName { S with Fields := rest }
            (omSet result f.Name (.arr vs)) dec2) ∧
      (∀ r dec3, unpackAbiStruct d t fuel contractName S result dec = (.ok r, dec3) →
        ∃ vs dec2, vs.length = n ∧
          ReadSeq (unpackStructElem (unpackNested d t fuel contractName sub)) dec1 vs dec2 ∧
          unpackAbiStruct d t fuel contractName { S with Fields := rest }
            (omSet result f.Name (.arr vs)) dec2 = (.ok r, dec3))) ∧
    (trimArraySuffix f.Typ ∉ t.baseTypeMap →
      GetAbiStruct t contractName (trimArraySuffix f.Typ) = .ok none →
      unpackAbiStruct d t fuel contractName S result dec =
        (.error (.error (.unknownType (trimArraySuffix f.Typ))), dec1)) := by
  have hbody := unpackField_array d t (unpackNested d t fuel contractName) contractName f dec
    dec1 n hprim hstruct hsuf hcount
  simp only [unpackAbiStruct_eq, hS]
  refine ⟨?_, ?_, ?_⟩
  · intro hb
    rw [if_pos hb] at hbody
    exact array_field_steps d t _ contractName f rest result dec dec1 n _ hbody
  · intro hb sub hg
    rw [if_neg hb, hg] at hbody
    exact array_field_steps d t _ contractName f rest result dec dec1 n _ hbody
  · intro hb hg
    rw [if_neg hb, hg] at hbody
    rw [unpackFields, hbody]

/-- For `uint64[]` the bytes 03 and 1, 2, 3 as 8-byte little-endian integers unpack to the list 1, 2, 3. -/
theorem unpack_array_field_witness :
    Decoder.UnpackVarUint32 packedIds = (.ok 3, packedIds.drop 1) ∧
    unpackAbiStruct refDeps refSerializer 0 "demo" idsStruct [] packedIds =
      (.ok [("ids", .arr [.uint 1, .uint 2, .uint 3])], []) :=
  ⟨rfl, ((unpack_array_field refDeps refSerializer 0 "demo" idsStruct ⟨"ids", "uint64[]"⟩ [] []
    packedIds (packedIds.drop 1) 3 rfl (by decide) rfl rfl rfl).1 (by decide)).1
      [.uint 1, .uint 2, .uint 3] [] rfl
      (ReadSeq.cons _ ((packedIds.drop 1).drop 8) _ _ _ rfl
        (ReadSeq.cons _ ((packedIds.drop 1).drop 16) _ _ _ rfl
          (ReadSeq.cons _ [] _ _ _ rfl (ReadSeq.nil _))))⟩

/-! ## C11 -/

/-- C11: at the failing input the array is packed to no bytes at all: `ParseAbiValue` sends
every slice to `PackArrayAbiValue`, which writes nothing and returns nil, so the field `ids`
of type `uint64[]` with the value `[1,2,3]` contributes nothing, alone or after the field
`level`; the bytes of the claim, the count 3 and then 1, 2 and 3 on 8 bytes each, are what
unpacking turns into `[1,2,3]`, and unpacking what was packed fails. -/
theorem array_field_packs_nothing :
    (∀ (d : Deps) (t : ABISerializer) (fuel : Nat) (typ : String) (vs : List AbiValue),
      ParseAbiValue d t fuel typ (.arr vs) = .wrote []) ∧
    PackAbiStruct refDeps { refSerializer with contractName := "demo" } 0 "demo" (some idsStruct)
        [("ids", .arr [.str (txt "1"), .str (txt "2"), .str (txt "3")])] = .wrote [] ∧
    PackActionArgs refDeps refSerializer 0 "demo" "sample"
        (some (.obj [("level", .lit (txt "7")),
          ("ids", .arr [.lit (txt "1"), .lit (txt "2"), .lit (txt "3")])])) = .ok [7] ∧
    PackVarUint32 3 ++ (PackInt 64 1 ++ PackInt 64 2 ++ PackInt 64 3) = packedIds ∧
    UnpackAbiStruct refDeps refSerializer 0 "demo" idsStruct packedIds
      = .ok [("ids", .arr [.uint 1, .uint 2, .uint 3])] ∧
    UnpackAbiStruct refDeps refSerializer 0 "demo" idsStruct []
      = .error (.error (.decoder "varuint past the end")) := by
  refine ⟨?_, rfl, rfl, rfl, rfl, rfl⟩
  intro d t fuel typ vs
  cases fuel <;> rfl

/-! ## C12 -/

/-- C12: at the failing input, a struct with one `uint8` field and no bytes to read, the byte
decoder fails with its read error and `UnpackAbiStruct` returns the unknown-type error
instead, for the loop goes on to the struct and array lookups when the primitive fails; the
array loop does return the error of the decoder for the same element type; and when the
contract declares a struct under the name `uint8`, unpacking succeeds on the empty input. -/
theorem primitive_decode_error_lost :
    unpackAbiStructField refDeps "uint8" []
      = (.error (.error (.decoder "read past the end")), []) ∧
    UnpackAbiStruct refDeps refSerializer 0 "demo" levelStruct []
      = .error (.error (.unknownType "uint8")) ∧
    UnpackAbiStruct refDeps refSerializer 0 "demo" levelsStruct [1]
      = .error (.error (.decoder "read past the end")) ∧
    UnpackAbiStruct refDeps shadowSerializer 1 "shadow" levelStruct []
      = .ok [("level", .obj [])] :=
  ⟨rfl, rfl, rfl, rfl⟩

/-! ## C13 -/

/-- C13: `PackAbiStruct`, `unpackAbiStruct` and `UnpackAbiStruct` give the same result for a
struct and for the struct with its base replaced by any name; and so they do when the base of
every struct of the registry and of the system ABI is replaced, for the nested structs are
walked by their fields as well. -/
theorem walker_ignores_base (d : Deps) (t : ABISerializer) (fuel : Nat) (contractName : String)
    (S : ABIStruct) (base : String) (m : GoMap AbiValue) (result : OrderedMap) (dec : Decoder)
    (g : ABIStruct → String) :
    PackAbiStruct d t fuel contractName (some { S with Base := base }) m
      = PackAbiStruct d t fuel contractName (some S) m ∧
    unpackAbiStruct d t fuel contractName { S with Base := base } result dec
      = unpackAbiStruct d t fuel contractName S result dec ∧
    UnpackAbiStruct d t fuel contractName { S with Base := base } dec
      = UnpackAbiStruct d t fuel contractName S dec ∧
    PackAbiStruct d (rebaseSerializer g t) fuel contractName (some (rebaseStruct g S)) m
      = PackAbiStruct d t fuel contractName (some S) m ∧
    unpackAbiStruct d (rebaseSerializer g t) fuel contractName (rebaseStruct g S) result dec
      = unpackAbiStruct d t fuel contractName S result dec := by
  have h2 : ∀ r0 dec0, unpackAbiStruct d t fuel contractName { S with Base := base } r0 dec0
      = unpackAbiStruct d t fuel contractName S r0 dec0 := by
    intro r0 dec0
    rw [unpackAbiStruct_eq, unpackAbiStruct_eq]
  refine ⟨rfl, h2 result dec, ?_, ?_, ?_⟩
  · unfold UnpackAbiStruct
    rw [h2]
  · exact packFields_parse_congr _ _ m (ParseAbiValue_rebase d g t fuel) S.Fields
  · exact unpackAbiStruct_rebase d g t contractName fuel (rebaseStruct g S) S rfl result dec

/-! ## C14 -/

/-- C14: at the failing input `1.5000 EOS`, a text of the form with a valid code and an amount
that fits, the asset case of `ParseAbiStringValue` returns the invalid-value error and writes
nothing, where the claim has the 16 bytes of the amount 15000, the precision 4 and the code
`EOS`; these 16 bytes are what the asset case of the unpacker renders as `1.5000 EOS`.  Every
text of digits, a point, digits of a value other than zero, a space and a valid code is rejected
in the same way, while `1.0000 EOS` is packed to `10 27 00 00 00 00 00 00 04 45 4f 53` and
four NUL bytes. -/
theorem asset_pack_rejects_fraction :
    IsSymbolValid (txt "EOS") = true ∧ digitsValue 0 (txt "15000") < 2 ^ 63 ∧
    ParseAbiStringValue refDeps "asset" (quoted (txt "1.5000 EOS"))
      = PackRes.fail (.invalidValue "asset" (txt "1.5000 EOS")) ∧
    unpackAbiStructField refDeps "asset" (leBytes 8 15000 ++ 4 :: copyInto 7 (txt "EOS"))
      = (.ok (.str (txt "1.5000 EOS")), []) ∧
    ParseAbiStringValue refDeps "asset" (quoted (txt "1.0000 EOS"))
      = .wrote (leBytes 8 10000 ++ 4 :: copyInto 7 (txt "EOS")) ∧
    leBytes 8 10000 ++ 4 :: copyInto 7 (txt "EOS")
      = [0x10, 0x27] ++ List.replicate 6 0 ++ [0x04, 0x45, 0x4f, 0x53] ++ List.replicate 4 0 ∧
    (∀ (d : Deps) (a0 a1 code : Bytes), a0.all isDigit = true → a1.all isDigit = true →
      IsSymbolValid code = true → digitsValue 0 a1 ≠ 0 →
      ParseAbiStringValue d "asset" (quoted ((a0 ++ 46 :: a1) ++ 32 :: code))
        = PackRes.fail (.invalidValue "asset" ((a0 ++ 46 :: a1) ++ 32 :: code))) := by
  refine ⟨rfl, by decide, rfl, rfl, rfl, rfl, ?_⟩
  intro d a0 a1 code h0 h1 hcode hval
  have h32 : (32 : Nat) ∉ code := fun h => by
    rcases IsSymbolValid_mem code hcode 32 h with hx | hx <;> omega
  have hp := ParseAsset_digits d a0 a1 code h0 h1 h32
  rw [if_neg (fun hc => hval hc.2.2.2.2.1)] at hp
  rw [asset_case]
  unfold quoted
  rw [StripString_quoted]
  simp only [hp]

/-! ## C15 -/

/-- C15 (the claim as stated fails): the asset case accepts the texts `01.0 EOS` and `+1.0 EOS` and the
text `1.0 EOS` followed by a NUL byte, packs each of them to the bytes of `1.0 EOS`, and these
bytes are unpacked to `1.0 EOS`. -/
theorem asset_roundtrip_counterexample :
    ParseAbiStringValue refDeps "asset" (quoted (txt "01.0 EOS"))
      = .wrote (leBytes 8 10 ++ 1 :: copyInto 7 (txt "EOS")) ∧
    ParseAbiStringValue refDeps "asset" (quoted (txt "+1.0 EOS"))
      = .wrote (leBytes 8 10 ++ 1 :: copyInto 7 (txt "EOS")) ∧
    ParseAbiStringValue refDeps "asset" (quoted (txt "1.0 EOS" ++ [0]))
      = .wrote (leBytes 8 10 ++ 1 :: copyInto 7 (txt "EOS")) ∧
    unpackAbiStructField refDeps "asset" (leBytes 8 10 ++ 1 :: copyInto 7 (txt "EOS"))
      = (.ok (.str (txt "1.0 EOS")), []) :=
  ⟨rfl, rfl, rfl, rfl⟩

/-- C15 (amended): when the asset case accepts a text made of a digit string without a sign and
without a redundant leading zero, a point, a digit string of at most 18 digits (or of at most
255 digits with a non-zero converted power of ten), a space and a code of upper case letters
only, the packed bytes are 16 and unpacking them as an asset returns the text that was
packed. -/
theorem asset_roundtrip_canonical (d : Deps) (a0 a1 code r rest : Bytes)
    (hacc : ParseAbiStringValue d "asset" (quoted ((a0 ++ 46 :: a1) ++ 32 :: code)) = .wrote r)
    (hdig0 : a0.all isDigit = true) (hcanon : a0 = [48] ∨ a0.head? ≠ some 48)
    (hdig1 : a1.all isDigit = true)
    (hk : a1.length ≤ 18 ∨ (a1.length ≤ 255 ∧ d.pow10Overflow a1.length ≠ 0))
    (hcode : upperOnly code = true) :
    r.length = 16 ∧
    unpackAbiStructField d "asset" (r ++ rest)
      = (.ok (.str ((a0 ++ 46 :: a1) ++ 32 :: code)), rest) := by
  have hcu := upperOnly_mem code hcode
  have h32 : (32 : Nat) ∉ code := fun h => by have := hcu 32 h; omega
  have hp := ParseAsset_digits d a0 a1 code hdig0 hdig1 h32
  rw [asset_case] at hacc
  unfold quoted at hacc
  rw [StripString_quoted] at hacc
  simp only [hp] at hacc
  by_cases hcond : IsSymbolValid code = true ∧
      (d.ParseFloat (a0 ++ 46 :: a1) 64).isSome = true ∧
      a0 ≠ [] ∧ a1 ≠ [] ∧ digitsValue 0 a1 = 0 ∧ digitsValue 0 (a0 ++ a1) < 2 ^ 63
  · rw [if_pos hcond] at hacc
    obtain ⟨hvalid, _, hne0, hne1, hzero, hfit⟩ := hcond
    have hr : PackInt 64 (digitsValue 0 (a0 ++ a1) : Int) ++ [a1.length % 256]
        ++ copyInto 7 code = r := by
      simpa [PackRes.wrote] using hacc
    have ha1 := digits_of_value_zero a1 hdig1 hzero
    have hk1 : 1 ≤ a1.length := by
      cases a1 with
      | nil => exact absurd rfl hne1
      | cons c cs => simp
    have hk255 : a1.length % 256 = a1.length := Nat.mod_eq_of_lt (by omega)
    have hs7 : code.length ≤ 7 := ((IsSymbolValid_iff code).mp hvalid).2.1
    have hval : digitsValue 0 (a0 ++ a1) = digitsValue 0 a0 * 10 ^ a1.length := by
      rw [digitsValue_append]
      conv_lhs => rw [ha1]
      rw [digitsValue_zeros]
    have hk2 : a1.length ≤ 18 ∨ d.pow10Overflow a1.length ≠ 0 := by
      rcases hk with h | h
      · exact Or.inl h
      · exact Or.inr h.2
    rw [← hr, hk255, hval]
    constructor
    · rw [PackInt64_nat _ (by rw [← hval]; exact hfit)]
      simp [length_leBytes, length_copyInto]
    · rw [unpack_asset_case]
      have := unpackAsset_canonical d a0 a1.length code rest hne0 hdig0 hcanon hk1 hk2
        (by rw [← hval]; exact hfit) hcode hs7
      rw [this]
      unfold assetText
      rw [← ha1]
  · rw [if_neg hcond] at hacc
    simp [PackRes.fail, PackRes.wrote] at hacc

/-- The text `1.0000 EOS` is accepted, packed to 16 bytes and unpacked to `1.0000 EOS`. -/
theorem asset_roundtrip_canonical_witness :
    ParseAbiStringValue refDeps "asset" (quoted ((txt "1" ++ 46 :: txt "0000") ++ 32 :: txt "EOS"))
      = .wrote (leBytes 8 10000 ++ 4 :: copyInto 7 (txt "EOS")) ∧
    (leBytes 8 10000 ++ 4 :: copyInto 7 (txt "EOS")).length = 16 ∧
    unpackAbiStructField refDeps "asset" ((leBytes 8 10000 ++ 4 :: copyInto 7 (txt "EOS")) ++ [])
      = (.ok (.str ((txt "1" ++ 46 :: txt "0000") ++ 32 :: txt "EOS")), []) :=
  ⟨rfl, asset_roundtrip_canonical refDeps (txt "1") (txt "0000") (txt "EOS")
    (leBytes 8 10000 ++ 4 :: copyInto 7 (txt "EOS")) [] rfl rfl (by decide) rfl
    (Or.inl (by decide)) rfl⟩

/-! ## C16 -/

set_option maxRecDepth 100000 in
/-- C16: at the failing input, the amount -15000 with precision 4 and code `EOS`, unpacking
returns `-1.-5000 EOS`, with a second minus sign before the fraction digits, where the claim
has `-1.5000 EOS`; the amount -5000 gives `0.-5000 EOS`; the amount 15000 gives
`1.5000 EOS`. -/
theorem asset_unpack_negative_amount :
    unpackAbiStructField refDeps "asset" (PackInt 64 (-15000) ++ 4 :: copyInto 7 (txt "EOS"))
      = (.ok (.str (txt "-1.-5000 EOS")), []) ∧
    unpackAbiStructField refDeps "asset" (PackInt 64 (-5000) ++ 4 :: copyInto 7 (txt "EOS"))
      = (.ok (.str (txt "0.-5000 EOS")), []) ∧
    unpackAbiStructField refDeps "asset" (PackInt 64 15000 ++ 4 :: copyInto 7 (txt "EOS"))
      = (.ok (.str (txt "1.5000 EOS")), []) ∧
    (PackInt 64 (-15000) ++ 4 :: copyInto 7 (txt "EOS")).length = 16 :=
  ⟨rfl, rfl, rfl, rfl⟩

/-! ## C17 -/

/-- C17: `IsSymbolValid s` is true exactly when `s` has between 1 and 7 bytes and is a run of
upper case letters followed by a run of NUL bytes; hence a text with a byte that is neither an
upper case letter nor NUL (a lower case letter, a digit), a text of more than 7 bytes and a
text with a NUL before a byte other than NUL are invalid; and the asset, symbol and
symbol_code cases of `ParseAbiStringValue` succeed only on a text whose code part is valid. -/
theorem IsSymbolValid_spec :
    (∀ s, IsSymbolValid s = true ↔
      1 ≤ s.length ∧ s.length ≤ 7 ∧
        ∃ u z, s = u ++ List.replicate z 0 ∧ upperOnly u = true) ∧
    (∀ s c, c ∈ s → c ≠ 0 → ¬ (65 ≤ c ∧ c ≤ 90) → IsSymbolValid s = false) ∧
    (∀ s, 7 < s.length → IsSymbolValid s = false) ∧
    (∀ pre post c, c ∈ post → c ≠ 0 → IsSymbolValid (pre ++ 0 :: post) = false) ∧
    (∀ d raw, (ParseAbiStringValue d "asset" raw).fault = none →
      ∃ v amount code, StripString raw = some v ∧ List.splitOn 32 v = [amount, code] ∧
        IsSymbolValid code = true) ∧
    (∀ d raw, (ParseAbiStringValue d "symbol" raw).fault = none →
      ∃ v v0 v1, StripString raw = some v ∧ List.splitOn 44 v = [v0, v1] ∧
        IsSymbolValid v1 = true) ∧
    (∀ d raw, (ParseAbiStringValue d "symbol_code" raw).fault = none →
      ∃ v, StripString raw = some v ∧ IsSymbolValid v = true) := by
  refine ⟨IsSymbolValid_iff, ?_, ?_, ?_, ?_, ?_, ?_⟩
  · intro s c hc h0 hu
    cases hv : IsSymbolValid s with
    | false => rfl
    | true =>
      rcases IsSymbolValid_mem s hv c hc with h | h
      · exact absurd h h0
      · exact absurd h hu
  · intro s h
    unfold IsSymbolValid
    rw [if_pos (Or.inl h)]
  · intro pre post c hc h0
    unfold IsSymbolValid
    by_cases hl : (pre ++ 0 :: post).length > 7 ∨ (pre ++ 0 :: post).length ≤ 0
    · rw [if_pos hl]
    · rw [if_neg hl]
      exact symbolLoop_nul_then_other post c hc h0 pre
  · intro d raw h
    rw [asset_case] at h
    cases hs : StripString raw with
    | none => simp [hs, PackRes.fail] at h
    | some v =>
      simp only [hs] at h
      cases hp : ParseAsset d v with
      | none => simp [hp, PackRes.fail] at h
      | some r =>
        obtain ⟨amount, code, hsp, hv⟩ := ParseAsset_some_valid d v r hp
        exact ⟨v, amount, code, rfl, hsp, hv⟩
  · intro d raw h
    obtain ⟨v, v0, v1, _, hs, hsp, _, _, hv, _⟩ := symbol_ok d raw h
    exact ⟨v, v0, v1, hs, hsp, hv⟩
  · intro d raw h
    rw [symbol_code_case] at h
    cases hs : StripString raw with
    | none => simp [hs, PackRes.fail] at h
    | some v =>
      simp only [hs] at h
      by_cases hv : IsSymbolValid v = false
      · rw [if_pos hv] at h
        exact absurd h (by simp [PackRes.fail])
      · exact ⟨v, rfl, by simpa using hv⟩

/-- The code `EOS` is valid; `EOs`, `E0S`, an eight letter code and `E`, NUL, `S` are not;
the asset, symbol and symbol_code texts with the code `EOs` are rejected. -/
theorem IsSymbolValid_spec_witness :
    IsSymbolValid (txt "EOS") = true ∧
    IsSymbolValid (txt "EOs") = false ∧
    IsSymbolValid (txt "E0S") = false ∧
    IsSymbolValid (txt "ABCDEFGH") = false ∧
    IsSymbolValid ([69] ++ 0 :: [83]) = false ∧
    (ParseAbiStringValue refDeps "asset" (txt "\"1.0000 EOs\"")).fault ≠ none ∧
    (ParseAbiStringValue refDeps "symbol" (txt "\"4,EOs\"")).fault ≠ none ∧
    (ParseAbiStringValue refDeps "symbol_code" (txt "\"EOs\"")).fault ≠ none :=
  ⟨(IsSymbolValid_spec.1 (txt "EOS")).mpr
      ⟨by decide, by decide, txt "EOS", 0, rfl, rfl⟩,
    IsSymbolValid_spec.2.1 (txt "EOs") 115 (by decide) (by decide) (by decide),
    IsSymbolValid_spec.2.1 (txt "E0S") 48 (by decide) (by decide) (by decide),
    IsSymbolValid_spec.2.2.1 (txt "ABCDEFGH") (by decide),
    IsSymbolValid_spec.2.2.2.1 [69] [83] 83 (by decide) (by decide),
    by decide, by decide, by decide⟩

/-! ## C18 -/

/-- C18: whenever the symbol case of `ParseAbiStringValue` succeeds it writes 7 bytes, the code
padded with NUL, and no precision byte; at the failing input `4,EOS` it writes `EOS` and four
NUL bytes, which the symbol case of the unpacker, reading 8 bytes, cannot read. -/
theorem symbol_pack_omits_precision :
    (∀ (d : Deps) (raw : Bytes), (ParseAbiStringValue d "symbol" raw).fault = none →
      ∃ v v0 v1, StripString raw = some v ∧ List.splitOn 44 v = [v0, v1] ∧
        (ParseAbiStringValue d "symbol" raw).out = copyInto 7 v1 ∧
        (ParseAbiStringValue d "symbol" raw).out.length = 7) ∧
    ParseAbiStringValue refDeps "symbol" (quoted (txt "4,EOS"))
      = .wrote (txt "EOS" ++ List.replicate 4 0) ∧
    unpackAbiStructField refDeps "symbol" (txt "EOS" ++ List.replicate 4 0)
      = (.error (.error (.decoder "read past the end")), txt "EOS" ++ List.replicate 4 0) := by
  refine ⟨?_, rfl, rfl⟩
  intro d raw h
  obtain ⟨v, v0, v1, _, hs, hsp, _, _, _, hw⟩ := symbol_ok d raw h
  refine ⟨v, v0, v1, hs, hsp, ?_, ?_⟩
  · rw [hw]
    rfl
  · rw [hw]
    exact length_copyInto 7 v1

/-! ## C19 -/

/-- C19: the symbol case of the unpacker returns the code first and the precision second: the
8 bytes of a precision `p` and a code `c` of upper case letters padded to 7 bytes are unpacked
to `c,p`; at the failing input, precision 4 and code `EOS`, the text is `EOS,4`, which the
symbol case of the packer rejects, while it accepts `4,EOS`. -/
theorem symbol_unpack_code_first :
    (∀ (d : Deps) (p : Nat) (code rest : Bytes), upperOnly code = true → code.length ≤ 7 →
      unpackAbiStructField d "symbol" ((p :: copyInto 7 code) ++ rest)
        = (.ok (.str (code ++ txt "," ++ fmtNat p)), rest)) ∧
    unpackAbiStructField refDeps "symbol" (4 :: copyInto 7 (txt "EOS"))
      = (.ok (.str (txt "EOS,4")), []) ∧
    (ParseAbiStringValue refDeps "symbol" (quoted (txt "EOS,4"))).fault
      = some (.error (.lib "strconv.ParseUint")) ∧
    (ParseAbiStringValue refDeps "symbol" (quoted (txt "4,EOS"))).fault = none := by
  refine ⟨?_, rfl, rfl, rfl⟩
  intro d p code rest hcode h7
  have hcase : unpackAbiStructField d "symbol" ((p :: copyInto 7 code) ++ rest) =
      (match Decoder.read ((p :: copyInto 7 code) ++ rest) 8 with
       | (.ok buf, rest) =>
         (.ok (.str (trimRightNul (buf.drop 1) ++ txt "," ++ fmtNat (buf.headD 0))), rest)
       | (.error e, rest) => (.error e, rest)) := rfl
  rw [hcase, read_append _ _ 8 (by simp [length_copyInto])]
  simp only [List.drop_succ_cons, List.drop_zero, List.headD_cons]
  rw [copyInto_short 7 code h7,
    trimRightNul_padded code _ (fun c hc => by have := upperOnly_mem code hcode c hc; omega)]

/-! ## C20 -/

/-- C20: the int64 case of `ParseAbiStringValue` never writes a byte: at the failing input `5`
it succeeds and the encoder stays empty, so the struct with the fields `a: uint8` and
`b: int64` packs to the one byte of `a`, as the struct without `b` does; the int64 case of the
unpacker reads 8 bytes and fails on fewer. -/
theorem int64_pack_writes_nothing :
    (∀ (d : Deps) (v : Bytes), (ParseAbiStringValue d "int64" v).out = []) ∧
    ParseAbiStringValue refDeps "int64" (txt "5") = .wrote [] ∧
    PackAbiStruct refDeps { refSerializer with contractName := "demo" } 0 "demo" (some pairStruct)
        [("a", .str (txt "7")), ("b", .str (txt "5"))] = .wrote [7] ∧
    PackAbiStruct refDeps { refSerializer with contractName := "demo" } 0 "demo"
        (some singleStruct) [("a", .str (txt "7"))] = .wrote [7] ∧
    unpackAbiStructField refDeps "int64" (PackInt 64 5) = (.ok (.int 5), []) ∧
    (PackInt 64 5).length = 8 ∧
    unpackAbiStructField refDeps "int64" []
      = (.error (.error (.decoder "read past the end")), []) := by
  refine ⟨?_, rfl, rfl, rfl, rfl, rfl, rfl⟩
  intro d v
  have hcase : ParseAbiStringValue d "int64" v =
      (match StringToInt v with
       | none => PackRes.fail (.lib "strconv.Atoi")
       | some n =>
         if n > 9223372036854775807 ∨ n < -9223372036854775808
         then PackRes.fail (.overflow "int64" n)
         else .wrote []) := rfl
  rw [hcase]
  cases StringToInt v with
  | none => rfl
  | some n =>
    simp only
    split <;> rfl


/-! ## C21 -/

/-- C21: for each of the types int8, uint8, int16, uint16, int32, uint32 and every text,
`ParseAbiStringValue` succeeds exactly when the text is a decimal integer literal whose value
lies in the range of the type; then it writes the value on as many bytes as the type is wide,
in little-endian order (the bytes decode to the value); and when it fails it returns an error
and writes nothing. -/
theorem fixed_int_pack (d : Deps) (T : String) (signed : Bool) (bits : Nat) (v : Bytes)
    (hT : (T, signed, bits) ∈ fixedIntTypes) :
    ((ParseAbiStringValue d T v).fault = none ↔
      ∃ n, IsDecimalLiteral v n ∧ intMin signed bits ≤ n ∧ n ≤ intMax signed bits) ∧
    (∀ n, IsDecimalLiteral v n → intMin signed bits ≤ n → n ≤ intMax signed bits →
      ParseAbiStringValue d T v = .wrote (PackInt bits n) ∧
      (PackInt bits n).length = bits / 8 ∧
      leDecode signed bits (PackInt bits n) = n) ∧
    ((ParseAbiStringValue d T v).fault ≠ none →
      (ParseAbiStringValue d T v).out = [] ∧
        ∃ e, (ParseAbiStringValue d T v).fault = some (.error e)) := by
  have hlen : ∀ n, (PackInt bits n).length = bits / 8 := fun n => length_leBytes _ _
  have hsb : (signed, bits) ∈ [(true, 8), (false, 8), (true, 16), (false, 16), (true, 32),
      (false, 32)] := by
    unfold fixedIntTypes at hT
    simp only [List.mem_cons, Prod.mk.injEq, List.mem_singleton, List.not_mem_nil,
      or_false] at hT ⊢
    rcases hT with h | h | h | h | h | h
    · exact Or.inl h.2
    · exact Or.inr (Or.inl h.2)
    · exact Or.inr (Or.inr (Or.inl h.2))
    · exact Or.inr (Or.inr (Or.inr (Or.inl h.2)))
    · exact Or.inr (Or.inr (Or.inr (Or.inr (Or.inl h.2))))
    · exact Or.inr (Or.inr (Or.inr (Or.inr (Or.inr h.2))))
  have hcase : ∃ lo hi, ParseAbiStringValue d T v = packRanged T bits lo hi v ∧
      lo = intMin signed bits ∧ hi = intMax signed bits ∧
      -(2 : Int) ^ 63 ≤ lo ∧ hi < (2 : Int) ^ 63 := by
    unfold fixedIntTypes at hT
    simp only [List.mem_cons, Prod.mk.injEq, List.mem_singleton, List.not_mem_nil,
      or_false] at hT
    rcases hT with ⟨ht, hs, hw⟩ | ⟨ht, hs, hw⟩ | ⟨ht, hs, hw⟩ | ⟨ht, hs, hw⟩ |
      ⟨ht, hs, hw⟩ | ⟨ht, hs, hw⟩ <;> subst ht <;> subst hs <;> subst hw
    · exact ⟨-128, 127, rfl, by norm_num [intMin], by norm_num [intMax], by norm_num,
        by norm_num⟩
    · exact ⟨0, 255, rfl, by norm_num [intMin], by norm_num [intMax], by norm_num,
        by norm_num⟩
    · exact ⟨-32768, 32767, rfl, by norm_num [intMin], by norm_num [intMax], by norm_num,
        by norm_num⟩
    · exact ⟨0, 65535, rfl, by norm_num [intMin], by norm_num [intMax], by norm_num,
        by norm_num⟩
    · exact ⟨-2147483648, 2147483647, rfl, by norm_num [intMin], by norm_num [intMax],
        by norm_num, by norm_num⟩
    · exact ⟨0, 4294967295, rfl, by norm_num [intMin], by norm_num [intMax], by norm_num,
        by norm_num⟩
  obtain ⟨lo, hi, hp, hlo, hhi, hb1, hb2⟩ := hcase
  obtain ⟨h1, h2, h3⟩ := packRanged_spec T bits lo hi v hb1 hb2
  rw [hp]
  subst hlo
  subst hhi
  refine ⟨h1, ?_, h3⟩
  intro n hl hn1 hn2
  exact ⟨h2 n hl hn1 hn2, hlen n, leDecode_PackInt signed bits n hsb hn1 hn2⟩

/-- As `uint8` the text `255` is packed to the byte 255 and the text `256` is rejected with
nothing written; as `uint16` the text `-1` is rejected; as `int16` it is packed to ff ff. -/
theorem fixed_int_pack_witness :
    ("uint8", false, 8) ∈ fixedIntTypes ∧
    IsDecimalLiteral (txt "255") 255 ∧
    ParseAbiStringValue refDeps "uint8" (txt "255") = .wrote [255] ∧
    ParseAbiStringValue refDeps "uint8" (txt "256")
      = PackRes.fail (.overflow "uint8" 256) ∧
    ParseAbiStringValue refDeps "uint16" (txt "-1")
      = PackRes.fail (.overflow "uint16" (-1)) ∧
    ParseAbiStringValue refDeps "int16" (txt "-1") = .wrote [255, 255] ∧
    ParseAbiStringValue refDeps "int8" (txt "x")
      = PackRes.fail (.lib "strconv.Atoi") :=
  have hlit : IsDecimalLiteral (txt "255") 255 :=
    ⟨txt "255", by decide, rfl, Or.inl ⟨Or.inl rfl, rfl⟩⟩
  ⟨by decide, hlit,
    ((fixed_int_pack refDeps "uint8" false 8 (txt "255") (by decide)).2.1 255 hlit
      (by decide) (by decide)).1,
    rfl, rfl, rfl, rfl⟩

/-! ## C22 -/

/-- C22 (the claim as stated fails): as `int128` the text `0x01`, whose hex part decodes to
the one byte 01, is packed to 01 followed by 15 zero bytes, and not to 15 zero bytes followed
by 01. -/
theorem wide_pack_counterexample :
    hexDecode (txt "01") = some [1] ∧
    ParseAbiStringValue refDeps "int128" (quoted (txt "0x01"))
      = .wrote (1 :: List.replicate 15 0) ∧
    (ParseAbiStringValue refDeps "int128" (quoted (txt "0x01"))).out
      ≠ List.replicate 15 0 ++ [1] :=
  ⟨rfl, rfl, by decide⟩

/-- C22 (amended): for a quoted text `0x` followed by hex digits that decode to `k` bytes, the
128-bit case of `ParseAbiStringValue` writes, when `k` is at most 16, exactly 16 bytes, the
decoded bytes first and then `16 - k` zero bytes; and when `k` is more than 16 it returns an
error and writes nothing. -/
theorem wide_pack_right_padded (d : Deps) (T : String) (h bs : Bytes) (hT : T ∈ wideTypes)
    (hdec : hexDecode h = some bs) :
    (bs.length ≤ 16 →
      ParseAbiStringValue d T (quoted (txt "0x" ++ h))
        = .wrote (bs ++ List.replicate (16 - bs.length) 0) ∧
      (bs ++ List.replicate (16 - bs.length) 0).length = 16) ∧
    (16 < bs.length →
      ParseAbiStringValue d T (quoted (txt "0x" ++ h))
        = PackRes.fail (.invalidValue "int128" h)) := by
  have hcase := wide_case d T hT (quoted (txt "0x" ++ h))
  unfold quoted at hcase
  rw [StripString_quoted] at hcase
  have h2 : ¬ ((txt "0x" ++ h).length < 2) := by
    have : (txt "0x").length = 2 := rfl
    rw [List.length_append, this]
    omega
  have htake : (txt "0x" ++ h).take 2 = txt "0x" := rfl
  have hdrop : (txt "0x" ++ h).drop 2 = h := rfl
  simp only at hcase
  rw [if_neg h2, htake, if_neg (fun hx => hx rfl), hdrop, hdec] at hcase
  simp only at hcase
  unfold quoted
  constructor
  · intro hl
    rw [hcase, if_neg (by omega), copyInto_short 16 bs hl]
    refine ⟨rfl, ?_⟩
    rw [List.length_append, List.length_replicate]
    omega
  · intro hl
    rw [hcase, if_pos hl]

/-- As `uint128` the text `0x0102` is packed to 01 02 followed by 14 zero bytes. -/
theorem wide_pack_right_padded_witness :
    hexDecode (txt "0102") = some [1, 2] ∧
    ParseAbiStringValue refDeps "uint128" (quoted (txt "0x" ++ txt "0102"))
      = .wrote ([1, 2] ++ List.replicate (16 - 2) 0) :=
  ⟨rfl,
    ((wide_pack_right_padded refDeps "uint128" (txt "0102") [1, 2] (by decide) rfl).1
      (by decide)).1⟩

/-! ## C23 -/

/-- C23: at the failing inputs, the quoted empty text and the quoted text `0`, the 128-bit
case of `ParseAbiStringValue` panics: `StripString` accepts the text and `v[:2]` slices
beyond the one or zero bytes that are left; it does so for each of the three types. -/
theorem wide_pack_short_text_panics :
    StripString (txt "\"\"") = some [] ∧
    ParseAbiStringValue refDeps "int128" (txt "\"\"")
      = ⟨[], some (.panic "slice bounds out of range")⟩ ∧
    ParseAbiStringValue refDeps "int128" (txt "\"0\"")
      = ⟨[], some (.panic "slice bounds out of range")⟩ ∧
    (∀ (d : Deps) (T : String) (c : Bytes), T ∈ wideTypes → c.length < 2 →
      ParseAbiStringValue d T (quoted c) = ⟨[], some (.panic "slice bounds out of range")⟩) := by
  refine ⟨rfl, rfl, rfl, ?_⟩
  intro d T c hT hc
  rw [wide_case d T hT]
  unfold quoted
  rw [StripString_quoted]
  simp only
  rw [if_pos hc]

/-! ## C24 -/

/-- C24: for every text `s`, the name case of `ParseAbiStringValue` succeeds on the quoted
text exactly when `N2S (S2N s) = s`; then it writes the 8 bytes of `S2N s` in little-endian
order, and unpacking these bytes as a name returns `s`; otherwise it returns the
invalid-value error and writes nothing. -/
theorem name_pack (d : Deps) (s rest : Bytes) :
    ((ParseAbiStringValue d "name" (quoted s)).fault = none ↔ d.N2S (d.S2N s) = s) ∧
    (d.N2S (d.S2N s) = s →
      ParseAbiStringValue d "name" (quoted s) = .wrote (leBytes 8 (d.S2N s)) ∧
      (leBytes 8 (d.S2N s)).length = 8 ∧
      leValue (leBytes 8 (d.S2N s)) = d.S2N s ∧
      unpackAbiStructField d "name" (leBytes 8 (d.S2N s) ++ rest) = (.ok (.str s), rest)) ∧
    (d.N2S (d.S2N s) ≠ s →
      ParseAbiStringValue d "name" (quoted s) = PackRes.fail (.invalidValue "name" s)) := by
  have hle : PackInt 64 (d.S2N s : Int) = leBytes 8 (d.S2N s) := by
    unfold PackInt
    rw [toUnsigned_of_nonneg 64 _ (d.S2N_lt s)]
  have hok : d.N2S (d.S2N s) = s →
      ParseAbiStringValue d "name" (quoted s) = .wrote (leBytes 8 (d.S2N s)) := by
    intro h
    rw [pack_name d s h, hle]
  have hbad : d.N2S (d.S2N s) ≠ s →
      ParseAbiStringValue d "name" (quoted s) = PackRes.fail (.invalidValue "name" s) := by
    intro h
    have h1 : ParseAbiStringValue d "name" (quoted s) =
        (match StripString (quoted s) with
         | none => PackRes.fail (.invalidValue "name" [])
         | some v =>
           if d.N2S (d.S2N v) ≠ v then PackRes.fail (.invalidValue "name" v)
           else .wrote (PackInt 64 (d.S2N v))) := rfl
    rw [h1]
    unfold quoted
    rw [StripString_quoted]
    simp only
    rw [if_pos h]
  refine ⟨⟨?_, ?_⟩, ?_, hbad⟩
  · intro h
    by_contra hne
    rw [hbad hne] at h
    exact absurd h (by simp [PackRes.fail])
  · intro h
    rw [hok h]
    rfl
  · intro h
    refine ⟨hok h, length_leBytes _ _, ?_, ?_⟩
    · rw [leValue_leBytes]
      exact Nat.mod_eq_of_lt (by have := d.S2N_lt s; norm_num at this ⊢; exact this)
    · rw [← hle, unpack_name d (d.S2N s) rest (d.S2N_lt s), h]

/-- With the identifier codec of the ledger protocol the name `alice` is packed to 8 bytes
that unpack to `alice`, and the name `Alice` is rejected. -/
theorem name_pack_witness :
    refN2S (refS2N (txt "alice")) = txt "alice" ∧
    ParseAbiStringValue refDeps "name" (quoted (txt "alice"))
      = .wrote (leBytes 8 (refS2N (txt "alice"))) ∧
    unpackAbiStructField refDeps "name" (leBytes 8 (refS2N (txt "alice")) ++ [])
      = (.ok (.str (txt "alice")), []) ∧
    ParseAbiStringValue refDeps "name" (quoted (txt "Alice"))
      = PackRes.fail (.invalidValue "name" (txt "Alice")) :=
  ⟨by decide,
    ((name_pack refDeps (txt "alice") []).2.1 (by decide)).1,
    ((name_pack refDeps (txt "alice") []).2.1 (by decide)).2.2.2,
    (name_pack refDeps (txt "Alice") []).2.2 (by decide)⟩

/-! ## C25 -/

/-- C25: for checksum160, checksum256 and checksum512 with `N` = 20, 32 and 64,
`ParseAbiStringValue` fails exactly when the text is not a quoted string, or its content is
not a text of hexadecimal digits in even number, or the content decodes to more than `N`
bytes; when it fails it returns an error and writes nothing, and when it succeeds it writes
exactly `N` bytes, the decoded bytes followed by zero bytes. -/
theorem checksum_pack (d : Deps) (T : String) (N : Nat) (v : Bytes)
    (hT : (T, N) ∈ checksumTypes) :
    ((ParseAbiStringValue d T v).fault ≠ none ↔
      (¬ ∃ c, v = quoted c) ∨ (∃ c, v = quoted c ∧ ¬ IsHexText c) ∨
        (∃ c bs, v = quoted c ∧ hexDecode c = some bs ∧ N < bs.length)) ∧
    ((ParseAbiStringValue d T v).fault = none →
      ∃ c bs, v = quoted c ∧ hexDecode c = some bs ∧ 2 * bs.length = c.length ∧
        bs.length ≤ N ∧
        ParseAbiStringValue d T v = .wrote (bs ++ List.replicate (N - bs.length) 0) ∧
        (bs ++ List.replicate (N - bs.length) 0).length = N) ∧
    ((ParseAbiStringValue d T v).fault ≠ none →
      (ParseAbiStringValue d T v).out = [] ∧
        ∃ e, (ParseAbiStringValue d T v).fault = some (.error e)) := by
  have hcase : ParseAbiStringValue d T v = packChecksum T N v := by
    unfold checksumTypes at hT
    simp only [List.mem_cons, Prod.mk.injEq, List.mem_singleton, List.not_mem_nil,
      or_false] at hT
    rcases hT with ⟨rfl, rfl⟩ | ⟨rfl, rfl⟩ | ⟨rfl, rfl⟩ <;> rfl
  obtain ⟨h1, h2, h3⟩ := packChecksum_spec T N v
  rw [hcase]
  refine ⟨h1, ?_, h3⟩
  intro hok
  obtain ⟨c, bs, hv, hd, hlen, hle, hw⟩ := h2 hok
  refine ⟨c, bs, hv, hd, hlen, hle, hw, ?_⟩
  rw [List.length_append, List.length_replicate]
  omega

/-- As `checksum160` the quoted text `00ff` is packed to 00 ff and 18 zero bytes; the text
without quotes, the quoted text `0g` and a quoted text of 42 hex digits are rejected. -/
theorem checksum_pack_witness :
    ("checksum160", 20) ∈ checksumTypes ∧
    ParseAbiStringValue refDeps "checksum160" (quoted (txt "00ff"))
      = .wrote ([0, 255] ++ List.replicate 18 0) ∧
    (ParseAbiStringValue refDeps "checksum160" (txt "00ff")).fault ≠ none ∧
    (ParseAbiStringValue refDeps "checksum160" (quoted (txt "0g"))).fault ≠ none ∧
    (ParseAbiStringValue refDeps "checksum160" (quoted (List.replicate 42 48))).fault ≠ none :=
  ⟨by decide, rfl,
    (checksum_pack refDeps "checksum160" 20 (txt "00ff") (by decide)).1.mpr
      (Or.inl (by
        rintro ⟨c, hc⟩
        have h48 : (some 48 : Option Nat) = some 34 := congrArg List.head? hc
        exact absurd (Option.some.inj h48) (by decide))),
    by decide, by decide⟩

/-! ## C26 -/

set_option maxRecDepth 100000 in
/-- C26: at the failing input, the quantity `1.0000 EOS` and the contract `eosio.token`, the
extended_asset case of `ParseAbiStringValue` writes the 16 bytes of the asset and then
returns the invalid-name error, for it compares `N2S (S2N contract)` with the whole JSON text
and not with the contract; in general it succeeds only when the two are equal; and the JSON
object as the value of a struct field never reaches this case: `ParseAbiValue` looks for a
struct named `extended_asset` and returns the unknown-type error. -/
theorem extended_asset_pack_fails :
    refUnmarshalExtendedAsset extendedAssetText = some (txt "1.0000 EOS", txt "eosio.token") ∧
    refN2S (refS2N (txt "eosio.token")) = txt "eosio.token" ∧
    ParseAbiStringValue libDeps "extended_asset" extendedAssetText
      = ⟨leBytes 8 10000 ++ 4 :: copyInto 7 (txt "EOS"),
          some (.error (.invalidValue "name" extendedAssetText))⟩ ∧
    (∀ (d : Deps) (v q c r : Bytes), d.unmarshalExtendedAsset v = some (q, c) →
      ParseAsset d q = some r →
      ((ParseAbiStringValue d "extended_asset" v).fault = none ↔ d.N2S (d.S2N c) = v)) ∧
    PackAbiStructByName libDeps vaultSerializer 1 "vault" "deposit"
        (some (.obj [("amount", .obj [("quantity", .lit (txt "\"1.0000 EOS\"")),
          ("contract", .lit (txt "\"eosio.token\""))])]))
      = .error (.error (.unknownAbiType "extended_asset")) := by
  refine ⟨rfl, by decide, rfl, ?_, rfl⟩
  intro d v q c r hu hp
  have hcase : ParseAbiStringValue d "extended_asset" v =
      (match d.unmarshalExtendedAsset v with
       | none => PackRes.fail (.lib "json.Unmarshal")
       | some (quantity, contract) =>
         match ParseAsset d quantity with
         | none => PackRes.fail (.invalidValue "asset" v)
         | some r =>
           if d.N2S (d.S2N contract) ≠ v then ⟨r, some (.error (.invalidValue "name" v))⟩
           else .wrote (r ++ PackInt 64 (d.S2N contract))) := rfl
  rw [hcase, hu]
  simp only [hp]
  by_cases hn : d.N2S (d.S2N c) = v
  · rw [if_neg (fun h => h hn)]
    exact ⟨fun _ => hn, fun _ => rfl⟩
  · rw [if_pos hn]
    exact ⟨fun h => absurd h (by simp), fun h => absurd h hn⟩

/-! ## C27 -/

set_option maxRecDepth 100000 in
/-- C27: at the failing inputs the round trip changes the instant.  As `time_point` the text
`2021-01-01T00:00:00.5` is packed to its nanoseconds and unpacked to `2021-01-01T00:00:00`,
the half second lost.  As `time_point_sec` the text `2106-02-07T06:28:16`, which is `2 ^ 32`
seconds after the epoch, is packed to four zero bytes, as `1970-01-01T00:00:00` is, and
unpacked to `1970-01-01T00:00:00`; and `1969-12-31T23:59:59` is unpacked to
`2106-02-07T06:28:15`.  The text `2021-01-01T00:00:00` comes back as it was. -/
theorem timestamp_roundtrip_fails :
    ParseAbiStringValue libDeps "time_point" (quoted (txt "2021-01-01T00:00:00.5"))
      = .wrote (PackInt 64 1609459200500000000) ∧
    unpackAbiStructField libDeps "time_point" (PackInt 64 1609459200500000000)
      = (.ok (.str (txt "2021-01-01T00:00:00")), []) ∧
    refTimeParse (txt "2106-02-07T06:28:16Z") = some (2 ^ 32, 2 ^ 32 * 1000000000) ∧
    ParseAbiStringValue libDeps "time_point_sec" (quoted (txt "2106-02-07T06:28:16"))
      = .wrote (leBytes 4 0) ∧
    ParseAbiStringValue libDeps "time_point_sec" (quoted (txt "1970-01-01T00:00:00"))
      = .wrote (leBytes 4 0) ∧
    unpackAbiStructField libDeps "time_point_sec" (leBytes 4 0)
      = (.ok (.str (txt "1970-01-01T00:00:00")), []) ∧
    ParseAbiStringValue libDeps "block_timestamp_type" (quoted (txt "1969-12-31T23:59:59"))
      = .wrote (leBytes 4 (2 ^ 32 - 1)) ∧
    unpackAbiStructField libDeps "block_timestamp_type" (leBytes 4 (2 ^ 32 - 1))
      = (.ok (.str (txt "2106-02-07T06:28:15")), []) ∧
    ParseAbiStringValue libDeps "time_point_sec" (quoted (txt "2021-01-01T00:00:00"))
      = .wrote (leBytes 4 1609459200) ∧
    unpackAbiStructField libDeps "time_point_sec" (leBytes 4 1609459200)
      = (.ok (.str (txt "2021-01-01T00:00:00")), []) ∧
    (∀ (sec : Int), PackInt 32 (sec + 2 ^ 32) = PackInt 32 sec) := by
  refine ⟨rfl, rfl, rfl, rfl, rfl, rfl, rfl, rfl, rfl, rfl, ?_⟩
  intro sec
  unfold PackInt toUnsigned
  rw [Int.add_emod_self]

/-! ## C28 -/

/-- C28: for a name of the system ABI whose base chain is finite and made of known structs,
`GetType`, given fuel for the length of the chain, returns the type that the nearest struct
of the chain declares for the field: the declared type in the struct itself if it declares the
field, else the declared type in the first struct further up the chain that declares it, and
the empty name when no struct of the chain declares it. -/
theorem GetType_chases_base (t : ABISerializer) (name fieldName : String)
    (chain : List ABIStruct) (fuel : Nat) (hchain : BaseChain t name chain)
    (hfuel : chain.length ≤ fuel) :
    GetType t fuel name fieldName = .ok (nearestType fieldName chain) ∧
    (∀ s rest, chain = s :: rest → declares fieldName s = true →
      GetType t fuel name fieldName = .ok (declaredType fieldName s)) ∧
    (∀ pre s post, chain = pre ++ s :: post → (∀ p ∈ pre, declares fieldName p = false) →
      declares fieldName s = true →
      GetType t fuel name fieldName = .ok (declaredType fieldName s)) ∧
    ((∀ p ∈ chain, declares fieldName p = false) →
      GetType t fuel name fieldName = .ok "") := by
  have hmain := GetType_of_chain t fieldName chain name fuel hchain hfuel
  have hpre : ∀ (pre : List ABIStruct) (tail : List ABIStruct),
      (∀ p ∈ pre, declares fieldName p = false) →
      nearestType fieldName (pre ++ tail) = nearestType fieldName tail := by
    intro pre tail
    induction pre with
    | nil => intro _; rfl
    | cons p ps ih =>
      intro h
      rw [List.cons_append, nearestType_cons, h p (List.mem_cons_self _ _)]
      simp only [Bool.false_eq_true, if_false]
      exact ih (fun q hq => h q (List.mem_cons_of_mem _ hq))
  refine ⟨hmain, ?_, ?_, ?_⟩
  · intro s rest hc hd
    rw [hmain, hc, nearestType_cons, if_pos hd]
  · intro pre s post hc hn hd
    rw [hmain, hc, hpre pre _ hn, nearestType_cons, if_pos hd]
  · intro hn
    rw [hmain]
    have := hpre chain [] hn
    rw [List.append_nil] at this
    rw [this]
    rfl

/-- The field `expiration` is found in the base `transaction_header` of `transaction`, the
field `transaction_extensions` in `transaction` itself, and an undeclared name gives the
empty name. -/
theorem GetType_chases_base_witness :
    BaseChain systemSerializer "transaction" [transactionStruct, headerStruct] ∧
    GetType systemSerializer 2 "transaction" "expiration" = .ok "time_point_sec" ∧
    GetType systemSerializer 2 "transaction" "transaction_extensions" = .ok "extension[]" ∧
    GetType systemSerializer 2 "transaction" "nonesuch" = .ok "" :=
  have hchain : BaseChain systemSerializer "transaction" [transactionStruct, headerStruct] :=
    BaseChain.step "transaction" transactionStruct [headerStruct] rfl (by decide)
      (BaseChain.last "transaction_header" headerStruct rfl rfl)
  ⟨hchain,
    (GetType_chases_base systemSerializer "transaction" "expiration"
      [transactionStruct, headerStruct] 2 hchain (Nat.le_refl 2)).1,
    rfl, rfl⟩

/-! ## C29 -/

/-- C29: at the failing input the record changes with the bytes that follow.  The contract
`shadow` declares a struct under the name `uint8`; the struct with the one field
`level: uint8` is unpacked from no bytes to the record with an empty record under `level`,
for the primitive fails and the field is then read as the struct; and from the same bytes
followed by the byte 07 it is unpacked to the record with 7 under `level`.  Where no struct
stands behind the name of a primitive (and the reader of `varint32` reads the same from a
longer input), a struct that is unpacked from an input is unpacked to the same record from
the input followed by more bytes; so for the contract `demo` the byte 07 followed by more
bytes gives the record of 07 alone. -/
theorem unpack_trailing_bytes_change_record :
    UnpackAbiStruct refDeps shadowSerializer 1 "shadow" levelStruct []
      = .ok [("level", .obj [])] ∧
    UnpackAbiStruct refDeps shadowSerializer 1 "shadow" levelStruct ([] ++ [7])
      = .ok [("level", .uint 7)] ∧
    GetAbiStruct shadowSerializer "shadow" "uint8" = .ok (some ⟨"uint8", "", []⟩) ∧
    UnpackAbiStruct refDeps refSerializer 1 "demo" levelStruct [7]
      = .ok [("level", .uint 7)] ∧
    UnpackAbiStruct refDeps refSerializer 1 "demo" levelStruct ([7] ++ [1, 2, 3])
      = .ok [("level", .uint 7)] ∧
    (∀ (d : Deps) (t : ABISerializer) (fuel : Nat) (contractName : String) (S : ABIStruct)
        (b x : Bytes) (r : OrderedMap),
      (∀ (b x : Bytes) (n : Int) (rest : Bytes), d.UnpackVarInt32 b = some (n, rest) →
        d.UnpackVarInt32 (b ++ x) = some (n, rest ++ x)) →
      (∀ typ ∈ t.baseTypeMap, hasArraySuffix typ = false ∧
        ∀ s, GetAbiStruct t contractName typ ≠ .ok (some s)) →
      UnpackAbiStruct d t fuel contractName S b = .ok r →
      UnpackAbiStruct d t fuel contractName S (b ++ x) = .ok r) := by
  refine ⟨rfl, rfl, rfl, rfl, rfl, ?_⟩
  intro d t fuel contractName S b x r hd hprim h
  unfold UnpackAbiStruct at h ⊢
  have hp : unpackAbiStruct d t fuel contractName S [] b
      = (.ok r, (unpackAbiStruct d t fuel contractName S [] b).2) := by
    rw [← h]
  rw [unpackAbiStruct_stable d t hd contractName hprim x fuel S [] b r _ hp]

/-! ## C30 -/

/-- C30: whenever `ParseAsset` accepts a text, the text is an integer part of digits, after a
sign or none (a minus sign only before the value zero), a point, one or more fraction digits
that are all zero, a space and a valid symbol code; the encoded amount is the value of the
integer part times ten to the number of fraction digits and is at most `2 ^ 63 - 1`; and the
output is 16 bytes long.  A text without a point, a text with an empty fraction, a text
whose integer part is a minus sign and digits of a value other than zero, and a text with a
fraction digit other than zero are rejected. -/
theorem ParseAsset_accepts_only (d : Deps) :
    (∀ v r, ParseAsset d v = some r →
      ∃ (sgn ip : Bytes) (k : Nat) (code : Bytes),
        v = ((sgn ++ ip) ++ 46 :: List.replicate k 48) ++ 32 :: code ∧
        (sgn = [] ∨ sgn = [43] ∨ (sgn = [45] ∧ digitsValue 0 ip = 0)) ∧
        ip ≠ [] ∧ ip.all isDigit = true ∧ 1 ≤ k ∧ IsSymbolValid code = true ∧
        digitsValue 0 ip * 10 ^ k ≤ 2 ^ 63 - 1 ∧
        Decoder.readInt r 64
          = (.ok ((digitsValue 0 ip * 10 ^ k : Nat) : Int), (k % 256) :: copyInto 7 code) ∧
        r.length = 16) ∧
    (∀ v, 46 ∉ v → ParseAsset d v = none) ∧
    (∀ a0 code, ParseAsset d ((a0 ++ [46]) ++ 32 :: code) = none) ∧
    (∀ ip a1 code, ip.all isDigit = true → digitsValue 0 ip ≠ 0 →
      ParseAsset d (((45 :: ip) ++ 46 :: a1) ++ 32 :: code) = none) ∧
    (∀ a0 a1 code c, c ∈ a1 → 49 ≤ c → c ≤ 57 →
      ParseAsset d ((a0 ++ 46 :: a1) ++ 32 :: code) = none) := by
  have hnone : ∀ v, (∀ r, ParseAsset d v = some r → False) → ParseAsset d v = none := by
    intro v hv
    cases hp : ParseAsset d v with
    | none => rfl
    | some r => exact absurd hp (fun hx => hv r hx)
  -- the two cuts of an accepted text
  have hcut : ∀ (a0 a1 code v r : Bytes), v = (a0 ++ 46 :: a1) ++ 32 :: code →
      ParseAsset d v = some r →
      ∃ (sgn ip : Bytes) (k : Nat), a0 = sgn ++ ip ∧ a1 = List.replicate k 48 ∧
        (sgn = [] ∨ sgn = [43] ∨ (sgn = [45] ∧ digitsValue 0 ip = 0)) ∧
        ip ≠ [] ∧ ip.all isDigit = true ∧ 1 ≤ k := by
    intro a0 a1 code v r hv hp
    obtain ⟨sgn, ip, k, code2, hv2, hsign, hne, hall, hk, hvalid, _, _, _⟩ :=
      ParseAsset_form d v r hp
    have hip := digits_mem ip hall
    have hsg : ∀ c ∈ sgn, c = 43 ∨ c = 45 := by
      intro c hc
      rcases hsign with hx | hx | ⟨hx, _⟩
      · rw [hx] at hc
        exact absurd hc (List.not_mem_nil _)
      · rw [hx] at hc
        exact Or.inl (List.mem_singleton.mp hc)
      · rw [hx] at hc
        exact Or.inr (List.mem_singleton.mp hc)
    have h46 : (46 : Nat) ∉ sgn ++ ip := by
      intro hm
      rcases List.mem_append.mp hm with hx | hx
      · have := hsg 46 hx
        omega
      · have := hip 46 hx
        omega
    have h46z : (46 : Nat) ∉ List.replicate k 48 := fun hx => by
      have := List.eq_of_mem_replicate hx
      omega
    have h32a : (32 : Nat) ∉ (sgn ++ ip) ++ 46 :: List.replicate k 48 := by
      intro hm
      rcases List.mem_append.mp hm with hx | hx
      · rcases List.mem_append.mp hx with hy | hy
        · have := hsg 32 hy
          omega
        · have := hip 32 hy
          omega
      · rcases List.mem_cons.mp hx with hy | hy
        · omega
        · have := List.eq_of_mem_replicate hy
          omega
    have h32c : (32 : Nat) ∉ code2 := fun hx => by
      rcases IsSymbolValid_mem code2 hvalid 32 hx with hy | hy <;> omega
    rw [hv] at hv2
    obtain ⟨e1, _⟩ := split_unique 32 _ _ _ _ h32a h32c hv2
    obtain ⟨e2, e3⟩ := split_unique 46 _ _ _ _ h46 h46z e1
    exact ⟨sgn, ip, k, e2, e3, hsign, hne, hall, hk⟩
  refine ⟨?_, ?_, ?_, ?_, ?_⟩
  · intro v r hp
    obtain ⟨sgn, ip, k, code, hv, hsign, hne, hall, hk, hvalid, _, hfit, hr⟩ :=
      ParseAsset_form d v r hp
    refine ⟨sgn, ip, k, code, hv, hsign, hne, hall, hk, hvalid, by omega, ?_, ?_⟩
    · rw [hr, List.append_assoc, readInt64_PackInt _ _ hfit]
      rfl
    · rw [hr, PackInt64_nat _ hfit]
      simp [length_leBytes, length_copyInto]
  · intro v h46
    apply hnone
    intro r hp
    obtain ⟨sgn, ip, k, code, hv, _⟩ := ParseAsset_form d v r hp
    apply h46
    rw [hv]
    simp
  · intro a0 code
    apply hnone
    intro r hp
    obtain ⟨sgn, ip, k, _, hz, _, _, _, hk⟩ := hcut a0 [] code _ r rfl hp
    have := congrArg List.length hz
    simp at this
    omega
  · intro ip a1 code hall hval
    apply hnone
    intro r hp
    obtain ⟨sgn, ip2, k, ha, _, hsign, hne2, hall2, _⟩ := hcut (45 :: ip) a1 code _ r rfl hp
    obtain ⟨c2, cs2, hds2, hc2⟩ := head_digit ip2 hne2 hall2
    rcases hsign with hx | hx | ⟨hx, hzero⟩
    · rw [hx, List.nil_append, hds2] at ha
      have := (List.cons.inj ha).1
      omega
    · rw [hx] at ha
      exact absurd (List.cons.inj ha).1 (by decide)
    · rw [hx] at ha
      have hip : ip = ip2 := (List.cons.inj ha).2
      rw [hip] at hval
      exact hval hzero
  · intro a0 a1 code c hc h49 h57
    apply hnone
    intro r hp
    obtain ⟨sgn, ip, k, _, hz, _⟩ := hcut a0 a1 code _ r rfl hp
    rw [hz] at hc
    have := List.eq_of_mem_replicate hc
    omega

set_option maxRecDepth 100000 in
/-- The text `1.0000 EOS` is accepted with the amount 10000; the texts `1 EOS`, `1. EOS`,
`-1.0 EOS` and `1.5000 EOS` are rejected. -/
theorem ParseAsset_accepts_only_witness :
    ParseAsset refDeps (txt "1.0000 EOS")
      = some (leBytes 8 10000 ++ 4 :: copyInto 7 (txt "EOS")) ∧
    Decoder.readInt (leBytes 8 10000 ++ 4 :: copyInto 7 (txt "EOS")) 64
      = (.ok 10000, 4 :: copyInto 7 (txt "EOS")) ∧
    ParseAsset refDeps (txt "1 EOS") = none ∧
    ParseAsset refDeps ((txt "1" ++ [46]) ++ 32 :: txt "EOS") = none ∧
    ParseAsset refDeps (((45 :: txt "1") ++ 46 :: txt "0") ++ 32 :: txt "EOS") = none ∧
    ParseAsset refDeps ((txt "1" ++ 46 :: txt "5000") ++ 32 :: txt "EOS") = none :=
  ⟨rfl, rfl,
    (ParseAsset_accepts_only refDeps).2.1 (txt "1 EOS") (by decide),
    (ParseAsset_accepts_only refDeps).2.2.1 (txt "1") (txt "EOS"),
    (ParseAsset_accepts_only refDeps).2.2.2.1 (txt "1") (txt "0") (txt "EOS") rfl (by decide),
    (ParseAsset_accepts_only refDeps).2.2.2.2 (txt "1") (txt "5000") (txt "EOS") 53
      (by decide) (by decide) (by decide)⟩


/-! ## C31 -/

/-- C31: `transaction_new_` returns -1 exactly when the table has 1024 slots or more, and
leaves the table as it is then; releasing slots with `transaction_free_` does not change
that; a table reached by calls from the empty table never has more than 1024 slots, so there
it returns -1 exactly when the table has 1024 slots.  On a table of fewer slots it returns the
smallest index whose slot is nil, or the length of the table if no slot is nil; after the
call that slot holds the new transaction and `validateIndex` accepts it, every other slot is
as before, and every handle that `validateIndex` accepted before is another handle and is
still accepted. -/
theorem transaction_new_allocates {α : Type} (tbl : HandleTable α) (tx : α) :
    ((transaction_new_ tbl tx).2 = -1 ↔ 1024 ≤ tbl.length) ∧
    (1024 ≤ tbl.length → (transaction_new_ tbl tx).1 = tbl) ∧
    (∀ idx, (transaction_new_ (transaction_free_ tbl idx) tx).2 = -1 ↔
      (transaction_new_ tbl tx).2 = -1) ∧
    (∀ calls : List (HandleCall α), (runCalls [] calls).length ≤ 1024 ∧
      ((transaction_new_ (runCalls [] calls) tx).2 = -1 ↔
        (runCalls [] calls).length = 1024)) ∧
    (tbl.length < 1024 →
      ∃ i : Nat, (transaction_new_ tbl tx).2 = (i : Int) ∧
        ((i < tbl.length ∧ tbl[i]? = some none) ∨ i = tbl.length) ∧
        (∀ j, j < i → tbl[j]? ≠ some none) ∧
        (transaction_new_ tbl tx).1[i]? = some (some tx) ∧
        validateIndex (transaction_new_ tbl tx).1 (i : Int) = none ∧
        (∀ j, j ≠ i → (transaction_new_ tbl tx).1[j]? = tbl[j]?) ∧
        (∀ idx : Int, validateIndex tbl idx = none →
          idx ≠ (i : Int) ∧ validateIndex (transaction_new_ tbl tx).1 idx = none)) := by
  have hiff : ∀ (t : HandleTable α), (transaction_new_ t tx).2 = -1 ↔ 1024 ≤ t.length := by
    intro t
    by_cases hlen : t.length < 1024
    · obtain ⟨i, _, hi⟩ := transaction_new_below t tx hlen
      have h2 : (transaction_new_ t tx).2 = (i : Int) := by
        rcases hi with ⟨_, _, hi⟩ | ⟨_, hi⟩ <;> rw [hi]
      rw [h2]
      constructor
      · intro h
        omega
      · intro h
        omega
    · have : transaction_new_ t tx = (t, -1) := by
        unfold transaction_new_
        rw [if_pos (by omega)]
      rw [this]
      exact ⟨fun _ => by omega, fun _ => rfl⟩
  refine ⟨hiff tbl, ?_, ?_, ?_, ?_⟩
  · intro h
    unfold transaction_new_
    rw [if_pos h]
  · intro idx
    rw [hiff, hiff, length_transaction_free]
  · intro calls
    have hle := length_runCalls calls ([] : HandleTable α) (by simp)
    refine ⟨hle, ?_⟩
    rw [hiff]
    omega
  · intro hlen
    obtain ⟨i, hmin, hi⟩ := transaction_new_below tbl tx hlen
    have hslot : (transaction_new_ tbl tx).1[i]? = some (some tx) := by
      rcases hi with ⟨hk, _, hi⟩ | ⟨hk, hi⟩
      · rw [hi]
        simp [List.getElem?_set, hk]
      · rw [hi, hk]
        simp
    have hother : ∀ j, j ≠ i → (transaction_new_ tbl tx).1[j]? = tbl[j]? := by
      intro j hj
      rcases hi with ⟨hk, _, hi⟩ | ⟨hk, hi⟩
      · rw [hi]
        simp only
        rw [List.getElem?_set_ne (Ne.symm hj)]
      · rw [hi]
        simp only
        by_cases hjl : j < tbl.length
        · rw [List.getElem?_append_left hjl]
        · rw [List.getElem?_eq_none (by simp; omega), List.getElem?_eq_none (by omega)]
    have hfree : ∀ a, tbl[i]? ≠ some (some a) := by
      intro a ha
      rcases hi with ⟨_, hn, _⟩ | ⟨hk, _⟩
      · rw [hn] at ha
        exact absurd ha (by simp)
      · rw [List.getElem?_eq_none (by omega)] at ha
        exact absurd ha (by simp)
    refine ⟨i, ?_, ?_, hmin, hslot, (validateIndex_nat _ i).mpr ⟨tx, hslot⟩, hother, ?_⟩
    · rcases hi with ⟨_, _, hi⟩ | ⟨_, hi⟩ <;> rw [hi]
    · rcases hi with ⟨hk, hn, _⟩ | ⟨hk, _⟩
      · exact Or.inl ⟨hk, hn⟩
      · exact Or.inr hk
    · intro idx hidx
      obtain ⟨j, a, rfl, ha⟩ := validateIndex_ok tbl idx hidx
      have hji : j ≠ i := by
        intro hx
        rw [hx] at ha
        exact hfree a ha
      refine ⟨by omega, (validateIndex_nat _ j).mpr ⟨a, ?_⟩⟩
      rw [hother j hji]
      exact ha

/-- In the table with the slots 1 and 3 nil the new transaction gets the handle 1; in a full
table of two slots it gets the handle 2; a table of 1024 nil slots gives -1. -/
theorem transaction_new_allocates_witness :
    transaction_new_ [some 10, none, some 30, none] 77
      = ([some 10, some 77, some 30, none], 1) ∧
    transaction_new_ [some 10, some 20] 77 = ([some 10, some 20, some 77], 2) ∧
    transaction_new_ (transaction_free_ [some 10, some 20] 0) 77
      = ([some 77, some 20], 0) ∧
    (transaction_new_ (List.replicate 1024 (none : Option Nat)) 77).2 = -1 ∧
    validateIndex (transaction_new_ [some 10, none, some 30, none] 77).1 1 = none ∧
    (runCalls ([] : HandleTable Nat) [.new 1, .new 2, .free 0, .new 3]) = [some 3, some 2] :=
  ⟨rfl, rfl, rfl,
    (transaction_new_allocates (List.replicate 1024 (none : Option Nat)) 77).1.mpr
      (by rw [List.length_replicate]),
    rfl, rfl⟩


end Uuoskit
